import Mathlib
set_option linter.unusedVariables false

/-!
Verification of the Expo Go SubtleCrypto polyfill of this repository: a shallow
embedding of the ASN.1 DER codec, the Ed25519 SPKI/PKCS8 container handling, the
HMAC-SHA256 and AES-GCM adapters (including the node-forge cipher semantics they
rely on) and the `SubtleCryptoPolyfill` dispatcher, together with theorems about
the properties stated in the design document.

Byte buffers (`Uint8Array` values) are modelled as `List Nat` with every entry
below 256.  JavaScript numbers that can become `NaN`/`undefined` during the
ASN.1 walk are modelled as `Option Int` (`none` is `NaN`/`undefined`; any
arithmetic on `none` stays `none`, and every comparison of `none` with a
concrete tag byte is false, exactly as `NaN`/`undefined` comparisons are in
JavaScript).
-/

abbrev Bytes := List Nat

/-- Errors thrown by the polyfill: `NotSupportedError` is its own class in the
source; every other `throw new Error(...)` is a plain error. -/
inductive CryptoError where
  | notSupported (msg : String)
  | error (msg : String)
deriving Repr, DecidableEq


/-- Decidable equality on `Except`, needed to evaluate the model at closed
inputs. -/
instance {e a : Type} [DecidableEq e] [DecidableEq a] : DecidableEq (Except e a) := fun x y =>
  match x, y with
  | .ok v, .ok w =>
      if h : v = w then .isTrue (by rw [h]) else .isFalse (by intro he; cases he; exact h rfl)
  | .error v, .error w =>
      if h : v = w then .isTrue (by rw [h]) else .isFalse (by intro he; cases he; exact h rfl)
  | .ok _, .error _ => .isFalse (by intro he; cases he)
  | .error _, .ok _ => .isFalse (by intro he; cases he)

/-- JavaScript number that may be `NaN`/`undefined` (`none`). -/
abbrev JNum := Option Int

/-- Addition on JavaScript numbers: `NaN` propagates. -/
def jadd (a b : JNum) : JNum :=
  match a, b with
  | some x, some y => some (x + y)
  | _, _ => none

/-- Subtraction on JavaScript numbers: `NaN` propagates. -/
def jsub (a b : JNum) : JNum :=
  match a, b with
  | some x, some y => some (x - y)
  | _, _ => none

/-- Rendering of a JavaScript number inside a template literal. -/
def jnumToString (a : JNum) : String :=
  match a with
  | none => "NaN"
  | some i => toString i

/-- Interpretation of a `Nat` as a 32-bit two's-complement value, the result
type of JavaScript's `<<` and `|` operators. -/
def toInt32 (n : Nat) : Int :=
  let m := n % 4294967296
  if m < 2147483648 then (m : Int) else (m : Int) - 4294967296

/-- The unsigned 32-bit pattern of an integer (`ToUint32` of JavaScript). -/
def toUInt32 (x : Int) : Nat :=
  (x % (4294967296 : Int)).toNat

/-- JavaScript `x << 8` (operands converted to Int32, result Int32). -/
def jsShl8 (x : Int) : Int :=
  toInt32 (toUInt32 x * 256)

/-- JavaScript `x | b` for an integer `x` and a byte `b` (bitwise or on the
32-bit patterns, result Int32). -/
def jsOr32 (x : Int) (b : Nat) : Int :=
  toInt32 (Nat.lor (toUInt32 x) (b % 4294967296))

/-- Indexing `data[pos]` of a `Uint8Array`: `undefined` (`none`) for a `NaN`,
negative or out-of-range index. -/
def jsByte (data : Bytes) (pos : JNum) : Option Nat :=
  match pos with
  | none => none
  | some i => if 0 ≤ i ∧ i < data.length then some (data.getD i.toNat 0) else none

/-- Resolution of a `slice` endpoint relative to a length, as in JavaScript
(`NaN` resolves to 0, negative values count from the end, everything is
clamped to `[0, len]`). -/
def jsSliceIndex (len : Nat) (x : JNum) : Nat :=
  match x with
  | none => 0
  | some v =>
      if v < 0 then (max (len + v) 0).toNat
      else min v.toNat len

/-- JavaScript `data.slice(i, j)` on a `Uint8Array`. -/
def jsSlice (data : Bytes) (i j : JNum) : Bytes :=
  let s := jsSliceIndex data.length i
  let e := jsSliceIndex data.length j
  (data.drop s).take (e - s)

/-- Result record of `readASN1Length` (`{ value, bytesRead }`).  `value` is a
JavaScript number: `undefined` (`none`) when the read happened at an invalid
index. -/
structure ASN1Len where
  value : JNum
  bytesRead : Nat
deriving Repr, DecidableEq

/-- The DER length reader `readASN1Length(data, pos)` of the Ed25519 adapter.
Short form when the top bit of the first byte is clear; long form reads
`firstByte & 0x7f` further big-endian bytes with JavaScript `(length << 8) |
data[pos + 1 + i]` 32-bit arithmetic.  A `NaN` or negative `pos` makes the
bounds check false and `data[pos]` undefined, so the short form returns an
`undefined` value with `bytesRead` 1, exactly as in JavaScript. -/
def readASN1Length (data : Bytes) (pos : JNum) : Except CryptoError ASN1Len :=
  match pos with
  | none => .ok { value := none, bytesRead := 1 }
  | some i =>
      if (data.length : Int) ≤ i then
        .error (.error "Invalid ASN.1: unexpected end of data")
      else if i < 0 then
        .ok { value := none, bytesRead := 1 }
      else
        let firstByte := data.getD i.toNat 0
        if firstByte &&& 0x80 == 0 then
          .ok { value := some (firstByte : Int), bytesRead := 1 }
        else
          let lengthBytes := firstByte &&& 0x7f
          if lengthBytes == 0 || lengthBytes > 4 then
            .error (.error "Invalid ASN.1: invalid length encoding")
          else if data.length < i.toNat + 1 + lengthBytes then
            .error (.error "Invalid ASN.1: unexpected end of data")
          else
            let v := (List.range lengthBytes).foldl
              (fun len j => jsOr32 (jsShl8 len) (data.getD (i.toNat + 1 + j) 0)) 0
            .ok { value := some v, bytesRead := 1 + lengthBytes }

/-- The parser `extractEd25519PublicKeyFromSPKI`: fixed-shape walk of an SPKI container,
returning the 32-byte public key. -/
def extractEd25519PublicKeyFromSPKI (spki : Bytes) : Except CryptoError Bytes := do
  if jsByte spki (some 0) ≠ some 0x30 then
    throw (.error "Invalid SPKI format: expected SEQUENCE")
  let seqLength ← readASN1Length spki (some 1)
  let pos1 := jadd (some 1) (some (seqLength.bytesRead : Int))
  if jsByte spki pos1 ≠ some 0x30 then
    throw (.error "Invalid SPKI format: expected AlgorithmIdentifier SEQUENCE")
  let pos2 := jadd pos1 (some 1)
  let algIdLength ← readASN1Length spki pos2
  let pos3 := jadd pos2 (jadd (some (algIdLength.bytesRead : Int)) algIdLength.value)
  if jsByte spki pos3 ≠ some 0x03 then
    throw (.error "Invalid SPKI format: expected BIT STRING")
  let pos4 := jadd pos3 (some 1)
  let bitStringLength ← readASN1Length spki pos4
  let pos5 := jadd pos4 (some (bitStringLength.bytesRead : Int))
  let pos6 := jadd pos5 (some 1)
  if jsub bitStringLength.value (some 1) ≠ some 32 then
    throw (.error ("Invalid Ed25519 public key size: expected 32, got " ++
      jnumToString (jsub bitStringLength.value (some 1))))
  pure (jsSlice spki pos6 (jadd pos6 (some 32)))

/-- The parser `extractEd25519PrivateKeyFromPKCS8`: fixed-shape walk of a PKCS8 container,
returning the 32-byte seed (handling both the RFC 8410 double OCTET STRING
wrapping and the direct seed layout). -/
def extractEd25519PrivateKeyFromPKCS8 (pkcs8 : Bytes) : Except CryptoError Bytes := do
  if jsByte pkcs8 (some 0) ≠ some 0x30 then
    throw (.error "Invalid PKCS8 format: expected SEQUENCE")
  let seqLength ← readASN1Length pkcs8 (some 1)
  let pos1 := jadd (some 1) (some (seqLength.bytesRead : Int))
  if jsByte pkcs8 pos1 ≠ some 0x02 then
    throw (.error "Invalid PKCS8 format: expected version INTEGER")
  let pos2 := jadd pos1 (some 1)
  let versionLength ← readASN1Length pkcs8 pos2
  let pos3 := jadd pos2 (jadd (some (versionLength.bytesRead : Int)) versionLength.value)
  if jsByte pkcs8 pos3 ≠ some 0x30 then
    throw (.error "Invalid PKCS8 format: expected AlgorithmIdentifier SEQUENCE")
  let pos4 := jadd pos3 (some 1)
  let algIdLength ← readASN1Length pkcs8 pos4
  let pos5 := jadd pos4 (jadd (some (algIdLength.bytesRead : Int)) algIdLength.value)
  if jsByte pkcs8 pos5 ≠ some 0x04 then
    throw (.error "Invalid PKCS8 format: expected OCTET STRING")
  let pos6 := jadd pos5 (some 1)
  let outerOctetLength ← readASN1Length pkcs8 pos6
  let pos7 := jadd pos6 (some (outerOctetLength.bytesRead : Int))
  if jsByte pkcs8 pos7 = some 0x04 then do
    let pos8 := jadd pos7 (some 1)
    let innerOctetLength ← readASN1Length pkcs8 pos8
    let pos9 := jadd pos8 (some (innerOctetLength.bytesRead : Int))
    if innerOctetLength.value ≠ some 32 then
      throw (.error ("Invalid Ed25519 private key size: expected 32, got " ++
        jnumToString innerOctetLength.value))
    pure (jsSlice pkcs8 pos9 (jadd pos9 (some 32)))
  else do
    if outerOctetLength.value ≠ some 32 then
      throw (.error ("Invalid Ed25519 private key size: expected 32, got " ++
        jnumToString outerOctetLength.value))
    pure (jsSlice pkcs8 pos7 (jadd pos7 (some 32)))

/-- Big-endian byte decomposition used by the long form of `encodeASN1Length`
(the `while (value > 0) bytes.unshift(value & 0xff)` loop). -/
def asn1LongFormBytes (value : Nat) : Bytes :=
  if h : value = 0 then []
  else asn1LongFormBytes (value / 256) ++ [value % 256]
termination_by value
decreasing_by exact Nat.div_lt_self (Nat.pos_of_ne_zero h) (by norm_num)

/-- The function `encodeASN1Length`: short form below 128, otherwise
`0x80 | count` followed by the big-endian length bytes. -/
def encodeASN1Length (length : Nat) : Bytes :=
  if length < 128 then [length]
  else
    let bytes := asn1LongFormBytes length
    (0x80 ||| bytes.length) :: bytes

/-- The function `encodeASN1Sequence`: tag `0x30`, encoded total length, concatenated items. -/
def encodeASN1Sequence (items : List Bytes) : Bytes :=
  let totalLength := (items.map List.length).sum
  0x30 :: encodeASN1Length totalLength ++ items.foldr (· ++ ·) []

/-- The function `encodeASN1BitString`: tag `0x03`, length of payload plus the unused-bits
byte, a zero unused-bits byte, then the payload. -/
def encodeASN1BitString (data : Bytes) : Bytes :=
  0x03 :: encodeASN1Length (1 + data.length) ++ (0x00 :: data)

/-- The function `encodeASN1OctetString`: tag `0x04`, encoded length, payload. -/
def encodeASN1OctetString (data : Bytes) : Bytes :=
  0x04 :: encodeASN1Length data.length ++ data

/-- The function `encodeASN1Integer`: tag `0x02`, encoded length, payload. -/
def encodeASN1Integer (data : Bytes) : Bytes :=
  0x02 :: encodeASN1Length data.length ++ data

/-- The DER encoding of the Ed25519 OID 1.3.101.112. -/
def ed25519Oid : Bytes := [0x06, 0x03, 0x2b, 0x65, 0x70]

/-- The function `encodeEd25519PublicKeyToSPKI`: SEQUENCE { SEQUENCE { OID }, BIT STRING }. -/
def encodeEd25519PublicKeyToSPKI (publicKey : Bytes) : Except CryptoError Bytes :=
  if publicKey.length ≠ 32 then
    .error (.error ("Invalid Ed25519 public key size: expected 32, got " ++
      toString publicKey.length))
  else
    let algorithmId := encodeASN1Sequence [ed25519Oid]
    let bitString := encodeASN1BitString publicKey
    .ok (encodeASN1Sequence [algorithmId, bitString])

/-- The function `encodeEd25519PrivateKeyToPKCS8`: SEQUENCE { INTEGER 0, SEQUENCE { OID },
OCTET STRING { OCTET STRING { seed } } } (RFC 8410 wrapping). -/
def encodeEd25519PrivateKeyToPKCS8 (seed : Bytes) : Except CryptoError Bytes :=
  if seed.length ≠ 32 then
    .error (.error ("Invalid Ed25519 seed size: expected 32, got " ++
      toString seed.length))
  else
    let version := encodeASN1Integer [0x00]
    let algorithmId := encodeASN1Sequence [ed25519Oid]
    let innerOctetString := encodeASN1OctetString seed
    let outerOctetString := encodeASN1OctetString innerOctetString
    .ok (encodeASN1Sequence [version, algorithmId, outerOctetString])

/-!
SHA-256, HMAC-SHA256 and PBKDF2, as computed by the node-forge primitives the
adapters delegate to (`forge.md.sha256`, `forge.hmac`, `forge.pkcs5.pbkdf2`);
these are the standard FIPS 180-4 / RFC 2104 / RFC 2898 algorithms.
-/

/-- Rotation of a 32-bit word right by `n` bits. -/
def ror32 (x n : Nat) : Nat :=
  ((x >>> n) ||| (x <<< (32 - n))) % 4294967296

/-- The 64 SHA-256 round constants, packed into one integer (word `i` at bit
offset `32 * i`). -/
def sha256KNat : Nat :=
  0xc67178f2bef9a3f7a4506ceb90befffa8cc7020884c8781478a5636f748f82ee682e6ff35b9cca4f4ed8aa4a391c0cb334b0bcb52748774c1e376c0819a4c116106aa070f40e3585d6990624d192e819c76c51a3c24b8b70a81a664ba2bfe8a192722c8581c2c92e766a0abb650a735453380d134d2c6dfc2e1b213827b70a851429296706ca6351d5a79147c6e00bf3bf597fc7b00327c8a831c66d983e515276f988da5cb0a9dc4a7484aa2de92c6f240ca1cc0fc19dc6efbe4786e49b69c1c19bf1749bdc06a780deb1fe72be5d74550c7dc3243185be12835b01d807aa98ab1c5ed5923f82a459f111f13956c25be9b5dba5b5c0fbcf71374491428a2f98

/-- The 64 SHA-256 round constants. -/
def sha256K : List Nat :=
  (List.range 64).map (fun i => (sha256KNat >>> (32 * i)) &&& 0xffffffff)

/-- The SHA-256 initial hash state, packed into one integer (word `i` at bit
offset `32 * i`). -/
def sha256H0Nat : Nat :=
  0x5be0cd191f83d9ab9b05688c510e527fa54ff53a3c6ef372bb67ae856a09e667

/-- The SHA-256 initial hash state. -/
def sha256H0 : List Nat :=
  (List.range 8).map (fun i => (sha256H0Nat >>> (32 * i)) &&& 0xffffffff)

/-- Big-endian bytes (most significant first) of a value, `n` bytes wide. -/
def natToBEBytes (n : Nat) (x : Nat) : Bytes :=
  (List.range n).map (fun i => (x >>> (8 * (n - 1 - i))) &&& 255)

/-- Big-endian interpretation of a byte list. -/
def beBytesToNat (l : Bytes) : Nat :=
  l.foldl (fun a b => a * 256 + b) 0

/-- SHA-256 padding: a `0x80` byte, zeros, and the 64-bit bit length. -/
def sha256Pad (msg : Bytes) : Bytes :=
  msg ++ 0x80 :: List.replicate ((64 - (msg.length + 9) % 64) % 64) 0 ++
    natToBEBytes 8 (8 * msg.length)

/-- Message schedule of one SHA-256 block: 16 input words extended to 64. -/
def sha256Schedule (block : Bytes) : List Nat :=
  let w0 := (List.range 16).map (fun i => beBytesToNat ((block.drop (4 * i)).take 4))
  (List.range 48).foldl
    (fun w _ =>
      let i := w.length
      let x15 := w.getD (i - 15) 0
      let x2 := w.getD (i - 2) 0
      let s0 := ror32 x15 7 ^^^ ror32 x15 18 ^^^ (x15 >>> 3)
      let s1 := ror32 x2 17 ^^^ ror32 x2 19 ^^^ (x2 >>> 10)
      w ++ [(w.getD (i - 16) 0 + s0 + w.getD (i - 7) 0 + s1) % 4294967296])
    w0

/-- Compression of one 64-byte block into the running SHA-256 state. -/
def sha256Block (hs : List Nat) (block : Bytes) : List Nat :=
  let w := sha256Schedule block
  let final := (List.range 64).foldl
    (fun st i =>
      let a := st.getD 0 0
      let b := st.getD 1 0
      let c := st.getD 2 0
      let d := st.getD 3 0
      let e := st.getD 4 0
      let f := st.getD 5 0
      let g := st.getD 6 0
      let h := st.getD 7 0
      let s1 := ror32 e 6 ^^^ ror32 e 11 ^^^ ror32 e 25
      let ch := (e &&& f) ^^^ ((e ^^^ 0xffffffff) &&& g)
      let temp1 := (h + s1 + ch + sha256K.getD i 0 + w.getD i 0) % 4294967296
      let s0 := ror32 a 2 ^^^ ror32 a 13 ^^^ ror32 a 22
      let maj := (a &&& b) ^^^ (a &&& c) ^^^ (b &&& c)
      let temp2 := (s0 + maj) % 4294967296
      [(temp1 + temp2) % 4294967296, a, b, c, (d + temp1) % 4294967296, e, f, g])
    hs
  List.zipWith (fun x y => (x + y) % 4294967296) hs final

/-- SHA-256 digest of a byte list, 32 bytes. -/
def sha256 (msg : Bytes) : Bytes :=
  let padded := sha256Pad msg
  let hs := (List.range (padded.length / 64)).foldl
    (fun hs i => sha256Block hs ((padded.drop (64 * i)).take 64)) sha256H0
  hs.foldr (fun wrd acc => natToBEBytes 4 wrd ++ acc) []

/-- HMAC-SHA256 (RFC 2104) with a 64-byte block size, as `forge.hmac` computes
it: a key longer than 64 bytes is hashed first, then zero-padded. -/
def hmacSha256 (key msg : Bytes) : Bytes :=
  let k0 := if 64 < key.length then sha256 key else key
  let k := k0 ++ List.replicate (64 - k0.length) 0
  sha256 (k.map (· ^^^ 0x5c) ++ sha256 (k.map (· ^^^ 0x36) ++ msg))

/-- One PBKDF2-HMAC-SHA256 output block `F(P, S, c, i)` (RFC 2898). -/
def pbkdf2F (password salt : Bytes) (iterations blockIndex : Nat) : Bytes :=
  let u1 := hmacSha256 password (salt ++ natToBEBytes 4 blockIndex)
  ((List.range (iterations - 1)).foldl
    (fun acc _ =>
      let u := hmacSha256 password acc.2
      (List.zipWith (· ^^^ ·) acc.1 u, u))
    (u1, u1)).1

/-- PBKDF2-HMAC-SHA256 derived key of `dkLen` bytes, as `forge.pkcs5.pbkdf2`
computes it. -/
def pbkdf2 (password salt : Bytes) (iterations dkLen : Nat) : Bytes :=
  (((List.range ((dkLen + 31) / 32)).map
    (fun i => pbkdf2F password salt iterations (i + 1))).flatten).take dkLen

/-!
AES and the node-forge AES-GCM cipher mode (`forge.cipher` with algorithm
"AES-GCM"), which implements NIST SP 800-38D.  AES state is a flat list of 16
bytes in column-major order; GHASH blocks are 128-bit naturals in big-endian
byte interpretation.
-/

/-- The AES S-box packed as one 256-byte constant (byte `i` at bit offset
`8 * i`). -/
def aesSboxNat : Nat :=
  0x16bb54b00f2d99416842e6bf0d89a18cdf2855cee9871e9b948ed9691198f8e19e1dc186b95735610ef6034866b53e708a8bbd4b1f74dde8c6b4a61c2e2578ba08ae7a65eaf4566ca94ed58d6d37c8e779e4959162acd3c25c2406490a3a32e0db0b5ede14b8ee4688902a22dc4f816073195d643d7ea7c41744975fec130ccdd2f3ff1021dab6bcf5389d928f40a351a89f3c507f02f94585334d43fbaaefd0cf584c4a39becb6a5bb1fc20ed00d153842fe329b3d63b52a05a6e1b1a2c830975b227ebe28012079a059618c323c7041531d871f1e5a534ccf73f362693fdb7c072a49cafa2d4adf04759fa7dc982ca76abd7fe2b670130c56f6bf27b777c63

/-- AES S-box lookup. -/
def aesSbox (b : Nat) : Nat :=
  (aesSboxNat >>> (8 * (b % 256))) &&& 255

/-- Multiplication by x in GF(2^8) modulo the AES polynomial. -/
def xtime (b : Nat) : Nat :=
  if b &&& 0x80 == 0 then (b <<< 1) &&& 255 else ((b <<< 1) ^^^ 0x1b) &&& 255

/-- The flat-index permutation performed by AES ShiftRows. -/
def aesShiftRowsIdx : List Nat :=
  [0, 5, 10, 15, 4, 9, 14, 3, 8, 13, 2, 7, 12, 1, 6, 11]

/-- AES MixColumns on one 4-byte column. -/
def aesMixColumn (c : Bytes) : Bytes :=
  let a0 := c.getD 0 0
  let a1 := c.getD 1 0
  let a2 := c.getD 2 0
  let a3 := c.getD 3 0
  [xtime a0 ^^^ xtime a1 ^^^ a1 ^^^ a2 ^^^ a3,
   a0 ^^^ xtime a1 ^^^ xtime a2 ^^^ a2 ^^^ a3,
   a0 ^^^ a1 ^^^ xtime a2 ^^^ xtime a3 ^^^ a3,
   xtime a0 ^^^ a0 ^^^ a1 ^^^ a2 ^^^ xtime a3]

/-- AES key expansion: the list of 4-byte round-key words. -/
def aesKeyWords (key : Bytes) : List Bytes :=
  let nk := key.length / 4
  let nr := nk + 6
  let w0 := (List.range nk).map (fun i => (key.drop (4 * i)).take 4)
  (((List.range (4 * (nr + 1) - nk)).foldl
    (fun acc idx =>
      let w := acc.1
      let rcon := acc.2
      let i := nk + idx
      let prev := w.getD (i - 1) []
      if i % nk == 0 then
        let t := (prev.drop 1 ++ prev.take 1).map aesSbox
        let t := (t.getD 0 0 ^^^ rcon) :: t.drop 1
        (w ++ [List.zipWith (· ^^^ ·) (w.getD (i - nk) []) t], xtime rcon)
      else if 6 < nk && i % nk == 4 then
        (w ++ [List.zipWith (· ^^^ ·) (w.getD (i - nk) []) (prev.map aesSbox)], rcon)
      else
        (w ++ [List.zipWith (· ^^^ ·) (w.getD (i - nk) []) prev], rcon))
    (w0, 1))).1

/-- AddRoundKey: xor of the state with four round-key words. -/
def aesAddRoundKey (state : Bytes) (words : List Bytes) : Bytes :=
  List.zipWith (· ^^^ ·) state words.flatten

/-- AES block encryption (any of the 128/192/256-bit key sizes). -/
def aesEncryptBlock (key block : Bytes) : Bytes :=
  let nr := key.length / 4 + 6
  let w := aesKeyWords key
  let state := aesAddRoundKey block (w.take 4)
  let state := (List.range (nr - 1)).foldl
    (fun st rnd =>
      let st := st.map aesSbox
      let st := aesShiftRowsIdx.map (fun i => st.getD i 0)
      let st := ((List.range 4).map (fun i => aesMixColumn ((st.drop (4 * i)).take 4))).flatten
      aesAddRoundKey st ((w.drop (4 * (rnd + 1))).take 4))
    state
  let state := state.map aesSbox
  let state := aesShiftRowsIdx.map (fun i => state.getD i 0)
  aesAddRoundKey state ((w.drop (4 * nr)).take 4)

/-- The GHASH reduction constant R = 0xe1 followed by 15 zero bytes. -/
def ghashR : Nat := 0xe1000000000000000000000000000000

/-- Multiplication in GF(2^128) with the GCM bit order (NIST SP 800-38D
algorithm 1). -/
def gmul128 (x y : Nat) : Nat :=
  (((List.range 128).foldl
    (fun acc i =>
      (if x.testBit (127 - i) then acc.1 ^^^ acc.2 else acc.1,
       if acc.2.testBit 0 then (acc.2 >>> 1) ^^^ ghashR else acc.2 >>> 1))
    (0, y))).1

/-- Zero padding of a byte list to a multiple of 16 bytes. -/
def pad16 (l : Bytes) : Bytes :=
  l ++ List.replicate ((16 - l.length % 16) % 16) 0

/-- Split of a (padded) byte list into 128-bit blocks. -/
def toBlocks (data : Bytes) : List Nat :=
  (List.range (data.length / 16)).map (fun i => beBytesToNat ((data.drop (16 * i)).take 16))

/-- GHASH over a list of blocks. -/
def ghashBlocks (h : Nat) (blocks : List Nat) : Nat :=
  blocks.foldl (fun y b => gmul128 (y ^^^ b) h) 0

/-- Application of the F2-linear map with basis images `f 0 .. f (n-1)` to the
low `n` bits of `z`: the xor of `f i` over the set bits of `z`. -/
def applyLinN (n : Nat) (f : Nat → Nat) (z : Nat) : Nat :=
  (List.range n).foldl (fun acc i => if z.testBit i then acc ^^^ f i else acc) 0

/-- The 128-bit instance of `applyLinN`, matching the GHASH block size. -/
def applyLin (f : Nat → Nat) (z : Nat) : Nat :=
  applyLinN 128 f z

/-- The GCM pre-counter block J0: the 12-byte IV is suffixed with a one,
any other IV is hashed (with its bit length) through GHASH. -/
def gcmJ0 (h : Nat) (iv : Bytes) : Nat :=
  if iv.length = 12 then beBytesToNat iv * 4294967296 + 1
  else ghashBlocks h (toBlocks (pad16 iv ++ natToBEBytes 8 0 ++ natToBEBytes 8 (8 * iv.length)))

/-- Increment of the low 32 bits of a counter block by `i`, modulo 2^32. -/
def addCtr32 (j i : Nat) : Nat :=
  (j >>> 32) * 4294967296 + ((j % 4294967296) + i) % 4294967296

/-- CTR-mode keystream application starting at `inc32(J0)`. -/
def gcmCtr (key : Bytes) (j0 : Nat) (data : Bytes) : Bytes :=
  let nb := (data.length + 15) / 16
  let ks := ((List.range nb).map
    (fun i => aesEncryptBlock key (natToBEBytes 16 (addCtr32 j0 (1 + i))))).flatten
  List.zipWith (· ^^^ ·) data ks

/-- The full (untruncated) 16-byte GCM authentication tag over a ciphertext
with empty additional data. -/
def gcmFullTag (key iv cipherText : Bytes) : Bytes :=
  let h := beBytesToNat (aesEncryptBlock key (List.replicate 16 0))
  let j0 := gcmJ0 h iv
  let s := ghashBlocks h
    (toBlocks (pad16 cipherText ++ natToBEBytes 8 0 ++ natToBEBytes 8 (8 * cipherText.length)))
  natToBEBytes 16 (s ^^^ beBytesToNat (aesEncryptBlock key (natToBEBytes 16 j0)))

/-- Tag trimming by the node-forge AES-GCM mode: `afterFinish` runs
`this.tag.truncate(this.tag.length() % (this._tagLength / 8))`, removing
`16 % (tagLength / 8)` bytes from the END of the 16-byte tag — a no-op
whenever `tagLength / 8` divides 16, in particular for the value 16 this
repository's encrypt path passes and for the standard 128.  The result is the
number of KEPT leading bytes.  Faithful for option values divisible by 8
(both call sites of this repository produce such values whenever the caller's
`tagLength` is one of the WebCrypto multiples of 64; other values make the
JavaScript arithmetic fractional and are outside this model). -/
def forgeGcmKeptTagBytes (tagLengthBits : Nat) : Nat :=
  16 - 16 % (tagLengthBits / 8)

/-- Encryption by the node-forge AES-GCM cipher (`cipher.start({iv, tagLength})`
then `update`/`finish`): the `tagLength` option is in BITS, default 128, and
the produced tag is the full tag with `16 % (tagLength / 8)` bytes truncated
off the end (`forgeGcmKeptTagBytes`).  No additional data is ever supplied by
this repository. -/
def forgeAesGcmEncrypt (key iv : Bytes) (tagLengthBits : Nat) (data : Bytes) :
    Bytes × Bytes :=
  let h := beBytesToNat (aesEncryptBlock key (List.replicate 16 0))
  let cipherText := gcmCtr key (gcmJ0 h iv) data
  (cipherText, (gcmFullTag key iv cipherText).take (forgeGcmKeptTagBytes tagLengthBits))

/-- Decryption by the node-forge AES-GCM decipher: `start` throws when the
supplied tag does not have `tagLength / 8` bytes; `finish` recomputes the tag
over the ciphertext, trims it by the same `forgeGcmKeptTagBytes` modulo rule,
and reports a boolean success next to the plaintext. -/
def forgeAesGcmDecrypt (key iv : Bytes) (tagLengthBits : Nat) (cipherText tag : Bytes) :
    Except CryptoError (Bool × Bytes) :=
  if tag.length ≠ tagLengthBits / 8 then
    .error (.error "Authentication tag does not match tag length.")
  else
    let h := beBytesToNat (aesEncryptBlock key (List.replicate 16 0))
    let plain := gcmCtr key (gcmJ0 h iv) cipherText
    let computed := (gcmFullTag key iv cipherText).take (forgeGcmKeptTagBytes tagLengthBits)
    .ok (computed = tag, plain)

/-!
The key handle data model and the `SubtleCryptoPolyfill` dispatcher.  The
ad-hoc JavaScript key objects are modelled as one structure whose optional
fields correspond to the properties the adapters attach (`_rawKey`,
`_rawPublicKey`, `_rawPrivateKey`, `_pemPublicKey`, `_pemPrivateKey`,
`_forgePublicKey`, `_forgePrivateKey`); a `none` field is an absent property.
External primitives with no algorithmic content in this repository (TweetNaCl
curve operations, node-forge RSA and PEM codecs, the host random generator)
are passed explicitly in an `Externals` record.
-/

/-- Model of a `CryptoKey` handle produced by the polyfill. -/
structure CryptoKey where
  keyType : String := ""
  extractable : Bool := false
  algName : String := ""
  algLength : Option Nat := none
  algHash : Option String := none
  algModulusLength : Option Nat := none
  algPublicExponent : Option Bytes := none
  usages : List String := []
  rawKey : Option Bytes := none
  rawPublicKey : Option Bytes := none
  rawPrivateKey : Option Bytes := none
  pemPublicKey : Option String := none
  pemPrivateKey : Option String := none
  forgePublicKey : Option Nat := none
  forgePrivateKey : Option Nat := none
deriving Repr, DecidableEq

/-- Model of a `CryptoKeyPair`. -/
structure CryptoKeyPair where
  publicKey : CryptoKey
  privateKey : CryptoKey
deriving Repr, DecidableEq

/-- Result of `generateKey`, which returns either a key pair or a single key. -/
inductive GenKeyResult where
  | pair (p : CryptoKeyPair)
  | single (k : CryptoKey)
deriving Repr, DecidableEq

/-- An algorithm-identifier object; absent properties are `none`. -/
structure AlgObj where
  name : String := ""
  modulusLength : Option Nat := none
  publicExponent : Option Bytes := none
  hash : Option String := none
  length : Option Nat := none
  iv : Option Bytes := none
  tagLength : Option Nat := none
  salt : Option Bytes := none
  iterations : Option Nat := none
deriving Repr, DecidableEq

/-- An algorithm identifier as received by the dispatcher: a bare name string
or an object. -/
inductive AlgId where
  | str (s : String)
  | obj (o : AlgObj)
deriving Repr, DecidableEq

/-- The dispatcher's normalization
`typeof algorithm === "string" ? { name: algorithm } : algorithm`. -/
def normalizeAlg : AlgId → AlgObj
  | .str s => { name := s }
  | .obj o => o

/-- JavaScript `algorithm.name` WITHOUT normalization: `undefined` (`none`) on
a bare string. -/
def jsAlgName : AlgId → Option String
  | .str _ => none
  | .obj o => some o.name

/-- Template-literal rendering of `algorithm.name` without normalization:
`undefined` prints as the string "undefined". -/
def jsAlgNameToString : AlgId → String
  | .str _ => "undefined"
  | .obj o => o.name

/-- Template-literal rendering of `alg.name || algorithm` after normalization:
the name when it is truthy (non-empty), otherwise the original identifier
(a string prints as itself, an object prints as "[object Object]"). -/
def jsNameOrSelf (a : AlgId) : String :=
  let n := (normalizeAlg a).name
  if n = "" then
    match a with
    | .str s => s
    | .obj _ => "[object Object]"
  else n

/-- JavaScript `x || d` on an optional number: `undefined` and 0 are falsy. -/
def jsOrDefault (x : Option Nat) (d : Nat) : Nat :=
  match x with
  | none => d
  | some 0 => d
  | some t => t

/-- The external primitives the adapters delegate to: TweetNaCl Ed25519
operations, node-forge RSA and PEM codecs, and the host random generator.
Opaque node-forge key objects are represented by numeric handles. -/
structure Externals where
  naclKeyPair : Bytes × Bytes := ([], [])
  naclFromSeed : Bytes → Bytes × Bytes := fun _ => ([], [])
  naclSignDetached : Bytes → Bytes → Bytes := fun _ _ => []
  naclVerifyDetached : Bytes → Bytes → Bytes → Bool := fun _ _ _ => false
  randomBytes : Nat → Bytes := fun n => List.replicate n 0
  rsaGenerateKeyPair : Option Nat → Nat → Nat × Nat × String × String :=
    fun _ _ => (0, 0, "", "")
  rsaEncryptRaw : Nat → Bytes → Bytes := fun _ _ => []
  rsaDecryptRaw : Nat → Bytes → Except CryptoError Bytes := fun _ _ => .ok []
  publicKeyFromPem : String → Except String Nat := fun _ => .ok 0
  privateKeyFromPem : String → Except String Nat := fun _ => .ok 0
  publicKeyToPem : Nat → String := fun _ => ""
  privateKeyToPem : Nat → String := fun _ => ""
  modulusBitLength : Nat → Nat := fun _ => 0
  arrayBufferToPEM : Bytes → String → String := fun _ _ => ""
  pemToArrayBuffer : String → Bytes := fun _ => []

/-- A concrete `Externals` value used to evaluate the model at closed inputs. -/
def trivE : Externals := {}

/-- The function `ed25519GenerateKey` of the Ed25519 adapter: a fresh TweetNaCl
key pair wrapped in handles with fixed flags (`extractable` true, usages
`verify` and `sign`). -/
def ed25519GenerateKey (E : Externals) : CryptoKeyPair :=
  let keyPair := E.naclKeyPair
  { publicKey :=
      { keyType := "public", extractable := true, algName := "Ed25519",
        usages := ["verify"], rawPublicKey := some keyPair.1 },
    privateKey :=
      { keyType := "private", extractable := true, algName := "Ed25519",
        usages := ["sign"], rawPrivateKey := some keyPair.2 } }

/-- The function `ed25519ImportKey`: SPKI parses a public key, anything else
takes the PKCS8 path, whose seed is expanded through TweetNaCl. -/
def ed25519ImportKey (E : Externals) (format : String) (keyData : Bytes)
    (algName : String) (extractable : Bool) (keyUsages : List String) :
    Except CryptoError CryptoKey :=
  if format = "spki" then do
    let publicKey ← extractEd25519PublicKeyFromSPKI keyData
    pure { keyType := "public", extractable := extractable, algName := algName, usages := keyUsages,
           rawPublicKey := some publicKey }
  else do
    let seed ← extractEd25519PrivateKeyFromPKCS8 keyData
    let keyPair := E.naclFromSeed seed
    pure { keyType := "private", extractable := extractable, algName := algName, usages := keyUsages,
           rawPrivateKey := some keyPair.2 }

/-- The function `ed25519ExportKey`: re-encodes to SPKI or (from the first 32
secret-key bytes, the seed) to PKCS8. -/
def ed25519ExportKey (format : String) (key : CryptoKey) : Except CryptoError Bytes :=
  if format = "spki" then
    match key.rawPublicKey with
    | none => .error (.error "Key does not contain public key material")
    | some publicKey => encodeEd25519PublicKeyToSPKI publicKey
  else
    match key.rawPrivateKey with
    | none => .error (.error "Key does not contain private key material")
    | some secretKey => encodeEd25519PrivateKeyToPKCS8 (secretKey.take 32)

/-- The function `ed25519Sign`: a detached 64-byte TweetNaCl signature; the
algorithm argument of the source is unused and omitted. -/
def ed25519Sign (E : Externals) (key : CryptoKey) (data : Bytes) :
    Except CryptoError Bytes :=
  match key.rawPrivateKey with
  | none => .error (.error "Key does not contain private key material")
  | some secretKey => .ok (E.naclSignDetached data secretKey)

/-- The function `ed25519Verify`: TweetNaCl detached verification. -/
def ed25519Verify (E : Externals) (key : CryptoKey) (signature data : Bytes) :
    Except CryptoError Bool :=
  match key.rawPublicKey with
  | none => .error (.error "Key does not contain public key material")
  | some publicKey => .ok (E.naclVerifyDetached data signature publicKey)

/-- The function `rsaGenerateKey` of the RSA adapter: node-forge key pair with
both keys cached as PEM; usages are filtered to `encrypt` / `decrypt`. -/
def rsaGenerateKey (E : Externals) (modulusLength : Option Nat)
    (publicExponent : Bytes) (hash : Option String) (extractable : Bool)
    (keyUsages : List String) : CryptoKeyPair :=
  let exponent := beBytesToNat publicExponent
  let generated := E.rsaGenerateKeyPair modulusLength exponent
  { publicKey :=
      { keyType := "public", extractable := extractable, algName := "RSA-OAEP",
        algModulusLength := modulusLength, algPublicExponent := some publicExponent,
        algHash := hash, usages := keyUsages.filter (· == "encrypt"),
        forgePublicKey := some generated.1, pemPublicKey := some generated.2.2.1 },
    privateKey :=
      { keyType := "private", extractable := extractable, algName := "RSA-OAEP",
        algModulusLength := modulusLength, algPublicExponent := some publicExponent,
        algHash := hash, usages := keyUsages.filter (· == "decrypt"),
        forgePrivateKey := some generated.2.1, pemPrivateKey := some generated.2.2.2 } }

/-- The function `rsaImportKey`: converts DER to PEM and parses with
node-forge; any parse failure is wrapped in "Failed to import RSA key". -/
def rsaImportKey (E : Externals) (format : String) (keyData : Bytes)
    (hash : Option String) (extractable : Bool) (keyUsages : List String) :
    Except CryptoError CryptoKey :=
  let pem := E.arrayBufferToPEM keyData (if format = "spki" then "PUBLIC KEY" else "PRIVATE KEY")
  if format = "spki" then
    match E.publicKeyFromPem pem with
    | .error e => .error (.error ("Failed to import RSA key: " ++ e))
    | .ok handle =>
        .ok { keyType := "public", extractable := extractable, algName := "RSA-OAEP",
              algModulusLength := some (E.modulusBitLength handle),
              algPublicExponent := some [1, 0, 1], algHash := hash,
              usages := keyUsages.filter (· == "encrypt"),
              forgePublicKey := some handle,
              pemPublicKey := some (E.publicKeyToPem handle) }
  else
    match E.privateKeyFromPem pem with
    | .error e => .error (.error ("Failed to import RSA key: " ++ e))
    | .ok handle =>
        .ok { keyType := "private", extractable := extractable, algName := "RSA-OAEP",
              algModulusLength := some (E.modulusBitLength handle),
              algPublicExponent := some [1, 0, 1], algHash := hash,
              usages := keyUsages.filter (· == "decrypt"),
              forgePrivateKey := some handle,
              pemPrivateKey := some (E.privateKeyToPem handle) }

/-- The function `rsaExportKey`: decodes the cached PEM back to DER. -/
def rsaExportKey (E : Externals) (format : String) (key : CryptoKey) :
    Except CryptoError Bytes :=
  if format = "spki" then
    match key.pemPublicKey with
    | none => .error (.error "Key does not contain public key material")
    | some pem => .ok (E.pemToArrayBuffer pem)
  else
    match key.pemPrivateKey with
    | none => .error (.error "Key does not contain private key material")
    | some pem => .ok (E.pemToArrayBuffer pem)

/-- The function `rsaEncrypt`: node-forge OAEP encryption under the cached
public key object. -/
def rsaEncrypt (E : Externals) (key : CryptoKey) (data : Bytes) :
    Except CryptoError Bytes :=
  match key.forgePublicKey with
  | none => .error (.error "Key does not contain public key material")
  | some handle => .ok (E.rsaEncryptRaw handle data)

/-- The function `rsaDecrypt`: node-forge OAEP decryption under the cached
private key object. -/
def rsaDecrypt (E : Externals) (key : CryptoKey) (data : Bytes) :
    Except CryptoError Bytes :=
  match key.forgePrivateKey with
  | none => .error (.error "Key does not contain private key material")
  | some handle => E.rsaDecryptRaw handle data

/-- Parameters of the AES-GCM adapter calls (the `iv` is `none` when the
caller's object carried no `iv` property; no claim exercises that corner, in
which case the JavaScript adapter throws while reading `undefined.buffer`). -/
structure AESGCMParams where
  iv : Option Bytes := none
  tagLength : Option Nat := none
deriving Repr, DecidableEq

/-- The function `aesGcmEncrypt` of the AES adapter.  It passes
`(params.tagLength || 128) / 8` — a BYTE count — as the node-forge `tagLength`
option, which is in BITS, and appends the resulting tag to the ciphertext. -/
def aesGcmEncrypt (params : AESGCMParams) (key : CryptoKey) (data : Bytes) : Bytes :=
  let keyBytes := key.rawKey.getD []
  let ivBytes := params.iv.getD []
  let tagLengthArg := (jsOrDefault params.tagLength 128) / 8
  let result := forgeAesGcmEncrypt keyBytes ivBytes tagLengthArg data
  result.1 ++ result.2

/-- The function `aesGcmDecrypt` of the AES adapter: splits the trailing
`tagLength / 8` bytes as the tag, hands the cipher `tagLength * 8` bits
("Convert bytes to bits for node-forge"), and raises the authentication
failure when `finish` reports a mismatch. -/
def aesGcmDecrypt (params : AESGCMParams) (key : CryptoKey) (data : Bytes) :
    Except CryptoError Bytes :=
  let keyBytes := key.rawKey.getD []
  let ivBytes := params.iv.getD []
  let tagLength := (jsOrDefault params.tagLength 128) / 8
  if data.length < tagLength then
    .error (.error "Encrypted data too short (missing tag)")
  else
    let cipherText := data.take (data.length - tagLength)
    let tag := data.drop (data.length - tagLength)
    match forgeAesGcmDecrypt keyBytes ivBytes (tagLength * 8) cipherText tag with
    | .error e => .error e
    | .ok result =>
        if result.1 then .ok result.2
        else .error (.error "AES-GCM decryption failed: authentication tag mismatch")

/-- The function `hmacSign` of the HMAC adapter (the hex round trip of the
source is the identity on bytes). -/
def hmacSign (key data : Bytes) : Bytes :=
  hmacSha256 key data

/-- The function `hmacVerify`: recomputes the MAC and compares with an
xor-accumulating loop after a length guard, returning a boolean. -/
def hmacVerify (key signature data : Bytes) : Bool :=
  let expectedBytes := hmacSign key data
  if signature.length ≠ expectedBytes.length then false
  else
    ((List.range signature.length).foldl
      (fun r i => r ||| ((signature.getD i 0) ^^^ (expectedBytes.getD i 0))) 0) == 0

/-- The function `pbkdf2DeriveKey` of the PBKDF2 adapter: derives
`length / 8` bytes and wraps them in a non-extractable AES-GCM handle with
usages `encrypt` and `decrypt`. -/
def pbkdf2DeriveKey (salt : Option Bytes) (iterations : Option Nat)
    (baseKey : Bytes) (derivedLength : Option Nat) : CryptoKey :=
  let saltBytes := salt.getD []
  let keyLength := derivedLength.getD 0 / 8
  let derivedKey := pbkdf2 baseKey saltBytes (iterations.getD 0) keyLength
  let keyMaterial := derivedKey.take keyLength ++
    List.replicate (keyLength - derivedKey.length) 0
  { keyType := "secret", extractable := false, algName := "AES-GCM",
    algLength := derivedLength, usages := ["encrypt", "decrypt"],
    rawKey := some keyMaterial }

/-- The function `sha256Digest` of the SHA-256 adapter. -/
def sha256Digest (data : Bytes) : Bytes :=
  sha256 data

namespace SubtleCryptoPolyfill

/-- The method `SubtleCryptoPolyfill.generateKey`: normalizes the identifier
and routes to the Ed25519, RSA-OAEP or AES-GCM generator.  For AES-GCM with an
absent `length`, `new Uint8Array(NaN)` has length 0 and the stored length stays
absent, as in JavaScript. -/
def generateKey (E : Externals) (algorithm : AlgId) (extractable : Bool)
    (keyUsages : List String) : Except CryptoError GenKeyResult :=
  let alg := normalizeAlg algorithm
  if alg.name = "Ed25519" then
    .ok (.pair (ed25519GenerateKey E))
  else if alg.name = "RSA-OAEP" then
    .ok (.pair (rsaGenerateKey E alg.modulusLength (alg.publicExponent.getD [])
      alg.hash extractable keyUsages))
  else if alg.name = "AES-GCM" then
    let keyLength := (alg.length.getD 0) / 8
    let keyMaterial := E.randomBytes keyLength
    .ok (.single
      { keyType := "secret", extractable := extractable, algName := "AES-GCM",
        algLength := alg.length, usages := keyUsages, rawKey := some keyMaterial })
  else
    .error (.notSupported ("Algorithm " ++ alg.name ++ " is not supported"))

/-- The method `SubtleCryptoPolyfill.importKey`: rejects `jwk` before anything
else, then normalizes the identifier and routes; the buffer copying of the
source is the identity on byte content. -/
def importKey (E : Externals) (format : String) (keyData : Bytes)
    (algorithm : AlgId) (extractable : Bool) (keyUsages : List String) :
    Except CryptoError CryptoKey :=
  if format = "jwk" then
    .error (.notSupported "JWK format is not supported")
  else
    let alg := normalizeAlg algorithm
    if alg.name = "Ed25519" then
      ed25519ImportKey E format keyData alg.name extractable keyUsages
    else if alg.name = "RSA-OAEP" then
      rsaImportKey E format keyData alg.hash extractable keyUsages
    else if alg.name = "AES-GCM" then
      if format ≠ "raw" then
        .error (.error "AES-GCM keys can only be imported in 'raw' format")
      else
        .ok { keyType := "secret", extractable := extractable, algName := "AES-GCM",
              algLength := some (jsOrDefault alg.length (keyData.length * 8)),
              usages := keyUsages, rawKey := some keyData }
    else if alg.name = "HMAC" then
      if format ≠ "raw" then
        .error (.error "HMAC keys can only be imported in 'raw' format")
      else
        .ok { keyType := "secret", extractable := extractable, algName := "HMAC",
              algHash := alg.hash, algLength := some (keyData.length * 8),
              usages := keyUsages, rawKey := some keyData }
    else if alg.name = "PBKDF2" then
      .ok { keyType := "secret", extractable := extractable, algName := alg.name,
            usages := keyUsages, rawKey := some keyData }
    else
      .error (.notSupported ("Algorithm " ++ alg.name ++ " is not supported"))

/-- The method `SubtleCryptoPolyfill.exportKey`: rejects `jwk`, returns the raw
material for `raw`, and routes `spki`/`pkcs8` by the key's algorithm name.  No
`extractable` check appears anywhere on this path. -/
def exportKey (E : Externals) (format : String) (key : CryptoKey) :
    Except CryptoError Bytes :=
  if format = "jwk" then
    .error (.notSupported "JWK format is not supported")
  else if format = "raw" then
    match key.rawKey with
    | none => .error (.error "Key does not contain raw key material")
    | some rawKey => .ok rawKey
  else if format = "spki" ∨ format = "pkcs8" then
    if key.algName = "Ed25519" then
      ed25519ExportKey format key
    else if key.algName = "RSA-OAEP" then
      rsaExportKey E format key
    else
      .error (.error ("Cannot export " ++ key.algName ++ " key in " ++ format ++ " format"))
  else
    .error (.notSupported ("Export format " ++ format ++ " is not supported"))

/-- The method `SubtleCryptoPolyfill.sign`: normalizes the identifier, routes
Ed25519 and HMAC (the HMAC test also accepts the bare string), and rejects
everything else.  No usage check appears anywhere on this path. -/
def sign (E : Externals) (algorithm : AlgId) (key : CryptoKey) (data : Bytes) :
    Except CryptoError Bytes :=
  let alg := normalizeAlg algorithm
  if alg.name = "Ed25519" then
    ed25519Sign E key data
  else if algorithm = .str "HMAC" ∨ alg.name = "HMAC" then
    match key.rawKey with
    | none => .error (.error "Key does not contain raw key material")
    | some rawKey => .ok (hmacSign rawKey data)
  else
    .error (.notSupported ("Signing algorithm " ++ jsNameOrSelf algorithm ++ " is not supported"))

/-- The method `SubtleCryptoPolyfill.verify`: same routing as `sign`; the
Ed25519 and HMAC verifiers return a boolean.  No usage check appears anywhere
on this path. -/
def verify (E : Externals) (algorithm : AlgId) (key : CryptoKey)
    (signature data : Bytes) : Except CryptoError Bool :=
  let alg := normalizeAlg algorithm
  if alg.name = "Ed25519" then
    ed25519Verify E key signature data
  else if algorithm = .str "HMAC" ∨ alg.name = "HMAC" then
    match key.rawKey with
    | none => .error (.error "Key does not contain raw key material")
    | some rawKey => .ok (hmacVerify rawKey signature data)
  else
    .error (.notSupported ("Verification algorithm " ++ jsNameOrSelf algorithm ++ " is not supported"))

/-- The method `SubtleCryptoPolyfill.encrypt`: reads `algorithm.name` WITHOUT
normalizing (a bare string has an undefined `name`), so only object identifiers
route to RSA-OAEP or AES-GCM.  No usage check appears anywhere on this path. -/
def encrypt (E : Externals) (algorithm : AlgId) (key : CryptoKey) (data : Bytes) :
    Except CryptoError Bytes :=
  if jsAlgName algorithm = some "RSA-OAEP" then
    rsaEncrypt E key data
  else if jsAlgName algorithm = some "AES-GCM" then
    let o := normalizeAlg algorithm
    .ok (aesGcmEncrypt { iv := o.iv, tagLength := o.tagLength } key data)
  else
    .error (.notSupported ("Encryption algorithm " ++ jsAlgNameToString algorithm ++
      " is not supported"))

/-- The method `SubtleCryptoPolyfill.decrypt`: same non-normalizing routing as
`encrypt`.  No usage check appears anywhere on this path. -/
def decrypt (E : Externals) (algorithm : AlgId) (key : CryptoKey) (data : Bytes) :
    Except CryptoError Bytes :=
  if jsAlgName algorithm = some "RSA-OAEP" then
    rsaDecrypt E key data
  else if jsAlgName algorithm = some "AES-GCM" then
    let o := normalizeAlg algorithm
    aesGcmDecrypt { iv := o.iv, tagLength := o.tagLength } key data
  else
    .error (.notSupported ("Decryption algorithm " ++ jsAlgNameToString algorithm ++
      " is not supported"))

/-- The method `SubtleCryptoPolyfill.deriveKey`: PBKDF2 only, reading the base
key's raw material.  No usage check appears anywhere on this path. -/
def deriveKey (algorithm : AlgObj) (baseKey : CryptoKey)
    (derivedKeyType : AlgObj) : Except CryptoError CryptoKey :=
  if algorithm.name ≠ "PBKDF2" then
    .error (.notSupported ("Key derivation algorithm " ++ algorithm.name ++
      " is not supported"))
  else
    match baseKey.rawKey with
    | none => .error (.error "Base key does not contain raw key material")
    | some rawKey =>
        .ok (pbkdf2DeriveKey algorithm.salt algorithm.iterations rawKey
          derivedKeyType.length)

/-- The method `SubtleCryptoPolyfill.digest`: SHA-256 only. -/
def digest (algorithm : AlgId) (data : Bytes) : Except CryptoError Bytes :=
  let alg := match algorithm with
    | .str s => s
    | .obj o => o.name
  if alg = "SHA-256" then .ok (sha256Digest data)
  else .error (.notSupported ("Digest algorithm " ++ alg ++ " is not supported"))

/-- The method `SubtleCryptoPolyfill.deriveBits`: permanently unimplemented. -/
def deriveBits (algorithm : AlgId) (baseKey : CryptoKey) (length : Nat) :
    Except CryptoError Bytes :=
  .error (.notSupported "deriveBits is not implemented")

/-- The method `SubtleCryptoPolyfill.wrapKey`: permanently unimplemented. -/
def wrapKey (format : String) (key wrappingKey : CryptoKey)
    (wrapAlgorithm : AlgId) : Except CryptoError Bytes :=
  .error (.notSupported "wrapKey is not implemented")

/-- The method `SubtleCryptoPolyfill.unwrapKey`: permanently unimplemented. -/
def unwrapKey (format : String) (wrappedKey : Bytes)
    (unwrappingKey : CryptoKey) (unwrapAlgorithm unwrappedKeyAlgorithm : AlgId)
    (extractable : Bool) (keyUsages : List String) :
    Except CryptoError CryptoKey :=
  .error (.notSupported "unwrapKey is not implemented")

end SubtleCryptoPolyfill

/-!
Theorems for the claims.
-/

/-- C1 counterexample: an HMAC sign on a key whose declared usage set is empty
is performed and returns the MAC instead of failing with an InvalidUsage
error, so the requested operation is not checked against the key's usages. -/
theorem c1_usage_not_checked_cex :
    SubtleCryptoPolyfill.sign trivE (.str "HMAC")
      { keyType := "secret", algName := "HMAC", usages := [],
        rawKey := some [1, 2, 3] } [4, 5] = .ok (hmacSign [1, 2, 3] [4, 5]) ∧
    ({ keyType := "secret", algName := "HMAC", usages := [],
        rawKey := some [1, 2, 3] } : CryptoKey).usages = [] := by
  exact ⟨rfl, rfl⟩

/-- C1 (amended): no usage validation exists anywhere on the sign, verify,
encrypt, decrypt and deriveKey paths: their outcome is identical for any two
usage sets on the key handle, so an operation whose name is not in the key's
declared usages is performed rather than rejected (the polyfill has no
InvalidUsage error at all). -/
theorem c1_usages_never_consulted (E : Externals) (alg : AlgId)
    (algO derivedKeyType : AlgObj) (key : CryptoKey) (signature data : Bytes)
    (u1 u2 : List String) :
    SubtleCryptoPolyfill.sign E alg { key with usages := u1 } data =
      SubtleCryptoPolyfill.sign E alg { key with usages := u2 } data ∧
    SubtleCryptoPolyfill.verify E alg { key with usages := u1 } signature data =
      SubtleCryptoPolyfill.verify E alg { key with usages := u2 } signature data ∧
    SubtleCryptoPolyfill.encrypt E alg { key with usages := u1 } data =
      SubtleCryptoPolyfill.encrypt E alg { key with usages := u2 } data ∧
    SubtleCryptoPolyfill.decrypt E alg { key with usages := u1 } data =
      SubtleCryptoPolyfill.decrypt E alg { key with usages := u2 } data ∧
    SubtleCryptoPolyfill.deriveKey algO { key with usages := u1 } derivedKeyType =
      SubtleCryptoPolyfill.deriveKey algO { key with usages := u2 } derivedKeyType := by
  refine ⟨?_, ?_, ?_, ?_, ?_⟩ <;>
    simp [SubtleCryptoPolyfill.sign, SubtleCryptoPolyfill.verify,
      SubtleCryptoPolyfill.encrypt, SubtleCryptoPolyfill.decrypt,
      SubtleCryptoPolyfill.deriveKey, ed25519Sign, ed25519Verify, rsaEncrypt,
      rsaDecrypt, aesGcmEncrypt, aesGcmDecrypt]

/-- C2 counterexample: exporting a key whose `extractable` flag is false
succeeds in `raw` format and returns the raw material, so neither the
dispatcher nor the adapters enforce the extractability gate. -/
theorem c2_export_nonextractable_cex :
    SubtleCryptoPolyfill.exportKey trivE "raw"
      { extractable := false, rawKey := some [9, 9] } = .ok [9, 9] := by
  rfl

/-- C2 (amended): `exportKey` never reads the `extractable` flag: its outcome
is identical for any two values of the flag, and export of present material
succeeds even when `extractable` is false, in every format. -/
theorem c2_extractable_never_consulted (E : Externals) (format : String)
    (key : CryptoKey) (e1 e2 : Bool) :
    SubtleCryptoPolyfill.exportKey E format { key with extractable := e1 } =
      SubtleCryptoPolyfill.exportKey E format { key with extractable := e2 } ∧
    ∀ rawKey : Bytes,
      SubtleCryptoPolyfill.exportKey E "raw"
        { key with extractable := false, rawKey := some rawKey } = .ok rawKey := by
  constructor
  · simp [SubtleCryptoPolyfill.exportKey, ed25519ExportKey, rsaExportKey]
  · intro rawKey
    simp [SubtleCryptoPolyfill.exportKey]

/-- C8: deriveBits, wrapKey and unwrapKey always raise the NotSupportedError
class for every argument value, and importKey and exportKey with the `jwk`
format raise an error of that same class. -/
theorem c8_not_supported_operations :
    (∀ (algorithm : AlgId) (baseKey : CryptoKey) (length : Nat),
       SubtleCryptoPolyfill.deriveBits algorithm baseKey length =
         .error (.notSupported "deriveBits is not implemented")) ∧
    (∀ (format : String) (key wrappingKey : CryptoKey) (wrapAlgorithm : AlgId),
       SubtleCryptoPolyfill.wrapKey format key wrappingKey wrapAlgorithm =
         .error (.notSupported "wrapKey is not implemented")) ∧
    (∀ (format : String) (wrappedKey : Bytes) (unwrappingKey : CryptoKey)
       (unwrapAlgorithm unwrappedKeyAlgorithm : AlgId) (extractable : Bool)
       (keyUsages : List String),
       SubtleCryptoPolyfill.unwrapKey format wrappedKey unwrappingKey
         unwrapAlgorithm unwrappedKeyAlgorithm extractable keyUsages =
         .error (.notSupported "unwrapKey is not implemented")) ∧
    (∀ (E : Externals) (keyData : Bytes) (algorithm : AlgId) (extractable : Bool)
       (keyUsages : List String),
       SubtleCryptoPolyfill.importKey E "jwk" keyData algorithm extractable keyUsages =
         .error (.notSupported "JWK format is not supported")) ∧
    (∀ (E : Externals) (key : CryptoKey),
       SubtleCryptoPolyfill.exportKey E "jwk" key =
         .error (.notSupported "JWK format is not supported")) := by
  refine ⟨fun _ _ _ => rfl, fun _ _ _ _ => rfl, fun _ _ _ _ _ _ _ => rfl, ?_, ?_⟩
  · intro E keyData algorithm extractable keyUsages
    simp [SubtleCryptoPolyfill.importKey]
  · intro E key
    simp [SubtleCryptoPolyfill.exportKey]

/-- C10: generateKey with algorithm Ed25519 (object or bare string form)
ignores the caller's `extractable` and `keyUsages` arguments: the returned
public handle always has `extractable` true and usages exactly `["verify"]`,
and the private handle `extractable` true and usages exactly `["sign"]`. -/
theorem c10_generate_ed25519_fixed_flags (E : Externals) (extractable : Bool)
    (keyUsages : List String) :
    ∃ kp : CryptoKeyPair,
      SubtleCryptoPolyfill.generateKey E (.obj { name := "Ed25519" })
        extractable keyUsages = .ok (.pair kp) ∧
      SubtleCryptoPolyfill.generateKey E (.str "Ed25519")
        extractable keyUsages = .ok (.pair kp) ∧
      kp.publicKey.extractable = true ∧ kp.publicKey.usages = ["verify"] ∧
      kp.privateKey.extractable = true ∧ kp.privateKey.usages = ["sign"] := by
  refine ⟨ed25519GenerateKey E, rfl, rfl, rfl, rfl, rfl, rfl⟩

/-- Bitwise or of naturals is zero exactly when both sides are. -/
theorem natLorEqZeroIff {a b : Nat} : a ||| b = 0 ↔ a = 0 ∧ b = 0 := by
  constructor
  · intro h
    have hb : ∀ i, a.testBit i = false ∧ b.testBit i = false := by
      intro i
      have hc := congrArg (fun n => n.testBit i) h
      simpa [Nat.testBit_lor] using hc
    exact ⟨Nat.eq_of_testBit_eq (fun i => by simp [(hb i).1]),
           Nat.eq_of_testBit_eq (fun i => by simp [(hb i).2])⟩
  · rintro ⟨rfl, rfl⟩
    simp

/-- An or-accumulating fold is zero exactly when the seed and every
contribution are zero. -/
theorem foldlOrEqZeroIff (l : List Nat) (g : Nat → Nat) (a : Nat) :
    l.foldl (fun r i => r ||| g i) a = 0 ↔ a = 0 ∧ ∀ i ∈ l, g i = 0 := by
  induction l generalizing a with
  | nil => simp
  | cons x xs ih =>
      simp only [List.foldl_cons, ih, natLorEqZeroIff, List.mem_cons]
      constructor
      · rintro ⟨⟨ha, hx⟩, hxs⟩
        exact ⟨ha, fun i hi => hi.elim (fun he => he ▸ hx) (hxs i)⟩
      · rintro ⟨ha, hall⟩
        exact ⟨⟨ha, hall x (Or.inl rfl)⟩, fun i hi => hall i (Or.inr hi)⟩

/-- The constant-time comparison loop of `hmacVerify` is sound and complete:
it returns true exactly on equal byte lists of equal length. -/
theorem hmacVerifyEqIff (key signature data : Bytes) :
    hmacVerify key signature data = true ↔ signature = hmacSign key data := by
  unfold hmacVerify
  set expected := hmacSign key data with hexp
  by_cases hlen : signature.length = expected.length
  · simp only [hlen, ne_eq, not_true_eq_false, if_false, beq_iff_eq,
      foldlOrEqZeroIff, List.mem_range]
    constructor
    · rintro ⟨-, hall⟩
      apply List.ext_getElem hlen
      intro i h1 h2
      have hx := hall i (by omega)
      rw [Nat.xor_eq_zero] at hx
      rwa [List.getD_eq_getElem?_getD, List.getD_eq_getElem?_getD,
        List.getElem?_eq_getElem h1, List.getElem?_eq_getElem h2,
        Option.getD_some, Option.getD_some] at hx
    · rintro rfl
      refine ⟨by trivial, fun i hi => ?_⟩
      simp [Nat.xor_eq_zero]
  · simp only [hlen, ne_eq, not_false_eq_true, if_true]
    constructor
    · intro h
      cases h
    · rintro rfl
      exact absurd rfl hlen

/-- C7: HMAC verify symmetry: verifying a freshly produced MAC over the same
message returns true for every key and message, and verifying it against a
message whose MAC differs returns false (rather than throwing). -/
theorem c7_hmac_verify_symmetry :
    (∀ key m : Bytes, hmacVerify key (hmacSign key m) m = true) ∧
    (∀ key m m2 : Bytes, hmacSign key m2 ≠ hmacSign key m →
       hmacVerify key (hmacSign key m) m2 = false) := by
  constructor
  · intro key m
    exact (hmacVerifyEqIff key (hmacSign key m) m).mpr rfl
  · intro key m m2 hdiff
    by_contra hcon
    have : hmacVerify key (hmacSign key m) m2 = true := by
      revert hcon
      cases hmacVerify key (hmacSign key m) m2 <;> simp
    exact hdiff ((hmacVerifyEqIff key (hmacSign key m) m2).mp this).symm

set_option maxRecDepth 1000000 in
/-- C7 witness: the symmetry theorem applied at the concrete key [1,2,3] and
the messages [4] and [5], whose MACs differ. -/
theorem c7_hmac_verify_symmetry_witness :
    hmacVerify [1, 2, 3] (hmacSign [1, 2, 3] [4]) [4] = true ∧
    hmacVerify [1, 2, 3] (hmacSign [1, 2, 3] [4]) [5] = false :=
  ⟨c7_hmac_verify_symmetry.1 [1, 2, 3] [4],
   c7_hmac_verify_symmetry.2 [1, 2, 3] [4] [5] (by decide)⟩

/-- C9 counterexample: encrypt does not normalize a bare string algorithm:
with the string "AES-GCM" it raises NotSupported (a string has an undefined
`name` property), while the object form `{name: "AES-GCM"}` performs the
encryption, so string and object do not route identically. -/
theorem c9_encrypt_string_cex :
    SubtleCryptoPolyfill.encrypt trivE (.str "AES-GCM")
      { keyType := "secret", algName := "AES-GCM",
        rawKey := some (List.range 16) } [1, 2] =
      .error (.notSupported "Encryption algorithm undefined is not supported") ∧
    (SubtleCryptoPolyfill.encrypt trivE
      (.obj { name := "AES-GCM", iv := some (List.range 12) })
      { keyType := "secret", algName := "AES-GCM",
        rawKey := some (List.range 16) } [1, 2]).isOk = true := by
  exact ⟨rfl, rfl⟩

/-- C9 (amended): string-or-object normalization holds for generateKey,
importKey and digest (for every name) and for sign and verify (for every
non-empty name; an empty name differs only in the not-supported message text),
but encrypt and decrypt never normalize: a bare string algorithm always raises
NotSupported, in particular for the names "AES-GCM" and "RSA-OAEP". -/
theorem c9_normalization_only_some_methods :
    (∀ (E : Externals) (s : String) (extractable : Bool) (us : List String),
       SubtleCryptoPolyfill.generateKey E (.str s) extractable us =
         SubtleCryptoPolyfill.generateKey E (.obj { name := s }) extractable us) ∧
    (∀ (E : Externals) (format : String) (keyData : Bytes) (s : String)
       (extractable : Bool) (us : List String),
       SubtleCryptoPolyfill.importKey E format keyData (.str s) extractable us =
         SubtleCryptoPolyfill.importKey E format keyData (.obj { name := s }) extractable us) ∧
    (∀ (s : String) (data : Bytes),
       SubtleCryptoPolyfill.digest (.str s) data =
         SubtleCryptoPolyfill.digest (.obj { name := s }) data) ∧
    (∀ (E : Externals) (s : String) (key : CryptoKey) (data : Bytes), s ≠ "" →
       SubtleCryptoPolyfill.sign E (.str s) key data =
         SubtleCryptoPolyfill.sign E (.obj { name := s }) key data) ∧
    (∀ (E : Externals) (s : String) (key : CryptoKey) (signature data : Bytes), s ≠ "" →
       SubtleCryptoPolyfill.verify E (.str s) key signature data =
         SubtleCryptoPolyfill.verify E (.obj { name := s }) key signature data) ∧
    (∀ (E : Externals) (s : String) (key : CryptoKey) (data : Bytes),
       SubtleCryptoPolyfill.encrypt E (.str s) key data =
         .error (.notSupported "Encryption algorithm undefined is not supported")) ∧
    (∀ (E : Externals) (s : String) (key : CryptoKey) (data : Bytes),
       SubtleCryptoPolyfill.decrypt E (.str s) key data =
         .error (.notSupported "Decryption algorithm undefined is not supported")) := by
  refine ⟨fun _ _ _ _ => rfl, fun _ _ _ _ _ _ => rfl, fun _ _ => rfl, ?_, ?_,
    fun _ _ _ _ => rfl, fun _ _ _ _ => rfl⟩
  · intro E s key data hs
    simp only [SubtleCryptoPolyfill.sign, normalizeAlg, jsNameOrSelf, hs,
      if_false, AlgId.str.injEq, reduceCtorEq, false_or, or_self]
  · intro E s key signature data hs
    simp only [SubtleCryptoPolyfill.verify, normalizeAlg, jsNameOrSelf, hs,
      if_false, AlgId.str.injEq, reduceCtorEq, false_or, or_self]

/-- C9 witness: the normalization theorem applied at the name "Ed25519" for
sign and verify (discharging the non-empty-name hypothesis). -/
theorem c9_normalization_only_some_methods_witness :
    SubtleCryptoPolyfill.sign trivE (.str "Ed25519") {} [1] =
      SubtleCryptoPolyfill.sign trivE (.obj { name := "Ed25519" }) {} [1] ∧
    SubtleCryptoPolyfill.verify trivE (.str "Ed25519") {} [2] [1] =
      SubtleCryptoPolyfill.verify trivE (.obj { name := "Ed25519" }) {} [2] [1] :=
  ⟨c9_normalization_only_some_methods.2.2.2.1 trivE "Ed25519" {} [1] (by decide),
   c9_normalization_only_some_methods.2.2.2.2.1 trivE "Ed25519" {} [2] [1] (by decide)⟩

/-- An invariant carried through a fold over `List.range`. -/
theorem foldlRangeInv {α : Type} (P : Nat → α → Prop) (f : α → Nat → α) (a : α) (n : Nat)
    (h0 : P 0 a) (hs : ∀ i b, i < n → P i b → P (i + 1) (f b i)) :
    P n ((List.range n).foldl f a) := by
  induction n with
  | zero => simpa using h0
  | succ k ih =>
      rw [List.range_succ, List.foldl_append]
      exact hs k _ (Nat.lt_succ_self k)
        (ih (fun i b hi hb => hs i b (Nat.lt_succ_of_lt hi) hb))

/-- Length of a flatten whose members all have one length. -/
theorem flatten_length_const {α : Type} (L : List (List α)) (c : Nat)
    (h : ∀ l ∈ L, l.length = c) : L.flatten.length = c * L.length := by
  induction L with
  | nil => simp
  | cons x xs ih =>
      rw [List.flatten_cons, List.length_append, h x (List.mem_cons_self x xs),
        ih (fun l hl => h l (List.mem_cons_of_mem x hl))]
      simp only [List.length_cons]
      ring

/-- A byte-wise xor of byte-bounded lists is byte-bounded. -/
theorem zipWith_xor_lt (l1 l2 : Bytes) (h1 : ∀ b ∈ l1, b < 256) (h2 : ∀ b ∈ l2, b < 256) :
    ∀ b ∈ List.zipWith (· ^^^ ·) l1 l2, b < 256 := by
  induction l1 generalizing l2 with
  | nil => intro b hb; simp at hb
  | cons a t ih =>
      cases l2 with
      | nil => intro b hb; simp at hb
      | cons a2 t2 =>
          intro b hb
          rw [List.zipWith_cons_cons] at hb
          rcases List.mem_cons.mp hb with rfl | hm
          · have hx := Nat.xor_lt_two_pow (n := 8) (by simpa using h1 a (by simp))
              (by simpa using h2 a2 (by simp))
            simpa using hx
          · exact ih t2 (fun x hx => h1 x (by simp [hx])) (fun x hx => h2 x (by simp [hx])) b hm

/-- Xoring the same keystream twice returns the original list. -/
theorem zipWith_xor_cancel (m ks : Bytes) (h : m.length ≤ ks.length) :
    List.zipWith (· ^^^ ·) (List.zipWith (· ^^^ ·) m ks) ks = m := by
  induction m generalizing ks with
  | nil => simp
  | cons a t ih =>
      cases ks with
      | nil => simp at h
      | cons k kt =>
          simp only [List.zipWith_cons_cons]
          rw [Nat.xor_cancel_right, ih kt (by simpa using h)]

/-- An in-range `getD` is a member of the list. -/
theorem getD_mem {α : Type} (l : List α) (n : Nat) (d : α) (h : n < l.length) :
    l.getD n d ∈ l := by
  rw [List.getD_eq_getElem?_getD, List.getElem?_eq_getElem h, Option.getD_some]
  exact List.getElem_mem h

/-- The common term of two xors cancels. -/
theorem xor_pair_cancel (a b c : Nat) : (a ^^^ c) ^^^ (b ^^^ c) = a ^^^ b := by
  apply Nat.eq_of_testBit_eq
  intro k
  simp only [Nat.testBit_xor]
  cases a.testBit k <;> cases b.testBit k <;> cases c.testBit k <;> rfl

/-- On disjoint bit patterns, or and xor agree. -/
theorem or_eq_xor_of_disjoint (a b : Nat) (h : a &&& b = 0) : a ||| b = a ^^^ b := by
  apply Nat.eq_of_testBit_eq
  intro k
  have hk : (a.testBit k && b.testBit k) = false := by
    rw [← Nat.testBit_and, h, Nat.zero_testBit]
  rw [Nat.testBit_or, Nat.testBit_xor]
  cases ha : a.testBit k <;> cases hb : b.testBit k <;> simp_all

/-- A power of two is bit-disjoint from anything below it. -/
theorem two_pow_and_eq_zero (k low : Nat) (h : low < 2 ^ k) : 2 ^ k &&& low = 0 := by
  apply Nat.eq_of_testBit_eq
  intro j
  rw [Nat.testBit_and, Nat.zero_testBit]
  rcases eq_or_ne k j with rfl | hne
  · rw [Nat.testBit_lt_two_pow h, Bool.and_false]
  · rw [Nat.testBit_two_pow]
    simp [hne]

/-- Adding a power of two to a smaller value is a xor. -/
theorem two_pow_add_eq_xor (k low : Nat) (h : low < 2 ^ k) : 2 ^ k + low = 2 ^ k ^^^ low := by
  have h1 : 2 ^ k * 1 + low = 2 ^ k * 1 ||| low := Nat.mul_add_lt_is_or h 1
  rw [Nat.mul_one] at h1
  rw [h1, or_eq_xor_of_disjoint _ _ (two_pow_and_eq_zero k low h)]

/-- Masking with 255 is reduction modulo 256. -/
theorem and255_eq_mod (a : Nat) : a &&& 255 = a % 256 := by
  apply Nat.eq_of_testBit_eq
  intro j
  have h255 : (255 : Nat) = 2 ^ 8 - 1 := by norm_num
  have h256 : (256 : Nat) = 2 ^ 8 := by norm_num
  rw [Nat.testBit_and, h255, Nat.testBit_two_pow_sub_one, h256, Nat.testBit_mod_two_pow,
    Bool.and_comm]

/-- S-box outputs are bytes. -/
theorem aesSbox_lt (b : Nat) : aesSbox b < 256 :=
  Nat.lt_succ_of_le Nat.and_le_right

/-- `xtime` outputs are bytes. -/
theorem xtime_lt (b : Nat) : xtime b < 256 := by
  unfold xtime
  split <;> exact Nat.lt_succ_of_le Nat.and_le_right

/-- `natToBEBytes` produces exactly `n` bytes. -/
theorem natToBEBytes_length (n x : Nat) : (natToBEBytes n x).length = n := by
  simp [natToBEBytes]

/-- `natToBEBytes` produces values below 256. -/
theorem natToBEBytes_lt (n x : Nat) : ∀ b ∈ natToBEBytes n x, b < 256 := by
  intro b hb
  simp only [natToBEBytes, List.mem_map] at hb
  obtain ⟨i, _, rfl⟩ := hb
  exact Nat.lt_succ_of_le Nat.and_le_right

/-- The big-endian fold from an arbitrary accumulator. -/
theorem beBytesToNat_foldl_shift (l : Bytes) : ∀ a : Nat,
    l.foldl (fun x b => x * 256 + b) a =
      a * 256 ^ l.length + l.foldl (fun x b => x * 256 + b) 0 := by
  induction l with
  | nil => intro a; simp
  | cons b t ih =>
      intro a
      simp only [List.foldl_cons, List.length_cons]
      rw [ih (a * 256 + b), ih (0 * 256 + b)]
      ring

/-- Big-endian value of a cons. -/
theorem beBytesToNat_cons (b : Nat) (t : Bytes) :
    beBytesToNat (b :: t) = b * 256 ^ t.length + beBytesToNat t := by
  unfold beBytesToNat
  simp only [List.foldl_cons]
  rw [beBytesToNat_foldl_shift t (0 * 256 + b)]
  ring_nf

/-- A byte-bounded list reads below `256 ^ length`. -/
theorem beBytesToNat_lt (l : Bytes) (hb : ∀ b ∈ l, b < 256) :
    beBytesToNat l < 256 ^ l.length := by
  induction l with
  | nil => simp [beBytesToNat]
  | cons b t ih =>
      rw [beBytesToNat_cons, List.length_cons, pow_succ]
      have hbb : b < 256 := hb b (by simp)
      have ht : beBytesToNat t < 256 ^ t.length := ih (fun x hx => hb x (by simp [hx]))
      calc b * 256 ^ t.length + beBytesToNat t
          < b * 256 ^ t.length + 256 ^ t.length := by omega
        _ = (b + 1) * 256 ^ t.length := by ring
        _ ≤ 256 * 256 ^ t.length := Nat.mul_le_mul_right _ (by omega)
        _ = 256 ^ t.length * 256 := by ring

/-- Big-endian value of appending one byte. -/
theorem beBytesToNat_append_single (l : Bytes) (b : Nat) :
    beBytesToNat (l ++ [b]) = beBytesToNat l * 256 + b := by
  unfold beBytesToNat
  rw [List.foldl_append]
  rfl

/-- Peeling the leading byte off `natToBEBytes`. -/
theorem natToBEBytes_succ (n x : Nat) :
    natToBEBytes (n + 1) x = natToBEBytes n (x >>> 8) ++ [x &&& 255] := by
  unfold natToBEBytes
  rw [List.range_succ, List.map_append]
  congr 1
  · apply List.map_congr_left
    intro i hi
    have hi' : i < n := List.mem_range.mp hi
    have he : 8 * (n + 1 - 1 - i) = 8 + 8 * (n - 1 - i) := by omega
    rw [he, Nat.shiftRight_add]
  · simp

/-- Base-256 digit decomposition of a remainder. -/
theorem mod_mul_div_decomp (x B : Nat) :
    (x / 256 % B) * 256 + x % 256 = x % (256 * B) := by
  rcases Nat.eq_zero_or_pos B with rfl | hB
  · simp [Nat.mod_zero]
    omega
  · have hx := (Nat.div_add_mod x 256).symm
    have hq : x / 256 % B < B := Nat.mod_lt _ hB
    have hsum : 256 * (x / 256 % B) + x % 256 < 256 * B := by
      have h2 : 256 * (x / 256 % B) + 256 = 256 * (x / 256 % B + 1) := by ring
      have h3 : 256 * (x / 256 % B + 1) ≤ 256 * B := Nat.mul_le_mul_left _ (by omega)
      have h4 : x % 256 < 256 := Nat.mod_lt _ (by norm_num)
      omega
    conv_rhs => rw [hx]
    rw [Nat.add_mod, Nat.mul_mod_mul_left, Nat.mod_eq_of_lt (a := x % 256)
      (lt_of_lt_of_le (Nat.mod_lt _ (by norm_num)) (by
        calc (256:Nat) = 256 * 1 := by ring
          _ ≤ 256 * B := Nat.mul_le_mul_left _ hB)),
      Nat.mod_eq_of_lt hsum]
    ring

/-- Reading back written bytes recovers the value modulo the width. -/
theorem beBytesToNat_natToBEBytes (n x : Nat) :
    beBytesToNat (natToBEBytes n x) = x % 2 ^ (8 * n) := by
  induction n generalizing x with
  | zero => simp [natToBEBytes, beBytesToNat, Nat.mod_one]
  | succ n ih =>
      rw [natToBEBytes_succ, beBytesToNat_append_single, ih, and255_eq_mod]
      have hsr : x >>> 8 = x / 256 := by
        simp [Nat.shiftRight_eq_div_pow]
      have hp : 2 ^ (8 * (n + 1)) = 256 * 2 ^ (8 * n) := by
        rw [show 8 * (n + 1) = 8 + 8 * n by ring, pow_add]
        norm_num
      rw [hsr, hp, mod_mul_div_decomp]

/-- `natToBEBytes` is injective below its width. -/
theorem natToBEBytes_inj (n x y : Nat) (hx : x < 2 ^ (8 * n)) (hy : y < 2 ^ (8 * n))
    (h : natToBEBytes n x = natToBEBytes n y) : x = y := by
  have hh := congrArg beBytesToNat h
  rw [beBytesToNat_natToBEBytes, beBytesToNat_natToBEBytes,
    Nat.mod_eq_of_lt hx, Nat.mod_eq_of_lt hy] at hh
  exact hh

/-- Distinct equal-length byte lists read to distinct values. -/
theorem beBytesToNat_inj (l1 l2 : Bytes) (hlen : l1.length = l2.length)
    (h1 : ∀ b ∈ l1, b < 256) (h2 : ∀ b ∈ l2, b < 256) (hne : l1 ≠ l2) :
    beBytesToNat l1 ≠ beBytesToNat l2 := by
  induction l1 generalizing l2 with
  | nil =>
      cases l2 with
      | nil => exact absurd rfl hne
      | cons a2 t2 => simp at hlen
  | cons a t ih =>
      cases l2 with
      | nil => simp at hlen
      | cons a2 t2 =>
          rw [beBytesToNat_cons, beBytesToNat_cons]
          have hlen' : t.length = t2.length := by simpa using hlen
          rw [hlen']
          rcases eq_or_ne a a2 with rfl | hane
          · have htne : t ≠ t2 := by
              intro hh
              exact hne (by rw [hh])
            have hr := ih t2 hlen' (fun x hx => h1 x (by simp [hx]))
              (fun x hx => h2 x (by simp [hx])) htne
            omega
          · intro heq
            have hB : 0 < (256 : Nat) ^ t2.length := pow_pos (by norm_num) _
            have ht : beBytesToNat t < 256 ^ t2.length := by
              rw [← hlen']
              exact beBytesToNat_lt t (fun x hx => h1 x (by simp [hx]))
            have ht2 : beBytesToNat t2 < 256 ^ t2.length :=
              beBytesToNat_lt t2 (fun x hx => h2 x (by simp [hx]))
            have hdiv := congrArg (· / 256 ^ t2.length) heq
            simp only at hdiv
            rw [Nat.mul_comm a, Nat.mul_comm a2, Nat.mul_add_div hB, Nat.mul_add_div hB,
              Nat.div_eq_of_lt ht, Nat.div_eq_of_lt ht2] at hdiv
            omega

/-- Xor of two bytes is a byte. -/
theorem xor_lt_256 (a b : Nat) (ha : a < 256) (hb : b < 256) : a ^^^ b < 256 := by
  have h := Nat.xor_lt_two_pow (n := 8) (by simpa using ha) (by simpa using hb)
  simpa using h

/-- Invariant of the AES key-expansion fold: word count grows one per
iteration, every word has four byte-bounded entries, and the round constant
stays a byte. -/
theorem aesKeyWordsAux (key : Bytes) (nk N : Nat) (hnk : key.length = 4 * nk) (h1 : 1 ≤ nk)
    (hb : ∀ b ∈ key, b < 256) :
    (fun acc : List Bytes × Nat =>
      acc.1.length = nk + N ∧ (∀ l ∈ acc.1, l.length = 4 ∧ ∀ b ∈ l, b < 256) ∧ acc.2 < 256)
    ((List.range N).foldl
      (fun acc idx =>
        let w := acc.1
        let rcon := acc.2
        let i := nk + idx
        let prev := w.getD (i - 1) []
        if i % nk == 0 then
          let t := (prev.drop 1 ++ prev.take 1).map aesSbox
          let t := (t.getD 0 0 ^^^ rcon) :: t.drop 1
          (w ++ [List.zipWith (· ^^^ ·) (w.getD (i - nk) []) t], xtime rcon)
        else if 6 < nk && i % nk == 4 then
          (w ++ [List.zipWith (· ^^^ ·) (w.getD (i - nk) []) (prev.map aesSbox)], rcon)
        else
          (w ++ [List.zipWith (· ^^^ ·) (w.getD (i - nk) []) prev], rcon))
      ((List.range nk).map (fun i => (key.drop (4 * i)).take 4), 1)) := by
  refine foldlRangeInv (fun (idx : Nat) (acc : List Bytes × Nat) => acc.1.length = nk + idx ∧
    (∀ l ∈ acc.1, l.length = 4 ∧ ∀ b ∈ l, b < 256) ∧ acc.2 < 256) _ _ N ?_ ?_
  · refine ⟨by simp, ?_, by omega⟩
    intro l hl
    simp only [List.mem_map, List.mem_range] at hl
    obtain ⟨i, hi, rfl⟩ := hl
    constructor
    · rw [List.length_take, List.length_drop]
      omega
    · intro b hbm
      exact hb b (List.drop_subset _ _ (List.take_subset _ _ hbm))
  · intro idx acc hidx hP
    obtain ⟨hlen, hmem, hrcon⟩ := hP
    obtain ⟨w, rcon⟩ := acc
    simp only at hlen hmem hrcon
    have hprevIdx : nk + idx - 1 < w.length := by omega
    obtain ⟨hprevLen, hprevB⟩ := hmem _ (getD_mem w (nk + idx - 1) [] hprevIdx)
    have hnewIdx : nk + idx - nk < w.length := by omega
    obtain ⟨hbaseLen, hbaseB⟩ := hmem _ (getD_mem w (nk + idx - nk) [] hnewIdx)
    have hnew : ∀ t : Bytes, t.length = 4 → (∀ b ∈ t, b < 256) →
        (∀ l ∈ w ++ [List.zipWith (· ^^^ ·) (w.getD (nk + idx - nk) []) t],
          l.length = 4 ∧ ∀ b ∈ l, b < 256) := by
      intro t ht hbt l hl
      rcases List.mem_append.mp hl with hl | hl
      · exact hmem l hl
      · rcases List.mem_singleton.mp hl with rfl
        refine ⟨?_, zipWith_xor_lt _ _ hbaseB hbt⟩
        rw [List.length_zipWith, hbaseLen, ht]
        simp
    simp only
    cases hc1 : ((nk + idx) % nk == 0)
    · rw [if_neg (by simp [hc1])]
      cases hc2 : (decide (6 < nk) && ((nk + idx) % nk == 4))
      · rw [if_neg (by simp [hc2])]
        refine ⟨by simp [hlen]; omega, hnew _ hprevLen hprevB, hrcon⟩
      · rw [if_pos (by simp_all)]
        refine ⟨by simp [hlen]; omega, ?_, hrcon⟩
        refine hnew _ (by rw [List.length_map]; exact hprevLen) ?_
        intro b hbm
        simp only [List.mem_map] at hbm
        obtain ⟨x, hx, rfl⟩ := hbm
        exact aesSbox_lt x
    · rw [if_pos (by simp [hc1])]
      have ht1len : ((w.getD (nk + idx - 1) []).drop 1 ++
          (w.getD (nk + idx - 1) []).take 1).length = 4 := by
        rw [List.length_append, List.length_drop, List.length_take, hprevLen]
        simp
      have ht1B : ∀ b ∈ ((w.getD (nk + idx - 1) []).drop 1 ++
          (w.getD (nk + idx - 1) []).take 1).map aesSbox, b < 256 := by
        intro b hbm
        simp only [List.mem_map] at hbm
        obtain ⟨x, hx, rfl⟩ := hbm
        exact aesSbox_lt x
      have ht1len' : (((w.getD (nk + idx - 1) []).drop 1 ++
          (w.getD (nk + idx - 1) []).take 1).map aesSbox).length = 4 := by
        rw [List.length_map, ht1len]
      refine ⟨by simp [hlen]; omega, ?_, xtime_lt rcon⟩
      refine hnew _ ?_ ?_
      · simp only [List.length_cons, List.length_drop, ht1len']
      · intro b hbm
        rcases List.mem_cons.mp hbm with rfl | hbm
        · refine xor_lt_256 _ _ ?_ hrcon
          exact ht1B _ (getD_mem _ 0 0 (by rw [ht1len']; omega))
        · exact ht1B _ (List.drop_subset _ _ hbm)

/-- The AES key schedule of a 16/24/32-byte key has `4 * (nr + 1)` words
of four bytes each. -/
theorem aesKeyWords_ok (key : Bytes)
    (hk : key.length = 16 ∨ key.length = 24 ∨ key.length = 32)
    (hb : ∀ b ∈ key, b < 256) :
    (aesKeyWords key).length = 4 * (key.length / 4 + 6 + 1) ∧
    ∀ l ∈ aesKeyWords key, l.length = 4 ∧ ∀ b ∈ l, b < 256 := by
  have h4 : key.length = 4 * (key.length / 4) := by rcases hk with h | h | h <;> omega
  have h1 : 1 ≤ key.length / 4 := by rcases hk with h | h | h <;> omega
  have aux := aesKeyWordsAux key (key.length / 4)
    (4 * (key.length / 4 + 6 + 1) - key.length / 4) h4 h1 hb
  exact ⟨aux.1.trans (by omega), aux.2.1⟩

/-- A four-word round-key segment flattens to 16 bytes. -/
theorem roundKeySegment (w : List Bytes) (r : Nat)
    (hmem : ∀ l ∈ w, l.length = 4 ∧ ∀ b ∈ l, b < 256) (hw : 4 * r + 4 ≤ w.length) :
    ((w.drop (4 * r)).take 4).flatten.length = 16 ∧
    ∀ b ∈ ((w.drop (4 * r)).take 4).flatten, b < 256 := by
  have hsub : ∀ l ∈ (w.drop (4 * r)).take 4, l.length = 4 ∧ ∀ b ∈ l, b < 256 :=
    fun l hl => hmem l (List.drop_subset _ _ (List.take_subset _ _ hl))
  constructor
  · rw [flatten_length_const _ 4 (fun l hl => (hsub l hl).1), List.length_take,
      List.length_drop]
    omega
  · intro b hbm
    obtain ⟨l, hl, hbl⟩ := List.mem_flatten.mp hbm
    exact (hsub l hl).2 b hbl

/-- AddRoundKey preserves the 16-byte byte-bounded state shape. -/
theorem aesAddRoundKey_ok (st : Bytes) (ws : List Bytes) (hst : st.length = 16)
    (hbs : ∀ b ∈ st, b < 256) (hf : ws.flatten.length = 16)
    (hfb : ∀ b ∈ ws.flatten, b < 256) :
    (aesAddRoundKey st ws).length = 16 ∧ ∀ b ∈ aesAddRoundKey st ws, b < 256 := by
  unfold aesAddRoundKey
  refine ⟨?_, zipWith_xor_lt _ _ hbs hfb⟩
  rw [List.length_zipWith, hst, hf]
  simp

/-- SubBytes preserves the state shape. -/
theorem sboxMap_ok (st : Bytes) (h16 : st.length = 16) :
    (st.map aesSbox).length = 16 ∧ ∀ b ∈ st.map aesSbox, b < 256 := by
  refine ⟨by rw [List.length_map, h16], ?_⟩
  intro b hbm
  obtain ⟨x, hx, rfl⟩ := List.mem_map.mp hbm
  exact aesSbox_lt x

/-- ShiftRows preserves the state shape. -/
theorem shiftRowsMap_ok (st : Bytes) (h16 : st.length = 16) (hb : ∀ b ∈ st, b < 256) :
    (aesShiftRowsIdx.map (fun i => st.getD i 0)).length = 16 ∧
    ∀ b ∈ aesShiftRowsIdx.map (fun i => st.getD i 0), b < 256 := by
  refine ⟨by rw [List.length_map]; rfl, ?_⟩
  intro b hbm
  obtain ⟨i, hi, rfl⟩ := List.mem_map.mp hbm
  have hidx : ∀ j ∈ aesShiftRowsIdx, j < 16 := by decide
  exact hb _ (getD_mem st i 0 (by rw [h16]; exact hidx i hi))

/-- MixColumns of a 4-byte column yields four bytes. -/
theorem aesMixColumn_ok (c : Bytes) (hb : ∀ b ∈ c, b < 256) (hc : c.length = 4) :
    (aesMixColumn c).length = 4 ∧ ∀ b ∈ aesMixColumn c, b < 256 := by
  have h0 : c.getD 0 0 < 256 := hb _ (getD_mem c 0 0 (by omega))
  have h1 : c.getD 1 0 < 256 := hb _ (getD_mem c 1 0 (by omega))
  have h2 : c.getD 2 0 < 256 := hb _ (getD_mem c 2 0 (by omega))
  have h3 : c.getD 3 0 < 256 := hb _ (getD_mem c 3 0 (by omega))
  refine ⟨rfl, ?_⟩
  intro b hbm
  simp only [aesMixColumn, List.mem_cons, List.not_mem_nil, or_false] at hbm
  rcases hbm with rfl | rfl | rfl | rfl
  · exact xor_lt_256 _ _ (xor_lt_256 _ _ (xor_lt_256 _ _
      (xor_lt_256 _ _ (xtime_lt _) (xtime_lt _)) h1) h2) h3
  · exact xor_lt_256 _ _ (xor_lt_256 _ _ (xor_lt_256 _ _
      (xor_lt_256 _ _ h0 (xtime_lt _)) (xtime_lt _)) h2) h3
  · exact xor_lt_256 _ _ (xor_lt_256 _ _ (xor_lt_256 _ _
      (xor_lt_256 _ _ h0 h1) (xtime_lt _)) (xtime_lt _)) h3
  · exact xor_lt_256 _ _ (xor_lt_256 _ _ (xor_lt_256 _ _
      (xor_lt_256 _ _ (xtime_lt _) h0) h1) h2) (xtime_lt _)

/-- The full MixColumns pass preserves the state shape. -/
theorem mixPipeline_ok (st : Bytes) (h16 : st.length = 16) (hb : ∀ b ∈ st, b < 256) :
    (((List.range 4).map (fun i => aesMixColumn ((st.drop (4 * i)).take 4))).flatten).length
      = 16 ∧
    ∀ b ∈ ((List.range 4).map (fun i => aesMixColumn ((st.drop (4 * i)).take 4))).flatten,
      b < 256 := by
  have hcol : ∀ i < 4, ((st.drop (4 * i)).take 4).length = 4 ∧
      ∀ b ∈ (st.drop (4 * i)).take 4, b < 256 := by
    intro i hi
    refine ⟨by rw [List.length_take, List.length_drop, h16]; omega, ?_⟩
    intro b hbm
    exact hb b (List.drop_subset _ _ (List.take_subset _ _ hbm))
  have hmem : ∀ l ∈ (List.range 4).map (fun i => aesMixColumn ((st.drop (4 * i)).take 4)),
      l.length = 4 ∧ ∀ b ∈ l, b < 256 := by
    intro l hl
    obtain ⟨i, hi, rfl⟩ := List.mem_map.mp hl
    have hi4 : i < 4 := List.mem_range.mp hi
    exact aesMixColumn_ok _ (hcol i hi4).2 (hcol i hi4).1
  constructor
  · rw [flatten_length_const _ 4 (fun l hl => (hmem l hl).1), List.length_map,
      List.length_range]
  · intro b hbm
    obtain ⟨l, hl, hbl⟩ := List.mem_flatten.mp hbm
    exact (hmem l hl).2 b hbl

/-- One main AES round preserves the state shape. -/
theorem aesRound_ok (st : Bytes) (ws : List Bytes) (h16 : st.length = 16)
    (hb : ∀ b ∈ st, b < 256) (hf : ws.flatten.length = 16)
    (hfb : ∀ b ∈ ws.flatten, b < 256) :
    (aesAddRoundKey (((List.range 4).map (fun i =>
        aesMixColumn (((aesShiftRowsIdx.map (fun j => (st.map aesSbox).getD j 0)).drop
          (4 * i)).take 4))).flatten) ws).length = 16 ∧
    ∀ b ∈ aesAddRoundKey (((List.range 4).map (fun i =>
        aesMixColumn (((aesShiftRowsIdx.map (fun j => (st.map aesSbox).getD j 0)).drop
          (4 * i)).take 4))).flatten) ws, b < 256 := by
  obtain ⟨h1, h1b⟩ := sboxMap_ok st h16
  obtain ⟨h2, h2b⟩ := shiftRowsMap_ok (st.map aesSbox) h1 h1b
  obtain ⟨h3, h3b⟩ := mixPipeline_ok (aesShiftRowsIdx.map (fun j => (st.map aesSbox).getD j 0))
    h2 h2b
  exact aesAddRoundKey_ok _ ws h3 h3b hf hfb

/-- The final AES round preserves the state shape. -/
theorem aesFinal_ok (st : Bytes) (ws : List Bytes) (h16 : st.length = 16)
    (hb : ∀ b ∈ st, b < 256) (hf : ws.flatten.length = 16)
    (hfb : ∀ b ∈ ws.flatten, b < 256) :
    (aesAddRoundKey (aesShiftRowsIdx.map (fun i => (st.map aesSbox).getD i 0)) ws).length
      = 16 ∧
    ∀ b ∈ aesAddRoundKey (aesShiftRowsIdx.map (fun i => (st.map aesSbox).getD i 0)) ws,
      b < 256 := by
  obtain ⟨h1, h1b⟩ := sboxMap_ok st h16
  obtain ⟨h2, h2b⟩ := shiftRowsMap_ok (st.map aesSbox) h1 h1b
  exact aesAddRoundKey_ok _ ws h2 h2b hf hfb

/-- An AES block encryption under a valid-size key returns 16 bytes,
each below 256. -/
theorem aesEncryptBlock_ok (key block : Bytes)
    (hk : key.length = 16 ∨ key.length = 24 ∨ key.length = 32)
    (hbk : ∀ b ∈ key, b < 256)
    (hbl : block.length = 16) (hbb : ∀ b ∈ block, b < 256) :
    (aesEncryptBlock key block).length = 16 ∧ ∀ b ∈ aesEncryptBlock key block, b < 256 := by
  obtain ⟨hwlen, hwmem⟩ := aesKeyWords_ok key hk hbk
  have hseg : ∀ r, 4 * r + 4 ≤ 4 * (key.length / 4 + 6 + 1) →
      (((aesKeyWords key).drop (4 * r)).take 4).flatten.length = 16 ∧
      ∀ b ∈ (((aesKeyWords key).drop (4 * r)).take 4).flatten, b < 256 := by
    intro r hr
    exact roundKeySegment _ r hwmem (by rw [hwlen]; omega)
  have hrepr : aesEncryptBlock key block =
      aesAddRoundKey (aesShiftRowsIdx.map (fun i => (((List.range (key.length / 4 + 6 - 1)).foldl (fun st rnd => aesAddRoundKey (((List.range 4).map (fun i2 => aesMixColumn (((aesShiftRowsIdx.map (fun i3 => (st.map aesSbox).getD i3 0)).drop (4 * i2)).take 4))).flatten) (((aesKeyWords key).drop (4 * (rnd + 1))).take 4)) (aesAddRoundKey block ((aesKeyWords key).take 4))).map aesSbox).getD i 0)) (((aesKeyWords key).drop (4 * (key.length / 4 + 6))).take 4) := rfl
  rw [hrepr]
  have hseg0 := roundKeySegment (aesKeyWords key) 0 hwmem (by rw [hwlen]; omega)
  simp only [Nat.mul_zero, List.drop_zero] at hseg0
  have hbase := aesAddRoundKey_ok block ((aesKeyWords key).take 4) hbl hbb hseg0.1 hseg0.2
  have hfold := foldlRangeInv
    (fun (idx : Nat) (st : Bytes) => st.length = 16 ∧ ∀ b ∈ st, b < 256)
    (fun st rnd => aesAddRoundKey (((List.range 4).map (fun i2 => aesMixColumn (((aesShiftRowsIdx.map (fun i3 => (st.map aesSbox).getD i3 0)).drop (4 * i2)).take 4))).flatten) (((aesKeyWords key).drop (4 * (rnd + 1))).take 4))
    (aesAddRoundKey block ((aesKeyWords key).take 4))
    (key.length / 4 + 6 - 1)
    hbase
    (by
      intro rnd st hrnd hP
      exact aesRound_ok st _ hP.1 hP.2 (hseg (rnd + 1) (by omega)).1
        (hseg (rnd + 1) (by omega)).2)
  exact aesFinal_ok _ _ hfold.1 hfold.2
    (hseg (key.length / 4 + 6) (by omega)).1 (hseg (key.length / 4 + 6) (by omega)).2

/-- The CTR keystream consists of `16 * nb` bytes. -/
theorem gcmKeystream_ok (key : Bytes) (j0 : Nat) (nb : Nat)
    (hk : key.length = 16 ∨ key.length = 24 ∨ key.length = 32)
    (hbk : ∀ b ∈ key, b < 256) :
    (((List.range nb).map (fun i =>
      aesEncryptBlock key (natToBEBytes 16 (addCtr32 j0 (1 + i))))).flatten).length
        = 16 * nb ∧
    ∀ b ∈ ((List.range nb).map (fun i =>
      aesEncryptBlock key (natToBEBytes 16 (addCtr32 j0 (1 + i))))).flatten, b < 256 := by
  have hmem : ∀ l ∈ (List.range nb).map (fun i =>
      aesEncryptBlock key (natToBEBytes 16 (addCtr32 j0 (1 + i)))),
      l.length = 16 ∧ ∀ b ∈ l, b < 256 := by
    intro l hl
    obtain ⟨i, hi, rfl⟩ := List.mem_map.mp hl
    exact aesEncryptBlock_ok key _ hk hbk (natToBEBytes_length _ _) (natToBEBytes_lt _ _)
  constructor
  · rw [flatten_length_const _ 16 (fun l hl => (hmem l hl).1), List.length_map,
      List.length_range]
  · intro b hbm
    obtain ⟨l, hl, hbl⟩ := List.mem_flatten.mp hbm
    exact (hmem l hl).2 b hbl

/-- Unfolding of `gcmCtr`. -/
theorem gcmCtr_eval (key : Bytes) (j0 : Nat) (data : Bytes) :
    gcmCtr key j0 data = List.zipWith (· ^^^ ·) data
      (((List.range ((data.length + 15) / 16)).map
        (fun i => aesEncryptBlock key (natToBEBytes 16 (addCtr32 j0 (1 + i))))).flatten) :=
  rfl

/-- CTR mode preserves the data length. -/
theorem gcmCtr_length (key : Bytes) (j0 : Nat) (data : Bytes)
    (hk : key.length = 16 ∨ key.length = 24 ∨ key.length = 32)
    (hbk : ∀ b ∈ key, b < 256) :
    (gcmCtr key j0 data).length = data.length := by
  rw [gcmCtr_eval, List.length_zipWith,
    (gcmKeystream_ok key j0 ((data.length + 15) / 16) hk hbk).1]
  have h : data.length ≤ 16 * ((data.length + 15) / 16) := by omega
  omega

/-- CTR mode output is byte-bounded. -/
theorem gcmCtr_bytes (key : Bytes) (j0 : Nat) (data : Bytes)
    (hk : key.length = 16 ∨ key.length = 24 ∨ key.length = 32)
    (hbk : ∀ b ∈ key, b < 256) (hd : ∀ b ∈ data, b < 256) :
    ∀ b ∈ gcmCtr key j0 data, b < 256 := by
  rw [gcmCtr_eval]
  exact zipWith_xor_lt _ _ hd (gcmKeystream_ok key j0 ((data.length + 15) / 16) hk hbk).2

/-- Applying the same CTR keystream twice is the identity. -/
theorem gcmCtr_involutive (key : Bytes) (j0 : Nat) (m : Bytes)
    (hk : key.length = 16 ∨ key.length = 24 ∨ key.length = 32)
    (hbk : ∀ b ∈ key, b < 256) :
    gcmCtr key j0 (gcmCtr key j0 m) = m := by
  have hlen := gcmCtr_length key j0 m hk hbk
  rw [gcmCtr_eval key j0 (gcmCtr key j0 m), hlen, gcmCtr_eval key j0 m]
  apply zipWith_xor_cancel
  rw [(gcmKeystream_ok key j0 ((m.length + 15) / 16) hk hbk).1]
  omega

/-- Length of the 16-byte zero padding. -/
theorem pad16_length (l : Bytes) : (pad16 l).length = 16 * ((l.length + 15) / 16) := by
  unfold pad16
  rw [List.length_append, List.length_replicate]
  omega

/-- The zero padding keeps bytes byte-bounded. -/
theorem pad16_bytes (l : Bytes) (h : ∀ b ∈ l, b < 256) : ∀ b ∈ pad16 l, b < 256 := by
  intro b hb
  rcases List.mem_append.mp hb with hb | hb
  · exact h b hb
  · rw [List.eq_of_mem_replicate hb]
    omega

/-- The untruncated GCM tag has 16 bytes. -/
theorem gcmFullTag_length (key iv ct : Bytes) : (gcmFullTag key iv ct).length = 16 :=
  natToBEBytes_length _ _

/-- Unfolding of the `gmul128` loop. -/
theorem gmul128_eval (x y : Nat) :
    gmul128 x y = (((List.range 128).foldl
      (fun acc i =>
        (if x.testBit (127 - i) then acc.1 ^^^ acc.2 else acc.1,
         if acc.2.testBit 0 then (acc.2 >>> 1) ^^^ ghashR else acc.2 >>> 1))
      (0, y))).1 :=
  rfl

/-- The `gmul128` accumulator is additive (over xor) in the scanned
operand: the `v` column evolves independently of it. -/
theorem gmulFoldAux (x1 x2 : Nat) (is : List Nat) : ∀ (z1 z2 v : Nat),
    ((is.foldl (fun acc i =>
      (if (x1 ^^^ x2).testBit (127 - i) then acc.1 ^^^ acc.2 else acc.1,
       if acc.2.testBit 0 then (acc.2 >>> 1) ^^^ ghashR else acc.2 >>> 1)) (z1 ^^^ z2, v))).1 =
    ((is.foldl (fun acc i =>
      (if x1.testBit (127 - i) then acc.1 ^^^ acc.2 else acc.1,
       if acc.2.testBit 0 then (acc.2 >>> 1) ^^^ ghashR else acc.2 >>> 1)) (z1, v))).1 ^^^
    ((is.foldl (fun acc i =>
      (if x2.testBit (127 - i) then acc.1 ^^^ acc.2 else acc.1,
       if acc.2.testBit 0 then (acc.2 >>> 1) ^^^ ghashR else acc.2 >>> 1)) (z2, v))).1 := by
  induction is with
  | nil => intro z1 z2 v; rfl
  | cons i it ih =>
      intro z1 z2 v
      simp only [List.foldl_cons]
      have hz : (if (x1 ^^^ x2).testBit (127 - i) then z1 ^^^ z2 ^^^ v else z1 ^^^ z2) =
          (if x1.testBit (127 - i) then z1 ^^^ v else z1) ^^^
          (if x2.testBit (127 - i) then z2 ^^^ v else z2) := by
        rw [Nat.testBit_xor]
        cases h1 : x1.testBit (127 - i) <;> cases h2 : x2.testBit (127 - i)
        · rfl
        · show (z1 ^^^ z2) ^^^ v = z1 ^^^ (z2 ^^^ v)
          exact Nat.xor_assoc z1 z2 v
        · show (z1 ^^^ z2) ^^^ v = (z1 ^^^ v) ^^^ z2
          apply Nat.eq_of_testBit_eq
          intro k
          simp only [Nat.testBit_xor]
          cases z1.testBit k <;> cases z2.testBit k <;> cases v.testBit k <;> rfl
        · show z1 ^^^ z2 = (z1 ^^^ v) ^^^ (z2 ^^^ v)
          rw [xor_pair_cancel]
      rw [hz]
      exact ih _ _ _

/-- `gmul128` distributes over xor in its first operand. -/
theorem gmul128_xor_left (x1 x2 y : Nat) :
    gmul128 (x1 ^^^ x2) y = gmul128 x1 y ^^^ gmul128 x2 y := by
  rw [gmul128_eval, gmul128_eval, gmul128_eval]
  have h := gmulFoldAux x1 x2 (List.range 128) 0 0 y
  simpa using h

/-- The `gmul128` loop on a zero operand accumulates nothing. -/
theorem gmulFoldZero (is : List Nat) : ∀ (v : Nat),
    ((is.foldl (fun acc i =>
      (if (0 : Nat).testBit (127 - i) then acc.1 ^^^ acc.2 else acc.1,
       if acc.2.testBit 0 then (acc.2 >>> 1) ^^^ ghashR else acc.2 >>> 1)) (0, v))).1 = 0 := by
  induction is with
  | nil => intro v; rfl
  | cons i it ih =>
      intro v
      simp only [List.foldl_cons]
      have h0 : (if (0 : Nat).testBit (127 - i) then (0 : Nat) ^^^ v else 0) = 0 := by
        rw [Nat.zero_testBit, if_neg Bool.false_ne_true]
      rw [h0]
      exact ih _

/-- `gmul128 0 y = 0`. -/
theorem gmul128_zero_left (y : Nat) : gmul128 0 y = 0 := by
  rw [gmul128_eval]
  exact gmulFoldZero (List.range 128) y

/-- The GHASH reduction constant is a 128-bit value. -/
theorem ghashR_lt : ghashR < 2 ^ 128 := by
  norm_num [ghashR]

/-- `gmul128` stays below `2 ^ 128` when its second operand does. -/
theorem gmul128_lt (x y : Nat) (hy : y < 2 ^ 128) : gmul128 x y < 2 ^ 128 := by
  rw [gmul128_eval]
  have h := foldlRangeInv
    (fun (idx : Nat) (acc : Nat × Nat) => acc.1 < 2 ^ 128 ∧ acc.2 < 2 ^ 128)
    (fun acc i =>
      (if x.testBit (127 - i) then acc.1 ^^^ acc.2 else acc.1,
       if acc.2.testBit 0 then (acc.2 >>> 1) ^^^ ghashR else acc.2 >>> 1))
    (0, y) 128 ⟨by positivity, hy⟩
    (by
      intro i acc hi hP
      obtain ⟨h1, h2⟩ := hP
      constructor
      · dsimp only
        split
        · exact Nat.xor_lt_two_pow h1 h2
        · exact h1
      · dsimp only
        have hsh : acc.2 >>> 1 < 2 ^ 128 :=
          Nat.lt_of_le_of_lt (by rw [Nat.shiftRight_eq_div_pow]; exact Nat.div_le_self _ _) h2
        split
        · exact Nat.xor_lt_two_pow hsh ghashR_lt
        · exact hsh)
  exact h.1

/-- The GHASH fold stays below `2 ^ 128`. -/
theorem ghashFold_lt (h : Nat) (hh : h < 2 ^ 128) (bs : List Nat) :
    ∀ y, y < 2 ^ 128 → bs.foldl (fun y b => gmul128 (y ^^^ b) h) y < 2 ^ 128 := by
  induction bs with
  | nil => intro y hy; simpa using hy
  | cons b bt ih =>
      intro y hy
      simp only [List.foldl_cons]
      exact ih _ (gmul128_lt _ _ hh)

/-- GHASH values are 128-bit. -/
theorem ghashBlocks_lt (h : Nat) (hh : h < 2 ^ 128) (bs : List Nat) :
    ghashBlocks h bs < 2 ^ 128 := by
  unfold ghashBlocks
  exact ghashFold_lt h hh bs 0 (by positivity)

/-- `applyLinN` only consults the basis images below `n`. -/
theorem applyLinN_congr (n : Nat) (f g : Nat → Nat) (z : Nat) (h : ∀ i < n, f i = g i) :
    applyLinN n f z = applyLinN n g z := by
  unfold applyLinN
  induction n with
  | zero => rfl
  | succ k ih =>
      rw [List.range_succ, List.foldl_append, List.foldl_append]
      simp only [List.foldl_cons, List.foldl_nil]
      rw [ih (fun i hi => h i (Nat.lt_succ_of_lt hi)), h k (Nat.lt_succ_self k)]

/-- The `applyLinN` fold is additive in the bit operand. -/
theorem applyLinFoldAdd (f : Nat → Nat) (z1 z2 : Nat) (is : List Nat) : ∀ (a1 a2 : Nat),
    is.foldl (fun acc i => if (z1 ^^^ z2).testBit i then acc ^^^ f i else acc) (a1 ^^^ a2) =
    (is.foldl (fun acc i => if z1.testBit i then acc ^^^ f i else acc) a1) ^^^
    (is.foldl (fun acc i => if z2.testBit i then acc ^^^ f i else acc) a2) := by
  induction is with
  | nil => intro a1 a2; rfl
  | cons i it ih =>
      intro a1 a2
      simp only [List.foldl_cons]
      have hz : (if (z1 ^^^ z2).testBit i then (a1 ^^^ a2) ^^^ f i else a1 ^^^ a2) =
          (if z1.testBit i then a1 ^^^ f i else a1) ^^^
          (if z2.testBit i then a2 ^^^ f i else a2) := by
        rw [Nat.testBit_xor]
        cases h1 : z1.testBit i <;> cases h2 : z2.testBit i
        · rfl
        · show (a1 ^^^ a2) ^^^ f i = a1 ^^^ (a2 ^^^ f i)
          exact Nat.xor_assoc a1 a2 (f i)
        · show (a1 ^^^ a2) ^^^ f i = (a1 ^^^ f i) ^^^ a2
          apply Nat.eq_of_testBit_eq
          intro k
          simp only [Nat.testBit_xor]
          cases a1.testBit k <;> cases a2.testBit k <;> cases (f i).testBit k <;> rfl
        · show a1 ^^^ a2 = (a1 ^^^ f i) ^^^ (a2 ^^^ f i)
          rw [xor_pair_cancel]
      rw [hz]
      exact ih _ _

/-- `applyLinN` is additive over xor. -/
theorem applyLinN_xor (n : Nat) (f : Nat → Nat) (z1 z2 : Nat) :
    applyLinN n f (z1 ^^^ z2) = applyLinN n f z1 ^^^ applyLinN n f z2 := by
  unfold applyLinN
  have h := applyLinFoldAdd f z1 z2 (List.range n) 0 0
  simpa using h

/-- `applyLinN` of 0 is 0. -/
theorem applyLinN_zero (n : Nat) (f : Nat → Nat) : applyLinN n f 0 = 0 := by
  unfold applyLinN
  induction n with
  | zero => rfl
  | succ k ih =>
      rw [List.range_succ, List.foldl_append]
      simp only [List.foldl_cons, List.foldl_nil]
      rw [ih]
      rw [Nat.zero_testBit, if_neg Bool.false_ne_true]

/-- `applyLin` of 0 is 0. -/
theorem applyLin_zero (f : Nat → Nat) : applyLin f 0 = 0 :=
  applyLinN_zero 128 f

/-- `applyLin` is additive over xor. -/
theorem applyLin_xor (f : Nat → Nat) (a b : Nat) :
    applyLin f (a ^^^ b) = applyLin f a ^^^ applyLin f b :=
  applyLinN_xor 128 f a b

/-- `applyLin` only consults the basis images below 128. -/
theorem applyLin_congr (f g : Nat → Nat) (z : Nat) (h : ∀ i < 128, f i = g i) :
    applyLin f z = applyLin g z :=
  applyLinN_congr 128 f g z h

/-- An additive map commutes with the `applyLinN` accumulation. -/
theorem applyLinN_push (g : Nat → Nat) (hg0 : g 0 = 0)
    (hgadd : ∀ a b, g (a ^^^ b) = g a ^^^ g b) (B : Nat → Nat) (n z : Nat) :
    g (applyLinN n B z) = applyLinN n (fun i => g (B i)) z := by
  unfold applyLinN
  induction n with
  | zero => simpa using hg0
  | succ k ih =>
      rw [List.range_succ, List.foldl_append, List.foldl_append]
      simp only [List.foldl_cons, List.foldl_nil]
      cases hb : z.testBit k
      · rw [if_neg Bool.false_ne_true, if_neg Bool.false_ne_true]
        exact ih
      · rw [if_pos rfl, if_pos rfl, hgadd, ih]

/-- An additive map commutes with the `applyLin` accumulation. -/
theorem applyLin_push (g : Nat → Nat) (hg0 : g 0 = 0)
    (hgadd : ∀ a b, g (a ^^^ b) = g a ^^^ g b) (B : Nat → Nat) (z : Nat) :
    g (applyLin B z) = applyLin (fun i => g (B i)) z :=
  applyLinN_push g hg0 hgadd B 128 z

/-- The bit-indexed fold only consults bits below `k`. -/
theorem testBit_congr_foldl (f : Nat → Nat) (k z1 z2 : Nat)
    (h : ∀ i < k, z1.testBit i = z2.testBit i) :
    (List.range k).foldl (fun acc i => if z1.testBit i then acc ^^^ f i else acc) 0 =
    (List.range k).foldl (fun acc i => if z2.testBit i then acc ^^^ f i else acc) 0 := by
  induction k with
  | zero => rfl
  | succ k ih =>
      rw [List.range_succ, List.foldl_append, List.foldl_append]
      simp only [List.foldl_cons, List.foldl_nil]
      rw [ih (fun i hi => h i (Nat.lt_succ_of_lt hi)), h k (Nat.lt_succ_self k)]

/-- Below `2 ^ (k + 1)` with bit `k` clear means below `2 ^ k`. -/
theorem topBitClear_lt (k z : Nat) (hz : z < 2 ^ (k + 1)) (hb : z.testBit k = false) :
    z < 2 ^ k := by
  rcases Nat.lt_or_ge z (2 ^ k) with h | h
  · exact h
  · exfalso
    have hlt : z / 2 ^ k < 2 := by
      apply Nat.div_lt_of_lt_mul
      rw [← pow_succ]
      exact hz
    have hge1 : 1 ≤ z / 2 ^ k := by
      rw [Nat.le_div_iff_mul_le (pow_pos (by norm_num) k)]
      simpa using h
    have h1 : z / 2 ^ k = 1 := by omega
    rw [Nat.testBit_to_div_mod, h1] at hb
    simp at hb

/-- Below `2 ^ (k + 1)` with bit `k` set splits as a xor. -/
theorem topBitSet_decomp (k z : Nat) (hz : z < 2 ^ (k + 1)) (hb : z.testBit k = true) :
    z = 2 ^ k ^^^ (z % 2 ^ k) := by
  have hlt : z / 2 ^ k < 2 := by
    apply Nat.div_lt_of_lt_mul
    rw [← pow_succ]
    exact hz
  have hmod : z / 2 ^ k % 2 = 1 := by
    rw [Nat.testBit_to_div_mod] at hb
    simpa using hb
  obtain ⟨q, hq⟩ : ∃ q, z / 2 ^ k = q := ⟨_, rfl⟩
  rw [hq] at hlt hmod
  have h1 : z / 2 ^ k = 1 := by
    rw [hq]
    omega
  have hlow : z % 2 ^ k < 2 ^ k := Nat.mod_lt _ (pow_pos (by norm_num) k)
  rw [← two_pow_add_eq_xor k _ hlow]
  conv_lhs => rw [← Nat.div_add_mod z (2 ^ k)]
  rw [h1, Nat.mul_one]

/-- Reduction modulo `2 ^ k` preserves the low `k` bits. -/
theorem lowBits_agree (k z : Nat) : ∀ i < k, z.testBit i = (z % 2 ^ k).testBit i := by
  intro i hi
  rw [Nat.testBit_mod_two_pow]
  simp [hi]

/-- `gmul128` on a value below `2 ^ k` is the xor of its basis images
over the set bits. -/
theorem gmulDecompose (y : Nat) : ∀ k z, z < 2 ^ k →
    gmul128 z y = (List.range k).foldl
      (fun acc i => if z.testBit i then acc ^^^ gmul128 (2 ^ i) y else acc) 0 := by
  intro k
  induction k with
  | zero =>
      intro z hz
      have hz0 : z = 0 := by
        have h1 : (2 : Nat) ^ 0 = 1 := pow_zero 2
        omega
      subst hz0
      rw [gmul128_zero_left]
      rfl
  | succ k ih =>
      intro z hz
      rw [List.range_succ, List.foldl_append]
      simp only [List.foldl_cons, List.foldl_nil]
      cases hb : z.testBit k
      · rw [if_neg Bool.false_ne_true]
        exact ih z (topBitClear_lt k z hz hb)
      · rw [if_pos rfl]
        have hlow : z % 2 ^ k < 2 ^ k := Nat.mod_lt _ (pow_pos (by norm_num) k)
        rw [testBit_congr_foldl _ k z (z % 2 ^ k) (lowBits_agree k z),
          ← ih (z % 2 ^ k) hlow]
        conv_lhs => rw [topBitSet_decomp k z hz hb]
        rw [gmul128_xor_left]
        exact Nat.xor_comm _ _

/-- The basis images `2 ^ i` reassemble the value itself. -/
theorem powFoldId : ∀ k z, z < 2 ^ k →
    (List.range k).foldl (fun acc i => if z.testBit i then acc ^^^ 2 ^ i else acc) 0 = z := by
  intro k
  induction k with
  | zero =>
      intro z hz
      have hz0 : z = 0 := by
        have h1 : (2 : Nat) ^ 0 = 1 := pow_zero 2
        omega
      subst hz0
      rfl
  | succ k ih =>
      intro z hz
      rw [List.range_succ, List.foldl_append]
      simp only [List.foldl_cons, List.foldl_nil]
      cases hb : z.testBit k
      · rw [if_neg Bool.false_ne_true]
        exact ih z (topBitClear_lt k z hz hb)
      · rw [if_pos rfl]
        have hlow : z % 2 ^ k < 2 ^ k := Nat.mod_lt _ (pow_pos (by norm_num) k)
        rw [testBit_congr_foldl _ k z (z % 2 ^ k) (lowBits_agree k z), ih (z % 2 ^ k) hlow]
        rw [Nat.xor_comm]
        exact (topBitSet_decomp k z hz hb).symm

/-- `gmul128 · h` is the F2-linear map with basis images
`gmul128 (2 ^ i) h`. -/
theorem gmul128_as_applyLin (y z : Nat) (hz : z < 2 ^ 128) :
    gmul128 z y = applyLin (fun i => gmul128 (2 ^ i) y) z := by
  rw [applyLin]
  unfold applyLinN
  exact gmulDecompose y 128 z hz

/-- `applyLin` of the power basis is the identity below `2 ^ 128`. -/
theorem applyLin_pow_id (z : Nat) (hz : z < 2 ^ 128) : applyLin (fun i => 2 ^ i) z = z := by
  rw [applyLin]
  unfold applyLinN
  exact powFoldId 128 z hz

/-- A basis-inverse certificate makes `Minv` a left inverse of
multiplication by `h` on 128-bit values. -/
theorem mulH_cancel (h : Nat) (Minv : List Nat)
    (hM : ∀ i < 128, applyLin (fun j => Minv.getD j 0) (gmul128 (2 ^ i) h) = 2 ^ i) :
    ∀ z, z < 2 ^ 128 → applyLin (fun j => Minv.getD j 0) (gmul128 z h) = z := by
  intro z hz
  rw [gmul128_as_applyLin h z hz,
    applyLin_push (applyLin (fun j => Minv.getD j 0)) (applyLin_zero _) (applyLin_xor _)
      (fun i => gmul128 (2 ^ i) h) z,
    applyLin_congr _ (fun i => 2 ^ i) z (fun i hi => hM i hi),
    applyLin_pow_id z hz]

/-- With a basis-inverse certificate, multiplication by `h` is injective
on 128-bit values. -/
theorem mulH_inj (h : Nat) (Minv : List Nat)
    (hM : ∀ i < 128, applyLin (fun j => Minv.getD j 0) (gmul128 (2 ^ i) h) = 2 ^ i)
    (z1 z2 : Nat) (h1 : z1 < 2 ^ 128) (h2 : z2 < 2 ^ 128)
    (heq : gmul128 z1 h = gmul128 z2 h) : z1 = z2 := by
  have e1 := mulH_cancel h Minv hM z1 h1
  have e2 := mulH_cancel h Minv hM z2 h2
  rw [← e1, ← e2, heq]

/-- The GHASH fold over a common suffix preserves distinctness of the
accumulators when multiplication by `h` is invertible. -/
theorem ghashFold_ne (h : Nat) (hh : h < 2 ^ 128) (Minv : List Nat)
    (hM : ∀ i < 128, applyLin (fun j => Minv.getD j 0) (gmul128 (2 ^ i) h) = 2 ^ i)
    (suf : List Nat) : (∀ b ∈ suf, b < 2 ^ 128) →
    ∀ y1 y2, y1 < 2 ^ 128 → y2 < 2 ^ 128 → y1 ≠ y2 →
    suf.foldl (fun y b => gmul128 (y ^^^ b) h) y1 ≠
      suf.foldl (fun y b => gmul128 (y ^^^ b) h) y2 := by
  induction suf with
  | nil =>
      intro _ y1 y2 _ _ hne
      simpa using hne
  | cons b bt ih =>
      intro hsuf y1 y2 hy1 hy2 hne
      simp only [List.foldl_cons]
      have hblt : b < 2 ^ 128 := hsuf b (by simp)
      apply ih (fun x hx => hsuf x (by simp [hx])) _ _ (gmul128_lt _ _ hh) (gmul128_lt _ _ hh)
      intro heq
      have hxy := mulH_inj h Minv hM _ _ (Nat.xor_lt_two_pow hy1 hblt)
        (Nat.xor_lt_two_pow hy2 hblt) heq
      apply hne
      calc y1 = y1 ^^^ b ^^^ b := (Nat.xor_cancel_right b y1).symm
        _ = y2 ^^^ b ^^^ b := by rw [hxy]
        _ = y2 := Nat.xor_cancel_right b y2

/-- GHASH distinguishes block lists that differ in exactly one block
when multiplication by `h` is invertible. -/
theorem ghashBlocks_ne (h : Nat) (hh : h < 2 ^ 128) (Minv : List Nat)
    (hM : ∀ i < 128, applyLin (fun j => Minv.getD j 0) (gmul128 (2 ^ i) h) = 2 ^ i)
    (pre suf : List Nat) (b1 b2 : Nat) (hb1 : b1 < 2 ^ 128) (hb2 : b2 < 2 ^ 128)
    (hsuf : ∀ b ∈ suf, b < 2 ^ 128) (hne : b1 ≠ b2) :
    ghashBlocks h (pre ++ b1 :: suf) ≠ ghashBlocks h (pre ++ b2 :: suf) := by
  unfold ghashBlocks
  rw [List.foldl_append, List.foldl_append]
  simp only [List.foldl_cons]
  have hylt : pre.foldl (fun y b => gmul128 (y ^^^ b) h) 0 < 2 ^ 128 :=
    ghashFold_lt h hh pre 0 (by positivity)
  apply ghashFold_ne h hh Minv hM suf hsuf _ _ (gmul128_lt _ _ hh) (gmul128_lt _ _ hh)
  intro heq
  have hxy := mulH_inj h Minv hM _ _ (Nat.xor_lt_two_pow hylt hb1)
    (Nat.xor_lt_two_pow hylt hb2) heq
  apply hne
  calc b1 = _ ^^^ (_ ^^^ b1) := (Nat.xor_cancel_left _ b1).symm
    _ = _ ^^^ (_ ^^^ b2) := by rw [hxy]
    _ = b2 := Nat.xor_cancel_left _ b2

/-- A 16-byte slice not containing the set position is unchanged. -/
theorem set_outside_slice (l : Bytes) (p b s t : Nat) (h : p < s ∨ s + t ≤ p) :
    ((l.set p b).drop s).take t = (l.drop s).take t := by
  rcases h with h | h
  · rw [List.drop_set, if_pos h]
  · rw [List.drop_set]
    rcases Nat.lt_or_ge p s with h2 | h2
    · rw [if_pos h2]
    · rw [if_neg (by omega), List.set_take,
        List.set_eq_of_length_le (by rw [List.length_take]; omega)]

/-- A slice containing the set position is the slice with the byte set. -/
theorem set_inside_slice (l : Bytes) (p b s t : Nat) (hs : s ≤ p) (ht : p < s + t) :
    ((l.set p b).drop s).take t = ((l.drop s).take t).set (p - s) b := by
  rw [List.drop_set, if_neg (by omega), List.set_take]

/-- Reading inside a drop-take slice reads the underlying list. -/
theorem slice_getD (l : Bytes) (s t q : Nat) (hq : q < t) :
    ((l.drop s).take t).getD q 0 = l.getD (s + q) 0 := by
  rw [List.getD_eq_getElem?_getD, List.getD_eq_getElem?_getD, List.getElem?_take, if_pos hq,
    List.getElem?_drop]

/-- `getD` on the left part of an append. -/
theorem getD_append_left (l1 l2 : Bytes) (p : Nat) (h : p < l1.length) :
    (l1 ++ l2).getD p 0 = l1.getD p 0 := by
  rw [List.getD_eq_getElem?_getD, List.getD_eq_getElem?_getD, List.getElem?_append_left h]

/-- `getD` on the right part of an append. -/
theorem getD_append_right (l1 l2 : Bytes) (p : Nat) (h : l1.length ≤ p) :
    (l1 ++ l2).getD p 0 = l2.getD (p - l1.length) 0 := by
  rw [List.getD_eq_getElem?_getD, List.getD_eq_getElem?_getD, List.getElem?_append_right h]

/-- Setting an in-range position to a different value changes the list. -/
theorem set_ne_of_getD_ne (l : Bytes) (q b : Nat) (hq : q < l.length) (hb : b ≠ l.getD q 0) :
    l.set q b ≠ l := by
  intro he
  apply hb
  have hc := congrArg (fun x : Bytes => x.getD q 0) he
  simp only at hc
  rw [← hc, List.getD_eq_getElem?_getD,
    List.getElem?_eq_getElem (by rw [List.length_set]; exact hq), List.getElem_set_self,
    Option.getD_some]

/-- The `j`-th 128-bit block is the big-endian value of the `j`-th slice. -/
theorem toBlocks_getD (X : Bytes) (j : Nat) (hj : j < X.length / 16) :
    (toBlocks X).getD j 0 = beBytesToNat ((X.drop (16 * j)).take 16) := by
  unfold toBlocks
  rw [List.getD_eq_getElem?_getD, List.getElem?_map, List.getElem?_range hj]
  rfl

/-- Blocks of a byte-bounded list are 128-bit values. -/
theorem toBlocks_lt (X : Bytes) (hb : ∀ b ∈ X, b < 256) : ∀ B ∈ toBlocks X, B < 2 ^ 128 := by
  intro B hB
  obtain ⟨i, hi, rfl⟩ := List.mem_map.mp hB
  have hsub : ∀ b ∈ (X.drop (16 * i)).take 16, b < 256 := fun b hbm =>
    hb b (List.drop_subset _ _ (List.take_subset _ _ hbm))
  have hlen : ((X.drop (16 * i)).take 16).length ≤ 16 := by
    rw [List.length_take]
    omega
  calc beBytesToNat ((X.drop (16 * i)).take 16)
      < 256 ^ ((X.drop (16 * i)).take 16).length := beBytesToNat_lt _ hsub
    _ ≤ 256 ^ 16 := Nat.pow_le_pow_right (by norm_num) hlen
    _ = 2 ^ 128 := by norm_num

/-- Setting one byte changes exactly the containing 128-bit block. -/
theorem toBlocks_set (X : Bytes) (p b : Nat) (hp : p < X.length) :
    toBlocks (X.set p b) =
      (toBlocks X).set (p / 16)
        (beBytesToNat (((X.drop (16 * (p / 16))).take 16).set (p % 16) b)) := by
  unfold toBlocks
  apply List.ext_getElem
  · simp
  · intro i hi1 hi2
    rw [List.length_map, List.length_range, List.length_set] at hi1
    have hi1' : i < X.length / 16 := hi1
    rw [List.getElem_map, List.getElem_range, List.getElem_set]
    rcases eq_or_ne (p / 16) i with heq | hne
    · rw [if_pos heq, ← heq]
      rw [set_inside_slice X p b (16 * (p / 16)) 16 (by omega) (by omega)]
      congr 2
      omega
    · rw [if_neg hne, List.getElem_map, List.getElem_range]
      rw [set_outside_slice X p b (16 * i) 16 (by omega)]

/-- GHASH distinguishes a block list from the same list with one
block replaced by a different 128-bit value. -/
theorem ghashBlocks_ne_set (h : Nat) (hh : h < 2 ^ 128) (Minv : List Nat)
    (hM : ∀ i < 128, applyLin (fun j => Minv.getD j 0) (gmul128 (2 ^ i) h) = 2 ^ i)
    (bs : List Nat) (j v : Nat) (hj : j < bs.length) (hbs : ∀ b ∈ bs, b < 2 ^ 128)
    (hv : v < 2 ^ 128) (hne : v ≠ bs.getD j 0) :
    ghashBlocks h (bs.set j v) ≠ ghashBlocks h bs := by
  have hgetD : bs.getD j 0 = bs.get ⟨j, hj⟩ := by
    rw [List.getD_eq_getElem?_getD, List.getElem?_eq_getElem hj, Option.getD_some]
    rfl
  have hdec2 : bs.set j v = bs.take j ++ v :: bs.drop (j + 1) := by
    rw [List.set_eq_take_append_cons_drop, if_pos hj]
  have hdec1 : bs = bs.take j ++ bs.getD j 0 :: bs.drop (j + 1) := by
    conv_lhs => rw [← List.take_append_drop j bs]
    rw [List.drop_eq_getElem_cons hj, hgetD]
    rfl
  rw [hdec2]
  conv_rhs => rw [hdec1]
  have hsuf : ∀ b ∈ bs.drop (j + 1), b < 2 ^ 128 := fun b hbm =>
    hbs b (List.drop_subset _ _ hbm)
  exact ghashBlocks_ne h hh Minv hM (bs.take j) (bs.drop (j + 1)) v (bs.getD j 0) hv
    (hbs _ (getD_mem bs j 0 hj)) hsuf hne

/-- Setting a byte inside the unpadded part commutes with `pad16`. -/
theorem pad16_set (C : Bytes) (p b : Nat) (hp : p < C.length) :
    pad16 (C.set p b) = (pad16 C).set p b := by
  unfold pad16
  rw [List.length_set, List.set_append, if_pos hp]

/-- At most 16 bounded bytes read below `2 ^ 128`. -/
theorem beBytesToNat_lt128 (l : Bytes) (hb : ∀ x ∈ l, x < 256) (hl : l.length ≤ 16) :
    beBytesToNat l < 2 ^ 128 := by
  calc beBytesToNat l < 256 ^ l.length := beBytesToNat_lt _ hb
    _ ≤ 256 ^ 16 := Nat.pow_le_pow_right (by norm_num) hl
    _ = 2 ^ 128 := by norm_num

/-- Unfolding of `gcmFullTag`. -/
theorem gcmFullTag_eval (key iv ct : Bytes) :
    gcmFullTag key iv ct = natToBEBytes 16
      (ghashBlocks (beBytesToNat (aesEncryptBlock key (List.replicate 16 0)))
        (toBlocks (pad16 ct ++ natToBEBytes 8 0 ++ natToBEBytes 8 (8 * ct.length))) ^^^
       beBytesToNat (aesEncryptBlock key (natToBEBytes 16
         (gcmJ0 (beBytesToNat (aesEncryptBlock key (List.replicate 16 0))) iv)))) :=
  rfl

/-- An AES block output reads to a 128-bit value. -/
theorem aesBlock_lt128 (key block : Bytes)
    (hk : key.length = 16 ∨ key.length = 24 ∨ key.length = 32)
    (hkb : ∀ x ∈ key, x < 256) (hbl : block.length = 16) (hbb : ∀ x ∈ block, x < 256) :
    beBytesToNat (aesEncryptBlock key block) < 2 ^ 128 := by
  obtain ⟨hl, hbnds⟩ := aesEncryptBlock_ok key block hk hkb hbl hbb
  exact beBytesToNat_lt128 _ hbnds (by omega)

/-- The GHASH key `H = AES_K(0)` is a 128-bit value. -/
theorem ghashKey_lt128 (key : Bytes)
    (hk : key.length = 16 ∨ key.length = 24 ∨ key.length = 32)
    (hkb : ∀ x ∈ key, x < 256) :
    beBytesToNat (aesEncryptBlock key (List.replicate 16 0)) < 2 ^ 128 :=
  aesBlock_lt128 key _ hk hkb (by simp)
    (by intro x hx; rw [List.eq_of_mem_replicate hx]; omega)

/-- Replacing one ciphertext byte by a different value changes the
GCM tag, provided multiplication by the key's GHASH constant is invertible
(witnessed by the basis-inverse list `Minv`). -/
theorem gcmFullTag_flip_ne (key iv C : Bytes) (p b : Nat) (Minv : List Nat)
    (hk : key.length = 16 ∨ key.length = 24 ∨ key.length = 32)
    (hkb : ∀ x ∈ key, x < 256)
    (hCb : ∀ x ∈ C, x < 256)
    (hp : p < C.length) (hblt : b < 256) (hbne : b ≠ C.getD p 0)
    (hM : ∀ i < 128, applyLin (fun j => Minv.getD j 0)
      (gmul128 (2 ^ i) (beBytesToNat (aesEncryptBlock key (List.replicate 16 0)))) = 2 ^ i) :
    gcmFullTag key iv (C.set p b) ≠ gcmFullTag key iv C := by
  have hh : beBytesToNat (aesEncryptBlock key (List.replicate 16 0)) < 2 ^ 128 :=
    ghashKey_lt128 key hk hkb
  have hpadlen : (pad16 C).length = 16 * ((C.length + 15) / 16) := pad16_length C
  have hpX : p < (pad16 C).length := by omega
  have hXb : ∀ x ∈ pad16 C ++ natToBEBytes 8 0 ++ natToBEBytes 8 (8 * C.length), x < 256 := by
    intro x hx
    rcases List.mem_append.mp hx with hx | hx
    · rcases List.mem_append.mp hx with hx | hx
      · exact pad16_bytes C hCb x hx
      · exact natToBEBytes_lt _ _ x hx
    · exact natToBEBytes_lt _ _ x hx
  have hXlen : (pad16 C ++ natToBEBytes 8 0 ++ natToBEBytes 8 (8 * C.length)).length =
      16 * ((C.length + 15) / 16) + 16 := by
    rw [List.length_append, List.length_append, natToBEBytes_length, natToBEBytes_length,
      hpadlen]
  have hXset : pad16 (C.set p b) ++ natToBEBytes 8 0 ++ natToBEBytes 8 (8 * C.length)
      = (pad16 C ++ natToBEBytes 8 0 ++ natToBEBytes 8 (8 * C.length)).set p b := by
    rw [pad16_set C p b hp, List.set_append,
      if_pos (show p < (pad16 C ++ natToBEBytes 8 0).length from by
        rw [List.length_append]; omega),
      List.set_append, if_pos hpX]
  rw [gcmFullTag_eval, gcmFullTag_eval, List.length_set, hXset]
  set X := pad16 C ++ natToBEBytes 8 0 ++ natToBEBytes 8 (8 * C.length) with hXdef
  have hpXlen : p < X.length := by
    rw [hXlen]
    omega
  have hslice16 : ((X.drop (16 * (p / 16))).take 16).length = 16 := by
    rw [List.length_take, List.length_drop, hXlen]
    omega
  have hsliceB : ∀ x ∈ (X.drop (16 * (p / 16))).take 16, x < 256 := fun x hx =>
    hXb x (List.drop_subset _ _ (List.take_subset _ _ hx))
  have hXp : X.getD p 0 = C.getD p 0 := by
    rw [hXdef, getD_append_left _ _ p (by rw [List.length_append]; omega),
      getD_append_left _ _ p hpX]
    unfold pad16
    rw [getD_append_left _ _ p hp]
  have hSne : ghashBlocks (beBytesToNat (aesEncryptBlock key (List.replicate 16 0)))
      (toBlocks (X.set p b)) ≠
      ghashBlocks (beBytesToNat (aesEncryptBlock key (List.replicate 16 0))) (toBlocks X) := by
    rw [toBlocks_set X p b hpXlen]
    apply ghashBlocks_ne_set _ hh Minv hM (toBlocks X) (p / 16) _
      (by simp only [toBlocks, List.length_map, List.length_range]; rw [hXlen]; omega)
      (toBlocks_lt X hXb)
      (beBytesToNat_lt128 _
        (by
          intro x hx
          rcases List.mem_or_eq_of_mem_set hx with hx | rfl
          · exact hsliceB x hx
          · exact hblt)
        (by rw [List.length_set, hslice16]))
    rw [toBlocks_getD X (p / 16) (by rw [hXlen]; omega)]
    apply beBytesToNat_inj
    · rw [List.length_set]
    · intro x hx
      rcases List.mem_or_eq_of_mem_set hx with hx | rfl
      · exact hsliceB x hx
      · exact hblt
    · exact hsliceB
    · apply set_ne_of_getD_ne
      · rw [hslice16]
        omega
      · rw [slice_getD _ _ _ _ (by omega), show 16 * (p / 16) + p % 16 = p from by omega, hXp]
        exact hbne
  intro hTagEq
  apply hSne
  have hS1lt : ghashBlocks (beBytesToNat (aesEncryptBlock key (List.replicate 16 0)))
      (toBlocks (X.set p b)) < 2 ^ 128 := ghashBlocks_lt _ hh _
  have hS2lt : ghashBlocks (beBytesToNat (aesEncryptBlock key (List.replicate 16 0)))
      (toBlocks X) < 2 ^ 128 := ghashBlocks_lt _ hh _
  have hE : beBytesToNat (aesEncryptBlock key (natToBEBytes 16
      (gcmJ0 (beBytesToNat (aesEncryptBlock key (List.replicate 16 0))) iv))) < 2 ^ 128 :=
    aesBlock_lt128 key _ hk hkb (natToBEBytes_length _ _) (natToBEBytes_lt _ _)
  set S1 := ghashBlocks (beBytesToNat (aesEncryptBlock key (List.replicate 16 0)))
    (toBlocks (X.set p b)) with hS1def
  set S2 := ghashBlocks (beBytesToNat (aesEncryptBlock key (List.replicate 16 0)))
    (toBlocks X) with hS2def
  set E := beBytesToNat (aesEncryptBlock key (natToBEBytes 16
    (gcmJ0 (beBytesToNat (aesEncryptBlock key (List.replicate 16 0))) iv))) with hEdef
  have hSS := natToBEBytes_inj 16 (S1 ^^^ E) (S2 ^^^ E) (Nat.xor_lt_two_pow hS1lt hE)
    (Nat.xor_lt_two_pow hS2lt hE) hTagEq
  calc S1 = S1 ^^^ E ^^^ E := (Nat.xor_cancel_right E S1).symm
    _ = S2 ^^^ E ^^^ E := by rw [hSS]
    _ = S2 := Nat.xor_cancel_right E S2

/-- At effective tag length 128 the encrypt adapter emits the
ciphertext followed by the full 16-byte tag: the buggy `tagLength / 8 = 16`
option value reaches node-forge, whose modulo truncation `16 % (16 / 8) = 0`
removes nothing. -/
theorem aesGcmEncrypt_eval (params : AESGCMParams) (key : CryptoKey) (keyBytes iv m : Bytes)
    (hkey : key.rawKey = some keyBytes) (hiv : params.iv = some iv)
    (htag : jsOrDefault params.tagLength 128 = 128) :
    aesGcmEncrypt params key m =
      gcmCtr keyBytes (gcmJ0 (beBytesToNat (aesEncryptBlock keyBytes (List.replicate 16 0))) iv)
          m ++
        gcmFullTag keyBytes iv
          (gcmCtr keyBytes
            (gcmJ0 (beBytesToNat (aesEncryptBlock keyBytes (List.replicate 16 0))) iv) m) := by
  simp only [aesGcmEncrypt, forgeAesGcmEncrypt, hkey, hiv, htag, Option.getD_some]
  rw [show forgeGcmKeptTagBytes (128 / 8) = 16 from by norm_num [forgeGcmKeptTagBytes],
    List.take_of_length_le (le_of_eq (gcmFullTag_length _ _ _))]

/-- At effective tag length 128 the decrypt adapter splits the last
16 bytes, recomputes the full tag over the rest and returns the plaintext on
a match and the authentication failure otherwise. -/
theorem aesGcmDecrypt_eval (params : AESGCMParams) (key : CryptoKey) (keyBytes iv ct tag : Bytes)
    (hkey : key.rawKey = some keyBytes) (hiv : params.iv = some iv)
    (htag : jsOrDefault params.tagLength 128 = 128) (htlen : tag.length = 16) :
    aesGcmDecrypt params key (ct ++ tag) =
      if gcmFullTag keyBytes iv ct = tag
      then .ok (gcmCtr keyBytes
        (gcmJ0 (beBytesToNat (aesEncryptBlock keyBytes (List.replicate 16 0))) iv) ct)
      else .error (.error "AES-GCM decryption failed: authentication tag mismatch") := by
  simp only [aesGcmDecrypt, forgeAesGcmDecrypt, hkey, hiv, htag, Option.getD_some]
  rw [if_neg (show ¬ (ct ++ tag).length < 128 / 8 from by
    rw [List.length_append, htlen]; omega)]
  rw [show (ct ++ tag).length - 128 / 8 = ct.length from by rw [List.length_append, htlen]; omega,
    List.take_left' rfl, List.drop_left' rfl]
  rw [if_neg (show ¬ tag.length ≠ 128 / 8 * 8 / 8 from by rw [htlen]; omega)]
  rw [show forgeGcmKeptTagBytes (128 / 8 * 8) = 16 from by norm_num [forgeGcmKeptTagBytes],
    List.take_of_length_le (le_of_eq (gcmFullTag_length _ _ _))]
  simp only [decide_eq_true_eq]

/-- C3 (amended): at effective tag length 128 — the default, the design
document's scenario and the only value this repository's callers use — the
AES-GCM adapter pair round-trips and authenticates.  For every AES key of a
valid size, every IV and every plaintext: decrypting the untouched output of
`aesGcmEncrypt` with the same parameters returns exactly the plaintext (the
bits/bytes slip in encrypt's `tagLength` option is a no-op under node-forge's
modulo tag truncation at this length); and replacing any single byte of the
ciphertext-plus-tag output by a different byte value makes `aesGcmDecrypt`
throw the authentication failure, where flips inside the ciphertext rest on
the side condition that multiplication by the key's GHASH constant
`H = AES_K(0^16)` is invertible over GF(2^128), supplied as an explicit
basis-inverse certificate `Minv` — a finite check that can fail only for a
key with `H = 0`, none of which is known. -/
theorem c3_roundtrip_and_tamper_128
    (params : AESGCMParams) (key : CryptoKey) (keyBytes iv m : Bytes)
    (hkey : key.rawKey = some keyBytes)
    (hklen : keyBytes.length = 16 ∨ keyBytes.length = 24 ∨ keyBytes.length = 32)
    (hkb : ∀ x ∈ keyBytes, x < 256) (hmb : ∀ x ∈ m, x < 256)
    (hiv : params.iv = some iv)
    (htag : jsOrDefault params.tagLength 128 = 128) :
    aesGcmDecrypt params key (aesGcmEncrypt params key m) = .ok m ∧
    (∀ (H : Nat) (Minv : List Nat),
      H = beBytesToNat (aesEncryptBlock keyBytes (List.replicate 16 0)) →
      (∀ i < 128, applyLin (fun j => Minv.getD j 0) (gmul128 (2 ^ i) H) = 2 ^ i) →
      ∀ p b, p < (aesGcmEncrypt params key m).length → b < 256 →
        b ≠ (aesGcmEncrypt params key m).getD p 0 →
        aesGcmDecrypt params key ((aesGcmEncrypt params key m).set p b) =
          .error (.error "AES-GCM decryption failed: authentication tag mismatch")) := by
  have henc := aesGcmEncrypt_eval params key keyBytes iv m hkey hiv htag
  constructor
  · rw [henc, aesGcmDecrypt_eval params key keyBytes iv _ _ hkey hiv htag
      (gcmFullTag_length _ _ _), if_pos rfl,
      gcmCtr_involutive keyBytes _ m hklen hkb]
  · intro H Minv hH hM p b hp hblt hbne
    subst hH
    obtain ⟨C, hC⟩ : ∃ C, gcmCtr keyBytes
        (gcmJ0 (beBytesToNat (aesEncryptBlock keyBytes (List.replicate 16 0))) iv) m = C :=
      ⟨_, rfl⟩
    rw [hC] at henc
    obtain ⟨T, hT⟩ : ∃ T, gcmFullTag keyBytes iv C = T := ⟨_, rfl⟩
    rw [hT] at henc
    rw [henc] at hp hbne ⊢
    have hClen : C.length = m.length := by
      rw [← hC]
      exact gcmCtr_length _ _ _ hklen hkb
    have hCb : ∀ x ∈ C, x < 256 := by
      rw [← hC]
      exact gcmCtr_bytes _ _ _ hklen hkb hmb
    have hTlen : T.length = 16 := by
      rw [← hT]
      exact gcmFullTag_length _ _ _
    rw [List.length_append, hTlen] at hp
    rcases Nat.lt_or_ge p C.length with hpc | hpc
    · rw [List.set_append, if_pos hpc,
        aesGcmDecrypt_eval params key keyBytes iv (C.set p b) T hkey hiv htag hTlen]
      rw [getD_append_left _ _ p hpc] at hbne
      rw [if_neg (by
        rw [← hT]
        exact gcmFullTag_flip_ne keyBytes iv C p b Minv hklen hkb hCb hpc hblt hbne hM)]
    · rw [List.set_append, if_neg (by omega),
        aesGcmDecrypt_eval params key keyBytes iv C (T.set (p - C.length) b) hkey hiv htag
          (by rw [List.length_set]; exact hTlen)]
      rw [getD_append_right _ _ p hpc] at hbne
      rw [if_neg (by
        intro he
        exact set_ne_of_getD_ne T (p - C.length) b (by omega) hbne (by rw [← he, hT]))]

set_option maxRecDepth 1000000 in
/-- C3 (counterexample): the claim quantifies over every tag length, but at
tag length 64 decrypting the UNTOUCHED output of encrypt raises the
authentication failure: encrypt hands node-forge `64 / 8 = 8` as the
bits-valued `tagLength` option, whose modulo truncation `16 % (8 / 8) = 0`
keeps all 16 tag bytes, while decrypt strips an 8-byte tag and compares it
with a 16-byte recomputed tag.  Run at a 256-bit key, a 12-byte IV and the
design document's plaintext. -/
theorem c3_tag_length_64_cex :
    aesGcmDecrypt { iv := some (List.range 12), tagLength := some 64 }
      { keyType := "secret", algName := "AES-GCM", rawKey := some (List.range 32) }
      (aesGcmEncrypt { iv := some (List.range 12), tagLength := some 64 }
        { keyType := "secret", algName := "AES-GCM", rawKey := some (List.range 32) }
        [72, 101, 108, 108, 111, 44, 32, 65, 69, 83, 45, 71, 67, 77, 33]) =
      .error (.error "AES-GCM decryption failed: authentication tag mismatch") := by
  decide

set_option maxRecDepth 1000000 in
/-- C3 (witness): the amended theorem applied at the design document's own
scenario — key bytes 0..31, IV bytes 0..11, tag length 128, plaintext
"Hello, AES-GCM!" — with the concrete basis-inverse certificate of that
key's GHASH constant: the untouched round trip returns the plaintext, and
flipping output byte 0 (in the ciphertext) or byte 20 (in the tag) raises
the authentication failure. -/
theorem c3_roundtrip_and_tamper_128_witness :
    aesGcmDecrypt { iv := some (List.range 12), tagLength := some 128 }
      { keyType := "secret", algName := "AES-GCM", rawKey := some (List.range 32) }
      (aesGcmEncrypt { iv := some (List.range 12), tagLength := some 128 }
        { keyType := "secret", algName := "AES-GCM", rawKey := some (List.range 32) }
        [72, 101, 108, 108, 111, 44, 32, 65, 69, 83, 45, 71, 67, 77, 33]) =
      .ok [72, 101, 108, 108, 111, 44, 32, 65, 69, 83, 45, 71, 67, 77, 33] ∧
    aesGcmDecrypt { iv := some (List.range 12), tagLength := some 128 }
      { keyType := "secret", algName := "AES-GCM", rawKey := some (List.range 32) }
      ((aesGcmEncrypt { iv := some (List.range 12), tagLength := some 128 }
        { keyType := "secret", algName := "AES-GCM", rawKey := some (List.range 32) }
        [72, 101, 108, 108, 111, 44, 32, 65, 69, 83, 45, 71, 67, 77, 33]).set 0 14) =
      .error (.error "AES-GCM decryption failed: authentication tag mismatch") ∧
    aesGcmDecrypt { iv := some (List.range 12), tagLength := some 128 }
      { keyType := "secret", algName := "AES-GCM", rawKey := some (List.range 32) }
      ((aesGcmEncrypt { iv := some (List.range 12), tagLength := some 128 }
        { keyType := "secret", algName := "AES-GCM", rawKey := some (List.range 32) }
        [72, 101, 108, 108, 111, 44, 32, 65, 69, 83, 45, 71, 67, 77, 33]).set 20 87) =
      .error (.error "AES-GCM decryption failed: authentication tag mismatch") := by
  have h := c3_roundtrip_and_tamper_128
    { iv := some (List.range 12), tagLength := some 128 }
    { keyType := "secret", algName := "AES-GCM", rawKey := some (List.range 32) }
    (List.range 32) (List.range 12) [72, 101, 108, 108, 111, 44, 32, 65, 69, 83, 45, 71, 67, 77, 33]
    rfl (by decide) (by decide) (by decide) rfl (by decide)
  refine ⟨h.1, ?_, ?_⟩
  · exact h.2 322420880160191610720107348101138642816
      [118236643415787637985799146542748524911,
       236473286831575275971598293085497049822,
       215076342480876872599858016476607251901,
       172282453779480065856377463258827656059,
       256835859837155684101103660539152570103,
       85660305031568457127181447668034186735,
       171320610063136914254362895336068373470,
       260229084387609044388689752934755383229,
       92446754132475177702353632459239812987,
       184893508264950355404707264918479625974,
       282057968808096263197763263858456509933,
       141421434956589278812115882547763444699,
       282842869913178557624231765095526889398,
       142991237166753867665052885021904203629,
       285982474333507735330105770043808407258,
       143953534024272559585185666677345861045,
       287907068048545119170371333354691722090,
       153119633437486990757332021540233869013,
       306239266874973981514664043080467738026,
       19642847629875483714230137275901795157,
       39285695259750967428460274551803590314,
       78571390519501934856920549103607180628,
       157142781039003869713841098207214361256,
       314285562078007739427682196414428722512,
       35735438035942999540266443943823764129,
       71470876071885999080532887887647528258,
       142941752143771998161065775775295056516,
       285883504287543996322131551550590113032,
       143755593932345081569237229690909272593,
       287511187864690163138474459381818545186,
       152327873069777078693538273594487515205,
       304655746139554157387076547188975030410,
       11158894175896171967439917251795001621,
       22317788351792343934879834503590003242,
       44635576703584687869759669007180006484,
       89271153407169375739519338014360012968,
       178542306814338751479038676028720025936,
       274672477890012718838041314320058688161,
       126650453120422190092671983470967801155,
       253300906240844380185343966941935602310,
       254048493282554744518964592430605735181,
       250226755382835809694590615166824622619,
       247900191566537603537457888880383775799,
       243247063933941191223192436307502082159,
       233940808668748366594661531161738694879,
       210011386155223053845984492629090542015,
       332293724588641660080317719279678342015,
       66434851074071177353922261433201624831,
       132869702148142354707844522866403249662,
       265739404296284709415689045732806499324,
       103467393949826507756352218055342045177,
       206934787899653015512704436110684090354,
       326140528077501583413757606242865438693,
       54128458051791024020802035359575818187,
       108256916103582048041604070719151636374,
       216513832207164096083208141438303272748,
       180474345215194176314692941423341076057,
       273219642708583905017734616868179410099,
       118427870774424898960443360326087866727,
       236855741548849797920886720652175733454,
       221158163898565579990050099851085997469,
       189763008597997144128376858248906525499,
       297113881457329504136717678760431687287,
       166216348271916097198409484110592421103,
       332432696543832194396818968221184842206,
       72029706967591909478539987557336003517,
       144059413935183818957079975114672007034,
       288118827870367637914159950229344014068,
       153543153081132028244909255289538452969,
       307086306162264056489818510579076905938,
       16020014221315970172923844031998752677,
       32040028442631940345847688063997505354,
       64080056885263880691695376127995010708,
       128160113770527761383390752255990021416,
       256320227541055522766781504511980042832,
       89945952422507797950152363854810510497,
       179891904845015595900304727709621020994,
       272054761968226744188958189440739299973,
       121415021276850240794505733712329024779,
       242830042553700481589011467424658049558,
       233106765908266947326299593396050629677,
       208343300634260215309260617097714411611,
       334274465529855646498485196458047459511,
       70396332956499150190257215789939859823,
       140792665912998300380514431579879719646,
       281585331825996600761028863159759439292,
       135159249009250290447031852909247925113,
       270318498018500580894063705818495850226,
       112625581394258250713101538226720746981,
       225251162788516501426203076453441493962,
       192632094394759323509067583212496140181,
       302852053050853862898099128687610916651,
       7551507998495582989485080249066774103,
       15103015996991165978970160498133548206,
       30206031993982331957940320996267096412,
       60412063987964663915880641992534192824,
       120824127975929327831761283985068385648,
       241648255951858655663522567970136771296,
       225426280721443631983706566245886694849,
       192982330260613584624074562797386541955,
       298235612799422721636497859616270341895,
       3635539478772963957897770347507002895,
       7271078957545927915795540695014005790,
       14542157915091855831591081390028011580,
       29084315830183711663182162780056023160,
       58168631660367423326364325560112046320,
       116337263320734846652728651120224092640,
       232674526641469693305457302240448185280,
       207478822100665707267576034786509522817,
       332545508462666630415116031835637681923,
       72255330805260781515134114786241682951,
       144510661610521563030268229572483365902,
       289021323221043126060536459144966731804,
       150031231799343341046047044879662510137,
       300062463598686682092094089759325020274,
       1972329094161221377475002392494981349,
       3944658188322442754950004784989962698,
       7889316376644885509900009569979925396,
       15778632753289771019800019139959850792,
       31557265506579542039600038279919701584,
       63114531013159084079200076559839403168,
       126229062026318168158400153119678806336,
       252458124052636336316800306239357612672,
       247046016922998993290262042784328377601,
       236221802663724307237185515874269907459,
       214573374145174935131032462054152967175,
       171276517108076190918726354413919086607,
       260140898477487597717416671090456809503]
      (by decide) (by decide) 0 14 (by decide) (by decide) (by decide)
  · exact h.2 322420880160191610720107348101138642816
      [118236643415787637985799146542748524911,
       236473286831575275971598293085497049822,
       215076342480876872599858016476607251901,
       172282453779480065856377463258827656059,
       256835859837155684101103660539152570103,
       85660305031568457127181447668034186735,
       171320610063136914254362895336068373470,
       260229084387609044388689752934755383229,
       92446754132475177702353632459239812987,
       184893508264950355404707264918479625974,
       282057968808096263197763263858456509933,
       141421434956589278812115882547763444699,
       282842869913178557624231765095526889398,
       142991237166753867665052885021904203629,
       285982474333507735330105770043808407258,
       143953534024272559585185666677345861045,
       287907068048545119170371333354691722090,
       153119633437486990757332021540233869013,
       306239266874973981514664043080467738026,
       19642847629875483714230137275901795157,
       39285695259750967428460274551803590314,
       78571390519501934856920549103607180628,
       157142781039003869713841098207214361256,
       314285562078007739427682196414428722512,
       35735438035942999540266443943823764129,
       71470876071885999080532887887647528258,
       142941752143771998161065775775295056516,
       285883504287543996322131551550590113032,
       143755593932345081569237229690909272593,
       287511187864690163138474459381818545186,
       152327873069777078693538273594487515205,
       304655746139554157387076547188975030410,
       11158894175896171967439917251795001621,
       22317788351792343934879834503590003242,
       44635576703584687869759669007180006484,
       89271153407169375739519338014360012968,
       178542306814338751479038676028720025936,
       274672477890012718838041314320058688161,
       126650453120422190092671983470967801155,
       253300906240844380185343966941935602310,
       254048493282554744518964592430605735181,
       250226755382835809694590615166824622619,
       247900191566537603537457888880383775799,
       243247063933941191223192436307502082159,
       233940808668748366594661531161738694879,
       210011386155223053845984492629090542015,
       332293724588641660080317719279678342015,
       66434851074071177353922261433201624831,
       132869702148142354707844522866403249662,
       265739404296284709415689045732806499324,
       103467393949826507756352218055342045177,
       206934787899653015512704436110684090354,
       326140528077501583413757606242865438693,
       54128458051791024020802035359575818187,
       108256916103582048041604070719151636374,
       216513832207164096083208141438303272748,
       180474345215194176314692941423341076057,
       273219642708583905017734616868179410099,
       118427870774424898960443360326087866727,
       236855741548849797920886720652175733454,
       221158163898565579990050099851085997469,
       189763008597997144128376858248906525499,
       297113881457329504136717678760431687287,
       166216348271916097198409484110592421103,
       332432696543832194396818968221184842206,
       72029706967591909478539987557336003517,
       144059413935183818957079975114672007034,
       288118827870367637914159950229344014068,
       153543153081132028244909255289538452969,
       307086306162264056489818510579076905938,
       16020014221315970172923844031998752677,
       32040028442631940345847688063997505354,
       64080056885263880691695376127995010708,
       128160113770527761383390752255990021416,
       256320227541055522766781504511980042832,
       89945952422507797950152363854810510497,
       179891904845015595900304727709621020994,
       272054761968226744188958189440739299973,
       121415021276850240794505733712329024779,
       242830042553700481589011467424658049558,
       233106765908266947326299593396050629677,
       208343300634260215309260617097714411611,
       334274465529855646498485196458047459511,
       70396332956499150190257215789939859823,
       140792665912998300380514431579879719646,
       281585331825996600761028863159759439292,
       135159249009250290447031852909247925113,
       270318498018500580894063705818495850226,
       112625581394258250713101538226720746981,
       225251162788516501426203076453441493962,
       192632094394759323509067583212496140181,
       302852053050853862898099128687610916651,
       7551507998495582989485080249066774103,
       15103015996991165978970160498133548206,
       30206031993982331957940320996267096412,
       60412063987964663915880641992534192824,
       120824127975929327831761283985068385648,
       241648255951858655663522567970136771296,
       225426280721443631983706566245886694849,
       192982330260613584624074562797386541955,
       298235612799422721636497859616270341895,
       3635539478772963957897770347507002895,
       7271078957545927915795540695014005790,
       14542157915091855831591081390028011580,
       29084315830183711663182162780056023160,
       58168631660367423326364325560112046320,
       116337263320734846652728651120224092640,
       232674526641469693305457302240448185280,
       207478822100665707267576034786509522817,
       332545508462666630415116031835637681923,
       72255330805260781515134114786241682951,
       144510661610521563030268229572483365902,
       289021323221043126060536459144966731804,
       150031231799343341046047044879662510137,
       300062463598686682092094089759325020274,
       1972329094161221377475002392494981349,
       3944658188322442754950004784989962698,
       7889316376644885509900009569979925396,
       15778632753289771019800019139959850792,
       31557265506579542039600038279919701584,
       63114531013159084079200076559839403168,
       126229062026318168158400153119678806336,
       252458124052636336316800306239357612672,
       247046016922998993290262042784328377601,
       236221802663724307237185515874269907459,
       214573374145174935131032462054152967175,
       171276517108076190918726354413919086607,
       260140898477487597717416671090456809503]
      (by decide) (by decide) 20 87 (by decide) (by decide) (by decide)

/-- Unfolding of `pure` in the `Except` monad. -/
theorem exceptPureEq {e a : Type} (x : a) : (pure x : Except e a) = .ok x := rfl

/-- Unfolding of bind on a successful `Except`. -/
theorem exceptBindOk {e a b : Type} (x : a) (f : a → Except e b) :
    ((.ok x : Except e a) >>= f) = f x := rfl

/-- Unfolding of `throw` in the `Except` monad. -/
theorem exceptThrowEq {e a : Type} (x : e) : (throw x : Except e a) = .error x := rfl

/-- Byte indexing inside the left part of an appended buffer. -/
theorem jsByte_concrete (l1 l2 : Bytes) (k : Nat) (hk : k < l1.length) :
    jsByte (l1 ++ l2) (some (k : Int)) = some (l1.getD k 0) := by
  have h2 : ((k : Int) < ((l1 ++ l2).length : Int)) := by
    have hlt : k < (l1 ++ l2).length := by simp; omega
    exact_mod_cast hlt
  simp only [jsByte, Int.toNat_natCast, List.getD_eq_getElem?_getD]
  rw [if_pos ⟨Int.natCast_nonneg k, h2⟩, List.getElem?_append_left hk]

/-- Evaluation of the DER length reader on a short-form byte at an in-range
position. -/
theorem readASN1_short (data : Bytes) (k : Nat) (hk : k < data.length)
    (hb : data.getD k 0 &&& 0x80 = 0) :
    readASN1Length data (some (k : Int)) = .ok ⟨some ((data.getD k 0 : Nat) : Int), 1⟩ := by
  have h1 : ¬ ((data.length : Int) ≤ (k : Int)) := by exact_mod_cast Nat.not_le.mpr hk
  have h2 : ¬ ((k : Int) < 0) := by simp
  simp only [List.getD_eq_getElem?_getD] at hb
  simp [readASN1Length, h1, h2, hb, Int.toNat_natCast, List.getD_eq_getElem?_getD]

/-- Evaluation of the DER length reader on a short-form byte inside the left
part of an appended buffer. -/
theorem readASN1_short_append (l1 l2 : Bytes) (k : Nat) (hk : k < l1.length)
    (hb : l1.getD k 0 &&& 0x80 = 0) :
    readASN1Length (l1 ++ l2) (some (k : Int)) = .ok ⟨some ((l1.getD k 0 : Nat) : Int), 1⟩ := by
  have hg : (l1 ++ l2).getD k 0 = l1.getD k 0 := by
    simp only [List.getD_eq_getElem?_getD]
    rw [List.getElem?_append_left hk]
  rw [readASN1_short (l1 ++ l2) k (by simp; omega) (by rw [hg]; exact hb), hg]

/-- The 12 container bytes an Ed25519 SPKI encoding places before the public
key. -/
def spkiPrefix : Bytes := [0x30, 42, 0x30, 5, 6, 3, 0x2b, 0x65, 0x70, 0x03, 33, 0]

/-- The 16 container bytes an Ed25519 PKCS8 encoding places before the seed. -/
def pkcs8Prefix : Bytes :=
  [0x30, 46, 0x02, 1, 0, 0x30, 5, 6, 3, 0x2b, 0x65, 0x70, 0x04, 34, 0x04, 32]

/-- The SPKI encoder produces exactly the twelve-byte container prefix followed
by the 32-byte public key. -/
theorem encodeSPKI_eq (pk : Bytes) (h : pk.length = 32) :
    encodeEd25519PublicKeyToSPKI pk = .ok (spkiPrefix ++ pk) := by
  simp [encodeEd25519PublicKeyToSPKI, encodeASN1Sequence, encodeASN1BitString,
    encodeASN1Length, ed25519Oid, spkiPrefix, h]

/-- The PKCS8 encoder produces exactly the sixteen-byte container prefix
followed by the 32-byte seed. -/
theorem encodePKCS8_eq (seed : Bytes) (h : seed.length = 32) :
    encodeEd25519PrivateKeyToPKCS8 seed = .ok (pkcs8Prefix ++ seed) := by
  simp [encodeEd25519PrivateKeyToPKCS8, encodeASN1Sequence, encodeASN1OctetString,
    encodeASN1Integer, encodeASN1Length, ed25519Oid, pkcs8Prefix, h]

/-- The SPKI parser recovers the key from a well-formed container. -/
theorem extractSPKIAppend (pk : Bytes) (h : pk.length = 32) :
    extractEd25519PublicKeyFromSPKI (spkiPrefix ++ pk) = .ok pk := by
  have e1 : jsByte (spkiPrefix ++ pk) (some 0) = some 0x30 :=
    (jsByte_concrete _ pk 0 (by decide)).trans (by decide)
  have e2 : readASN1Length (spkiPrefix ++ pk) (some 1) = .ok ⟨some 42, 1⟩ :=
    (readASN1_short_append _ pk 1 (by decide) (by decide)).trans (by decide)
  have e3 : jsByte (spkiPrefix ++ pk) (some 2) = some 0x30 :=
    (jsByte_concrete _ pk 2 (by decide)).trans (by decide)
  have e4 : readASN1Length (spkiPrefix ++ pk) (some 3) = .ok ⟨some 5, 1⟩ :=
    (readASN1_short_append _ pk 3 (by decide) (by decide)).trans (by decide)
  have e5 : jsByte (spkiPrefix ++ pk) (some 9) = some 0x03 :=
    (jsByte_concrete _ pk 9 (by decide)).trans (by decide)
  have e6 : readASN1Length (spkiPrefix ++ pk) (some 10) = .ok ⟨some 33, 1⟩ :=
    (readASN1_short_append _ pk 10 (by decide) (by decide)).trans (by decide)
  have eslice : jsSlice (spkiPrefix ++ pk) (some 12) (some 44) = pk := by
    have hl : (spkiPrefix ++ pk).length = 44 := by simp [spkiPrefix, h]
    simp only [jsSlice, jsSliceIndex, hl]
    norm_num [show Int.toNat 44 = 44 from rfl, show Int.toNat 12 = 12 from rfl]
    rw [show (12 : Nat) = spkiPrefix.length from rfl, List.drop_left,
      List.take_of_length_le (by omega)]
  simp [extractEd25519PublicKeyFromSPKI, e1, e2, e3, e4, e5, e6, eslice,
    jadd, jsub, exceptPureEq, exceptBindOk, exceptThrowEq]

/-- The PKCS8 parser recovers the seed from a well-formed (RFC 8410
double-wrapped) container. -/
theorem extractPKCS8Append (seed : Bytes) (h : seed.length = 32) :
    extractEd25519PrivateKeyFromPKCS8 (pkcs8Prefix ++ seed) = .ok seed := by
  have e1 : jsByte (pkcs8Prefix ++ seed) (some 0) = some 0x30 :=
    (jsByte_concrete _ seed 0 (by decide)).trans (by decide)
  have e2 : readASN1Length (pkcs8Prefix ++ seed) (some 1) = .ok ⟨some 46, 1⟩ :=
    (readASN1_short_append _ seed 1 (by decide) (by decide)).trans (by decide)
  have e3 : jsByte (pkcs8Prefix ++ seed) (some 2) = some 0x02 :=
    (jsByte_concrete _ seed 2 (by decide)).trans (by decide)
  have e4 : readASN1Length (pkcs8Prefix ++ seed) (some 3) = .ok ⟨some 1, 1⟩ :=
    (readASN1_short_append _ seed 3 (by decide) (by decide)).trans (by decide)
  have e5 : jsByte (pkcs8Prefix ++ seed) (some 5) = some 0x30 :=
    (jsByte_concrete _ seed 5 (by decide)).trans (by decide)
  have e6 : readASN1Length (pkcs8Prefix ++ seed) (some 6) = .ok ⟨some 5, 1⟩ :=
    (readASN1_short_append _ seed 6 (by decide) (by decide)).trans (by decide)
  have e7 : jsByte (pkcs8Prefix ++ seed) (some 12) = some 0x04 :=
    (jsByte_concrete _ seed 12 (by decide)).trans (by decide)
  have e8 : readASN1Length (pkcs8Prefix ++ seed) (some 13) = .ok ⟨some 34, 1⟩ :=
    (readASN1_short_append _ seed 13 (by decide) (by decide)).trans (by decide)
  have e9 : jsByte (pkcs8Prefix ++ seed) (some 14) = some 0x04 :=
    (jsByte_concrete _ seed 14 (by decide)).trans (by decide)
  have e10 : readASN1Length (pkcs8Prefix ++ seed) (some 15) = .ok ⟨some 32, 1⟩ :=
    (readASN1_short_append _ seed 15 (by decide) (by decide)).trans (by decide)
  have eslice : jsSlice (pkcs8Prefix ++ seed) (some 16) (some 48) = seed := by
    have hl : (pkcs8Prefix ++ seed).length = 48 := by simp [pkcs8Prefix, h]
    simp only [jsSlice, jsSliceIndex, hl]
    norm_num [show Int.toNat 48 = 48 from rfl, show Int.toNat 16 = 16 from rfl]
    rw [show (16 : Nat) = pkcs8Prefix.length from rfl, List.drop_left,
      List.take_of_length_le (by omega)]
  simp [extractEd25519PrivateKeyFromPKCS8, e1, e2, e3, e4, e5, e6, e7, e8, e9, e10,
    eslice, jadd, jsub, exceptPureEq, exceptBindOk, exceptThrowEq]

/-- C4: encoding a 32-byte Ed25519 public key to SPKI and parsing it back
yields the key again, and encoding a 32-byte seed to PKCS8 and parsing it back
yields the seed again — export then re-import restores byte-identical key
material. -/
theorem c4_spki_pkcs8_roundtrip (pk seed : Bytes) (hp : pk.length = 32)
    (hs : seed.length = 32) :
    (encodeEd25519PublicKeyToSPKI pk).bind extractEd25519PublicKeyFromSPKI = .ok pk ∧
    (encodeEd25519PrivateKeyToPKCS8 seed).bind extractEd25519PrivateKeyFromPKCS8 = .ok seed := by
  rw [encodeSPKI_eq pk hp, encodePKCS8_eq seed hs]
  exact ⟨extractSPKIAppend pk hp, extractPKCS8Append seed hs⟩

/-- C4 witness: the round trip at the concrete public key 0,...,31 and the
concrete seed of 32 sevens. -/
theorem c4_spki_pkcs8_roundtrip_witness :
    (encodeEd25519PublicKeyToSPKI (List.range 32)).bind extractEd25519PublicKeyFromSPKI =
      .ok (List.range 32) ∧
    (encodeEd25519PrivateKeyToPKCS8 (List.replicate 32 7)).bind extractEd25519PrivateKeyFromPKCS8 =
      .ok (List.replicate 32 7) :=
  c4_spki_pkcs8_roundtrip (List.range 32) (List.replicate 32 7) (by decide) (by decide)

/-- A natural below 2^31 is its own 32-bit signed interpretation. -/
theorem toInt32_small (m : Nat) (h : m < 2147483648) : toInt32 m = m := by
  unfold toInt32
  rw [Nat.mod_eq_of_lt (by omega)]
  simp [h]

/-- Unsigned reinterpretation of a small non-negative integer. -/
theorem toUInt32_natCast (m : Nat) (h : m < 4294967296) : toUInt32 (m : Int) = m := by
  unfold toUInt32
  rw [Int.emod_eq_of_lt (by positivity) (by exact_mod_cast h)]
  exact Int.toNat_natCast m

/-- Unsigned reinterpretation inverts the signed one modulo 2^32. -/
theorem toUInt32_toInt32 (m : Nat) : toUInt32 (toInt32 m) = m % 4294967296 := by
  unfold toInt32 toUInt32
  have hlt : m % 4294967296 < 4294967296 := Nat.mod_lt _ (by norm_num)
  by_cases h : m % 4294967296 < 2147483648
  · simp only [h, if_true]
    rw [Int.emod_eq_of_lt (by positivity) (by exact_mod_cast hlt)]
    exact Int.toNat_natCast _
  · simp only [h, if_false]
    omega

/-- One `(length << 8) | byte` step on a small accumulator equals the exact
arithmetic step, reinterpreted as Int32. -/
theorem jsStep_eq (acc x : Nat) (hacc : acc < 16777216) (hx : x < 256) :
    jsOr32 (jsShl8 (acc : Int)) x = toInt32 (acc * 256 + x) := by
  unfold jsShl8 jsOr32
  rw [toUInt32_natCast acc (by omega), toUInt32_toInt32,
    Nat.mod_eq_of_lt (by omega : acc * 256 < 4294967296),
    Nat.mod_eq_of_lt (by omega : x < 4294967296)]
  have h4 : Nat.lor (acc * 256) x = acc * 256 + x := by
    rw [show acc * 256 = 2 ^ 8 * acc by ring]
    exact (Nat.mul_add_lt_is_or (by exact_mod_cast hx) acc).symm
  rw [h4]

/-- The JavaScript accumulation loop over at most 4 bytes computes the
big-endian value reinterpreted as a 32-bit signed integer. -/
theorem jsFold_eq (bs : Bytes) : ∀ (acc : Nat), (∀ x ∈ bs, x < 256) →
    bs ≠ [] → bs.length ≤ 4 → acc < 2 ^ (8 * (4 - bs.length)) →
    bs.foldl (fun len b => jsOr32 (jsShl8 len) b) (acc : Int) =
      toInt32 (bs.foldl (fun a b => a * 256 + b) acc) := by
  induction bs with
  | nil => intro acc _ hne _ _; exact absurd rfl hne
  | cons x bs ih =>
      intro acc hb _ hlen hacc
      have hxlt : x < 256 := hb x (by simp)
      simp only [List.foldl_cons]
      by_cases hbs : bs = []
      · subst hbs
        simp only [List.foldl_nil]
        have hacc24 : acc < 16777216 := by
          have : 2 ^ (8 * (4 - ([x] : Bytes).length)) = 16777216 := by norm_num
          omega
        exact jsStep_eq acc x hacc24 hxlt
      · have hn3 : bs.length ≤ 3 := by
          simp only [List.length_cons] at hlen; omega
        have hacc' : acc < 2 ^ (8 * (3 - bs.length)) := by
          have he : 8 * (4 - (x :: bs).length) = 8 * (3 - bs.length) := by
            simp only [List.length_cons]; omega
          rwa [he] at hacc
        have hstep2 : acc * 256 + x < 2 ^ (8 * (4 - bs.length)) := by
          have hmul : 2 ^ (8 * (3 - bs.length)) * 256 = 2 ^ (8 * (4 - bs.length)) := by
            rw [show (256 : Nat) = 2 ^ 8 by norm_num, ← Nat.pow_add]
            congr 1
            omega
          rw [← hmul]
          omega
        have haccsmall : acc < 16777216 := by
          have : 2 ^ (8 * (3 - bs.length)) ≤ 2 ^ 24 := by
            apply Nat.pow_le_pow_right (by norm_num)
            omega
          omega
        have hpos : 0 < bs.length := List.length_pos.mpr hbs
        have hressmall : acc * 256 + x < 2147483648 := by
          have h24 : 2 ^ (8 * (4 - bs.length)) ≤ 2 ^ 24 := by
            apply Nat.pow_le_pow_right (by norm_num)
            omega
          omega
        rw [jsStep_eq acc x haccsmall hxlt, toInt32_small _ hressmall]
        exact_mod_cast ih (acc * 256 + x) (fun y hy => hb y (by simp [hy])) hbs
          (by omega) hstep2

/-- A fold over an index range reading `getD` is a fold over the sliced list. -/
theorem foldRangeGetD (l : Bytes) (start : Nat) (f : Int → Nat → Int) :
    ∀ (k : Nat) (init : Int), start + k ≤ l.length →
    (List.range k).foldl (fun acc j => f acc (l.getD (start + j) 0)) init =
      ((l.drop start).take k).foldl f init := by
  intro k
  induction k with
  | zero => intro init _; simp
  | succ k ih =>
      intro init hk
      rw [List.range_succ, List.foldl_append, List.take_succ, List.foldl_append,
        ih init (by omega)]
      have hlt : start + k < l.length := by omega
      have hgd : (l.drop start)[k]? = some (l.getD (start + k) 0) := by
        rw [List.getElem?_drop, List.getD_eq_getElem?_getD,
          List.getElem?_eq_getElem hlt]
        rfl
      rw [hgd]
      simp

/-- Evaluation of the DER length reader on a valid long-form field. -/
theorem readASN1_long (data : Bytes) (pos k : Nat) (hpos : pos < data.length)
    (hb : data.getD pos 0 &&& 0x80 ≠ 0) (hk : data.getD pos 0 &&& 0x7f = k)
    (h1k : 1 ≤ k) (h4k : k ≤ 4) (hklen : pos + 1 + k ≤ data.length)
    (hbytes : ∀ x ∈ data, x < 256) :
    readASN1Length data (some (pos : Int)) =
      .ok ⟨some (toInt32 (beBytesToNat ((data.drop (pos + 1)).take k))), 1 + k⟩ := by
  have h1 : ¬ ((data.length : Int) ≤ (pos : Int)) := by exact_mod_cast Nat.not_le.mpr hpos
  have h2 : ¬ ((pos : Int) < 0) := by simp
  have hb' : (data.getD pos 0 &&& 128 == 0) = false := by simpa using hb
  have hcond : (k == 0 || decide (k > 4)) = false := by
    simp only [Bool.or_eq_false_iff, decide_eq_false_iff_not, beq_eq_false_iff_ne, ne_eq]
    omega
  have hlen2 : ¬ (data.length < pos + 1 + k) := by omega
  have hfold : (List.range k).foldl
      (fun len j => jsOr32 (jsShl8 len) (data.getD (pos + 1 + j) 0)) (0 : Int) =
      toInt32 (beBytesToNat ((data.drop (pos + 1)).take k)) := by
    have step1 := foldRangeGetD data (pos + 1) (fun len b => jsOr32 (jsShl8 len) b) k
      (0 : Int) (by omega)
    refine step1.trans ?_
    set bs := (data.drop (pos + 1)).take k with hbs
    have hbslen : bs.length = k := by
      rw [hbs, List.length_take, List.length_drop]
      omega
    have hbsb : ∀ x ∈ bs, x < 256 := fun x hx =>
      hbytes x (List.mem_of_mem_drop (List.mem_of_mem_take hx))
    have hbsne : bs ≠ [] := by
      intro hcon
      rw [hcon] at hbslen
      simp at hbslen
      omega
    exact jsFold_eq bs 0 hbsb hbsne (by omega) (by positivity)
  simp only [readASN1Length, h1, if_false, h2, Int.toNat_natCast, hb', hk, hcond,
    Bool.false_eq_true, hlen2, hfold]

/-- Evaluation of the DER length reader on a long-form count above 4. -/
theorem readASN1_long_error (data : Bytes) (pos k : Nat) (hpos : pos < data.length)
    (hb : data.getD pos 0 &&& 0x80 ≠ 0) (hk : data.getD pos 0 &&& 0x7f = k)
    (h4k : 4 < k) :
    readASN1Length data (some (pos : Int)) =
      .error (.error "Invalid ASN.1: invalid length encoding") := by
  have h1 : ¬ ((data.length : Int) ≤ (pos : Int)) := by exact_mod_cast Nat.not_le.mpr hpos
  have h2 : ¬ ((pos : Int) < 0) := by simp
  have hb' : (data.getD pos 0 &&& 128 == 0) = false := by simpa using hb
  have hcond : (k == 0 || decide (k > 4)) = true := by
    simp only [Bool.or_eq_true, decide_eq_true_eq, beq_iff_eq]
    omega
  simp only [readASN1Length, h1, if_false, h2, Int.toNat_natCast, hb', hk, hcond,
    Bool.false_eq_true, if_true]

/-- C5 (amended): for every in-range position, a clear top bit returns the byte
itself with bytesRead 1; a set top bit with count k between 1 and 4 and k
available bytes returns the big-endian integer of those k bytes INTERPRETED AS
A 32-BIT SIGNED (two's-complement) VALUE — equal to the big-endian integer
whenever that is below 2^31 — with bytesRead 1 + k; a count above 4 throws the
malformed-input error. -/
theorem c5_read_length_characterization (data : Bytes) (pos : Nat)
    (hbytes : ∀ x ∈ data, x < 256) (hpos : pos < data.length) :
    (data.getD pos 0 &&& 0x80 = 0 →
       readASN1Length data (some (pos : Int)) =
         .ok ⟨some ((data.getD pos 0 : Nat) : Int), 1⟩) ∧
    (data.getD pos 0 &&& 0x80 ≠ 0 →
       (1 ≤ data.getD pos 0 &&& 0x7f → data.getD pos 0 &&& 0x7f ≤ 4 →
          pos + 1 + (data.getD pos 0 &&& 0x7f) ≤ data.length →
          readASN1Length data (some (pos : Int)) =
            .ok ⟨some (toInt32 (beBytesToNat
                ((data.drop (pos + 1)).take (data.getD pos 0 &&& 0x7f)))),
              1 + (data.getD pos 0 &&& 0x7f)⟩) ∧
       (4 < data.getD pos 0 &&& 0x7f →
          readASN1Length data (some (pos : Int)) =
            .error (.error "Invalid ASN.1: invalid length encoding"))) ∧
    (∀ n : Nat, n < 2147483648 → toInt32 n = (n : Int)) := by
  refine ⟨fun hb => readASN1_short data pos hpos hb, fun hb => ⟨?_, ?_⟩, toInt32_small⟩
  · intro h1k h4k hklen
    exact readASN1_long data pos _ hpos hb rfl h1k h4k hklen hbytes
  · intro h4k
    exact readASN1_long_error data pos _ hpos hb rfl h4k

/-- C5 counterexample: a long-form length field of four bytes FF 00 00 00
makes the reader return the negative Int32 value -16777216, not the big-endian
integer 4278190080 those bytes denote, because of the 32-bit `(length << 8) |
byte` arithmetic. -/
theorem c5_int32_wraparound_cex :
    readASN1Length [0x84, 0xFF, 0, 0, 0] (some 0) = .ok ⟨some (-16777216), 5⟩ ∧
    beBytesToNat [0xFF, 0, 0, 0] = 4278190080 ∧
    ((-16777216 : Int) ≠ (4278190080 : Int)) := by
  exact ⟨by decide, by decide, by decide⟩

/-- C5 witness: the characterization applied to the concrete buffer
[0x82, 1, 2] at position 0 (long form, two length bytes). -/
theorem c5_read_length_characterization_witness :
    readASN1Length [0x82, 1, 2] (some 0) =
      .ok ⟨some (toInt32 (beBytesToNat ((([0x82, 1, 2] : Bytes).drop 1).take
        (([0x82, 1, 2] : Bytes).getD 0 0 &&& 0x7f)))), 1 + (([0x82, 1, 2] : Bytes).getD 0 0 &&& 0x7f)⟩ :=
  ((c5_read_length_characterization [0x82, 1, 2] 0 (by decide) (by decide)).2.1
    (by decide)).1 (by decide) (by decide) (by decide)

/-- Unfolding of bind on a failed `Except`. -/
theorem exceptBindErr {e a b : Type} (x : e) (f : a → Except e b) :
    ((.error x : Except e a) >>= f) = .error x := rfl

/-- A successful SPKI parse implies every tag guard held at the position the
parser visited and the declared payload size was exactly 33 (32 key bytes plus
the unused-bits byte). -/
theorem c6spki (b : Bytes) (pk : Bytes)
    (h : extractEd25519PublicKeyFromSPKI b = .ok pk) :
    jsByte b (some 0) = some 0x30 ∧
    ∃ s1 s2 s3 : ASN1Len,
      readASN1Length b (some 1) = .ok s1 ∧
      jsByte b (jadd (some 1) (some (s1.bytesRead : Int))) = some 0x30 ∧
      readASN1Length b (jadd (jadd (some 1) (some (s1.bytesRead : Int))) (some 1)) = .ok s2 ∧
      jsByte b (jadd (jadd (jadd (some 1) (some (s1.bytesRead : Int))) (some 1))
        (jadd (some (s2.bytesRead : Int)) s2.value)) = some 0x03 ∧
      readASN1Length b (jadd (jadd (jadd (jadd (some 1) (some (s1.bytesRead : Int))) (some 1))
        (jadd (some (s2.bytesRead : Int)) s2.value)) (some 1)) = .ok s3 ∧
      s3.value = some 33 := by
  simp only [extractEd25519PublicKeyFromSPKI] at h
  by_cases h0 : jsByte b (some 0) = some 0x30
  swap
  · simp [h0, exceptThrowEq, exceptBindErr] at h
  refine ⟨h0, ?_⟩
  simp only [h0, ne_eq, not_true_eq_false, if_false, exceptThrowEq, exceptBindErr,
    exceptBindOk, exceptPureEq] at h
  cases hr1 : readASN1Length b (some 1) with
  | error e => rw [hr1, exceptBindErr] at h; cases h
  | ok s1 =>
      rw [hr1, exceptBindOk] at h
      refine ⟨s1, ?_⟩
      by_cases h2 : jsByte b (jadd (some 1) (some (s1.bytesRead : Int))) = some 0x30
      swap
      · simp [h2, exceptThrowEq, exceptBindErr] at h
      simp only [h2, ne_eq, not_true_eq_false, if_false, exceptBindOk, exceptPureEq] at h
      cases hr2 : readASN1Length b (jadd (jadd (some 1) (some (s1.bytesRead : Int))) (some 1)) with
      | error e => rw [hr2, exceptBindErr] at h; cases h
      | ok s2 =>
          rw [hr2, exceptBindOk] at h
          refine ⟨s2, ?_⟩
          by_cases h3 : jsByte b (jadd (jadd (jadd (some 1) (some (s1.bytesRead : Int))) (some 1))
            (jadd (some (s2.bytesRead : Int)) s2.value)) = some 0x03
          swap
          · simp [h3, exceptThrowEq, exceptBindErr] at h
          simp only [h3, ne_eq, not_true_eq_false, if_false, exceptBindOk, exceptPureEq] at h
          cases hr3 : readASN1Length b (jadd (jadd (jadd (jadd (some 1)
            (some (s1.bytesRead : Int))) (some 1))
            (jadd (some (s2.bytesRead : Int)) s2.value)) (some 1)) with
          | error e => rw [hr3, exceptBindErr] at h; cases h
          | ok s3 =>
              rw [hr3, exceptBindOk] at h
              refine ⟨s3, rfl, h2, rfl, h3, rfl, ?_⟩
              by_cases hv : jsub s3.value (some 1) = some 32
              swap
              · simp [hv, exceptThrowEq, exceptBindErr] at h
              cases hsv : s3.value with
              | none => rw [hsv] at hv; simp [jsub] at hv
              | some v =>
                  rw [hsv] at hv
                  simp only [jsub, Option.some.injEq] at hv
                  have hv33 : v = 33 := by omega
                  rw [hv33]

/-- A successful PKCS8 parse implies every tag guard held at the position the
parser visited and the declared seed size (inner or outer, depending on the
RFC 8410 wrapping) was exactly 32. -/
theorem c6pkcs8 (b : Bytes) (seed : Bytes)
    (h : extractEd25519PrivateKeyFromPKCS8 b = .ok seed) :
    jsByte b (some 0) = some 0x30 ∧
    ∃ s1 s2 s3 s4 : ASN1Len,
      readASN1Length b (some 1) = .ok s1 ∧
      jsByte b (jadd (some 1) (some (s1.bytesRead : Int))) = some 0x02 ∧
      readASN1Length b (jadd (jadd (some 1) (some (s1.bytesRead : Int))) (some 1)) = .ok s2 ∧
      jsByte b (jadd (jadd (jadd (some 1) (some (s1.bytesRead : Int))) (some 1))
        (jadd (some (s2.bytesRead : Int)) s2.value)) = some 0x30 ∧
      readASN1Length b (jadd (jadd (jadd (jadd (some 1) (some (s1.bytesRead : Int))) (some 1))
        (jadd (some (s2.bytesRead : Int)) s2.value)) (some 1)) = .ok s3 ∧
      jsByte b (jadd (jadd (jadd (jadd (jadd (some 1) (some (s1.bytesRead : Int))) (some 1))
        (jadd (some (s2.bytesRead : Int)) s2.value)) (some 1))
        (jadd (some (s3.bytesRead : Int)) s3.value)) = some 0x04 ∧
      readASN1Length b (jadd (jadd (jadd (jadd (jadd (jadd (some 1) (some (s1.bytesRead : Int)))
        (some 1)) (jadd (some (s2.bytesRead : Int)) s2.value)) (some 1))
        (jadd (some (s3.bytesRead : Int)) s3.value)) (some 1)) = .ok s4 ∧
      ((jsByte b (jadd (jadd (jadd (jadd (jadd (jadd (jadd (some 1) (some (s1.bytesRead : Int)))
          (some 1)) (jadd (some (s2.bytesRead : Int)) s2.value)) (some 1))
          (jadd (some (s3.bytesRead : Int)) s3.value)) (some 1)) (some (s4.bytesRead : Int))) =
            some 0x04 ∧
        ∃ s5 : ASN1Len,
          readASN1Length b (jadd (jadd (jadd (jadd (jadd (jadd (jadd (jadd (some 1)
            (some (s1.bytesRead : Int))) (some 1)) (jadd (some (s2.bytesRead : Int)) s2.value))
            (some 1)) (jadd (some (s3.bytesRead : Int)) s3.value)) (some 1))
            (some (s4.bytesRead : Int))) (some 1)) = .ok s5 ∧
          s5.value = some 32) ∨
       (jsByte b (jadd (jadd (jadd (jadd (jadd (jadd (jadd (some 1) (some (s1.bytesRead : Int)))
          (some 1)) (jadd (some (s2.bytesRead : Int)) s2.value)) (some 1))
          (jadd (some (s3.bytesRead : Int)) s3.value)) (some 1)) (some (s4.bytesRead : Int))) ≠
            some 0x04 ∧
        s4.value = some 32)) := by
  simp only [extractEd25519PrivateKeyFromPKCS8] at h
  by_cases h0 : jsByte b (some 0) = some 0x30
  swap
  · simp [h0, exceptThrowEq, exceptBindErr] at h
  refine ⟨h0, ?_⟩
  simp only [h0, ne_eq, not_true_eq_false, if_false, exceptThrowEq, exceptBindErr,
    exceptBindOk, exceptPureEq] at h
  cases hr1 : readASN1Length b (some 1) with
  | error e => rw [hr1, exceptBindErr] at h; cases h
  | ok s1 =>
  rw [hr1, exceptBindOk] at h
  refine ⟨s1, ?_⟩
  by_cases h2 : jsByte b (jadd (some 1) (some (s1.bytesRead : Int))) = some 0x02
  swap
  · simp [h2, exceptThrowEq, exceptBindErr] at h
  simp only [h2, ne_eq, not_true_eq_false, if_false, exceptBindOk, exceptPureEq] at h
  cases hr2 : readASN1Length b (jadd (jadd (some 1) (some (s1.bytesRead : Int))) (some 1)) with
  | error e => rw [hr2, exceptBindErr] at h; cases h
  | ok s2 =>
  rw [hr2, exceptBindOk] at h
  refine ⟨s2, ?_⟩
  by_cases h3 : jsByte b (jadd (jadd (jadd (some 1) (some (s1.bytesRead : Int))) (some 1))
    (jadd (some (s2.bytesRead : Int)) s2.value)) = some 0x30
  swap
  · simp [h3, exceptThrowEq, exceptBindErr] at h
  simp only [h3, ne_eq, not_true_eq_false, if_false, exceptBindOk, exceptPureEq] at h
  cases hr3 : readASN1Length b (jadd (jadd (jadd (jadd (some 1) (some (s1.bytesRead : Int)))
    (some 1)) (jadd (some (s2.bytesRead : Int)) s2.value)) (some 1)) with
  | error e => rw [hr3, exceptBindErr] at h; cases h
  | ok s3 =>
  rw [hr3, exceptBindOk] at h
  refine ⟨s3, ?_⟩
  by_cases h4 : jsByte b (jadd (jadd (jadd (jadd (jadd (some 1) (some (s1.bytesRead : Int)))
    (some 1)) (jadd (some (s2.bytesRead : Int)) s2.value)) (some 1))
    (jadd (some (s3.bytesRead : Int)) s3.value)) = some 0x04
  swap
  · simp [h4, exceptThrowEq, exceptBindErr] at h
  simp only [h4, ne_eq, not_true_eq_false, if_false, exceptBindOk, exceptPureEq] at h
  cases hr4 : readASN1Length b (jadd (jadd (jadd (jadd (jadd (jadd (some 1)
    (some (s1.bytesRead : Int))) (some 1)) (jadd (some (s2.bytesRead : Int)) s2.value))
    (some 1)) (jadd (some (s3.bytesRead : Int)) s3.value)) (some 1)) with
  | error e => rw [hr4, exceptBindErr] at h; cases h
  | ok s4 =>
  rw [hr4, exceptBindOk] at h
  refine ⟨s4, rfl, h2, rfl, h3, rfl, h4, rfl, ?_⟩
  by_cases h7 : jsByte b (jadd (jadd (jadd (jadd (jadd (jadd (jadd (some 1)
    (some (s1.bytesRead : Int))) (some 1)) (jadd (some (s2.bytesRead : Int)) s2.value))
    (some 1)) (jadd (some (s3.bytesRead : Int)) s3.value)) (some 1))
    (some (s4.bytesRead : Int))) = some 0x04
  · left
    refine ⟨h7, ?_⟩
    simp only [h7, if_true] at h
    cases hr5 : readASN1Length b (jadd (jadd (jadd (jadd (jadd (jadd (jadd (jadd (some 1)
      (some (s1.bytesRead : Int))) (some 1)) (jadd (some (s2.bytesRead : Int)) s2.value))
      (some 1)) (jadd (some (s3.bytesRead : Int)) s3.value)) (some 1))
      (some (s4.bytesRead : Int))) (some 1)) with
    | error e => rw [hr5, exceptBindErr] at h; cases h
    | ok s5 =>
    rw [hr5, exceptBindOk] at h
    refine ⟨s5, rfl, ?_⟩
    by_cases hv : s5.value = some 32
    · exact hv
    · simp [hv, exceptThrowEq, exceptBindErr] at h
  · right
    refine ⟨h7, ?_⟩
    simp only [h7, if_false] at h
    by_cases hv : s4.value = some 32
    · exact hv
    · simp [hv, exceptThrowEq, exceptBindErr] at h

/-- C6 (amended): every tag-byte check the parsers perform (outer SEQUENCE
0x30, version INTEGER 0x02 for PKCS8, AlgorithmIdentifier SEQUENCE 0x30, BIT
STRING 0x03, OCTET STRING 0x04) and the DECLARED payload size checks (33 for
the SPKI bit string including the unused-bits byte, 32 for the PKCS8 seed) are
enforced: a parse can only succeed when all of them held.  The declared sizes
are however not validated against the actual buffer length, so a truncated
container can still be silently accepted with a payload shorter than 32
bytes. -/
theorem c6_tag_and_declared_size_guards (b : Bytes) :
    (∀ pk, extractEd25519PublicKeyFromSPKI b = .ok pk →
      jsByte b (some 0) = some 0x30 ∧
      ∃ s1 s2 s3 : ASN1Len,
        readASN1Length b (some 1) = .ok s1 ∧
        jsByte b (jadd (some 1) (some (s1.bytesRead : Int))) = some 0x30 ∧
        readASN1Length b (jadd (jadd (some 1) (some (s1.bytesRead : Int))) (some 1)) = .ok s2 ∧
        jsByte b (jadd (jadd (jadd (some 1) (some (s1.bytesRead : Int))) (some 1))
          (jadd (some (s2.bytesRead : Int)) s2.value)) = some 0x03 ∧
        readASN1Length b (jadd (jadd (jadd (jadd (some 1) (some (s1.bytesRead : Int))) (some 1))
          (jadd (some (s2.bytesRead : Int)) s2.value)) (some 1)) = .ok s3 ∧
        s3.value = some 33) ∧
    (∀ seed, extractEd25519PrivateKeyFromPKCS8 b = .ok seed →
      jsByte b (some 0) = some 0x30 ∧
      ∃ s1 s2 s3 s4 : ASN1Len,
        readASN1Length b (some 1) = .ok s1 ∧
        jsByte b (jadd (some 1) (some (s1.bytesRead : Int))) = some 0x02 ∧
        readASN1Length b (jadd (jadd (some 1) (some (s1.bytesRead : Int))) (some 1)) = .ok s2 ∧
        jsByte b (jadd (jadd (jadd (some 1) (some (s1.bytesRead : Int))) (some 1))
          (jadd (some (s2.bytesRead : Int)) s2.value)) = some 0x30 ∧
        readASN1Length b (jadd (jadd (jadd (jadd (some 1) (some (s1.bytesRead : Int))) (some 1))
          (jadd (some (s2.bytesRead : Int)) s2.value)) (some 1)) = .ok s3 ∧
        jsByte b (jadd (jadd (jadd (jadd (jadd (some 1) (some (s1.bytesRead : Int))) (some 1))
          (jadd (some (s2.bytesRead : Int)) s2.value)) (some 1))
          (jadd (some (s3.bytesRead : Int)) s3.value)) = some 0x04 ∧
        readASN1Length b (jadd (jadd (jadd (jadd (jadd (jadd (some 1) (some (s1.bytesRead : Int)))
          (some 1)) (jadd (some (s2.bytesRead : Int)) s2.value)) (some 1))
          (jadd (some (s3.bytesRead : Int)) s3.value)) (some 1)) = .ok s4 ∧
        ((jsByte b (jadd (jadd (jadd (jadd (jadd (jadd (jadd (some 1) (some (s1.bytesRead : Int)))
            (some 1)) (jadd (some (s2.bytesRead : Int)) s2.value)) (some 1))
            (jadd (some (s3.bytesRead : Int)) s3.value)) (some 1)) (some (s4.bytesRead : Int))) =
              some 0x04 ∧
          ∃ s5 : ASN1Len,
            readASN1Length b (jadd (jadd (jadd (jadd (jadd (jadd (jadd (jadd (some 1)
              (some (s1.bytesRead : Int))) (some 1)) (jadd (some (s2.bytesRead : Int)) s2.value))
              (some 1)) (jadd (some (s3.bytesRead : Int)) s3.value)) (some 1))
              (some (s4.bytesRead : Int))) (some 1)) = .ok s5 ∧
            s5.value = some 32) ∨
         (jsByte b (jadd (jadd (jadd (jadd (jadd (jadd (jadd (some 1) (some (s1.bytesRead : Int)))
            (some 1)) (jadd (some (s2.bytesRead : Int)) s2.value)) (some 1))
            (jadd (some (s3.bytesRead : Int)) s3.value)) (some 1)) (some (s4.bytesRead : Int))) ≠
              some 0x04 ∧
          s4.value = some 32))) :=
  ⟨fun pk h => c6spki b pk h, fun seed h => c6pkcs8 b seed h⟩

/-- C6 counterexample: a malformed, truncated SPKI container whose declared
bit-string length claims 33 bytes but whose buffer ends immediately is
accepted silently, returning an EMPTY public key instead of throwing, so a
payload size other than 32 bytes does not always cause a throw. -/
theorem c6_truncated_container_cex :
    extractEd25519PublicKeyFromSPKI [0x30, 5, 0x30, 0, 0x03, 0x21, 0x00] =
      .ok ([] : Bytes) ∧ ([] : Bytes).length ≠ 32 := by
  exact ⟨by decide, by decide⟩

/-- C6 witness: the guard theorem applied to concrete well-formed SPKI and
PKCS8 containers holding the key bytes 0,...,31. -/
theorem c6_tag_and_declared_size_guards_witness :
    jsByte (spkiPrefix ++ List.range 32) (some 0) = some 0x30 ∧
    jsByte (pkcs8Prefix ++ List.range 32) (some 0) = some 0x30 :=
  ⟨((c6_tag_and_declared_size_guards (spkiPrefix ++ List.range 32)).1
      (List.range 32) (by decide)).1,
   ((c6_tag_and_declared_size_guards (pkcs8Prefix ++ List.range 32)).2
      (List.range 32) (by decide)).1⟩
